import Mathlib

/-!
Verification development for the Oniguruma-to-ES parser core
(`src/parse.js`): a shallow embedding of the token-stream → AST parser,
with theorems checking the natural-language specification against it.

The JS heap of AST node objects is embedded as an arena: a list of
`Node` records addressed by allocation index.  Object mutation becomes
functional update of the arena; `parent` back-links and child containers
hold arena indices.  The recursive-descent walker is embedded as a
fuel-indexed interpreter `run` over a job tag mirroring the mutually
recursive functions of the source (`walk`, the character-class body
loop, the group body loop, and the top-level loop of `parse`).
-/

set_option maxHeartbeats 1000000

namespace OnigParse

/-- `AstTypes` from the source: the closed taxonomy of node variants. -/
inductive AstType where
  | Alternative
  | Assertion
  | Backreference
  | CapturingGroup
  | Character
  | CharacterClass
  | CharacterClassIntersection
  | CharacterClassRange
  | CharacterSet
  | Directive
  | Flags
  | Group
  | Pattern
  | Quantifier
  | RegExp
  | Subroutine
  | VariableLengthCharacterSet
deriving DecidableEq, Repr

/-- `TokenTypes` from the tokenizer (the tag set used by the parser's
dispatch; identical names to the source). -/
inductive TokTy where
  | Alternator
  | Assertion
  | Backreference
  | Character
  | CharacterClassClose
  | CharacterClassHyphen
  | CharacterClassIntersector
  | CharacterClassOpen
  | CharacterSet
  | Directive
  | GroupClose
  | GroupOpen
  | Quantifier
  | Subroutine
  | VariableLengthCharacterSet
deriving DecidableEq, Repr

/-- A `{enable, disable}` flag-modifier object (contents opaque to the
parser: it only stores and copies them). -/
structure FlagMods where
  enable : String := ""
  disable : String := ""
deriving DecidableEq, Repr

/-- The `{ignoreCase, dotAll, extended}` flags input of `parse`. -/
structure FlagsIn where
  ignoreCase : Bool := false
  dotAll : Bool := false
  extended : Bool := false
deriving DecidableEq, Repr

/-- A token produced by the tokenizer (§6.1 of the spec): `type` plus
kind-specific fields.  `qmax = none` models JS `Infinity`. -/
structure Token where
  type : TokTy
  raw : String := ""
  value : Nat := 0
  kind : String := ""
  negate : Bool := false
  qmin : Nat := 0
  qmax : Option Nat := some 0
  greedy : Bool := true
  possessive : Bool := false
  number : Nat := 0
  name : Option String := none
  property : String := ""
  gflags : Option FlagMods := none
deriving DecidableEq, Repr

/-- The `ref` field of `Backreference`/`Subroutine` nodes: a JS number
(possibly `NaN`, for the unreachable coercion of a non-numeric bare
backref raw) or a string name. -/
inductive RefVal where
  | num (n : Int)
  | nan
  | name (s : String)
deriving DecidableEq, Repr

/-- An AST node of the arena.  JS objects are dynamic records; each
variant populates only its own fields (§3.1), the rest keep defaults.
`parent`, `elements`, `alternatives`, `classes`, `element`, `rmin`,
`rmax`, `pattern` and `flagsNode` hold arena indices.  `rmin`/`rmax`
are `CharacterClassRange.min/max`; `qmin`/`qmax` are `Quantifier.min/max`
(`none` = Infinity); `flags` is the `Group`/`Directive` flag-modifier
object; `flagsNode` is the `RegExp.flags` child node. -/
structure Node where
  type : AstType
  parent : Option Nat := none
  elements : List Nat := []
  alternatives : List Nat := []
  classes : List Nat := []
  kind : String := ""
  negate : Bool := false
  value : Nat := 0
  number : Nat := 0
  name : Option String := none
  qmin : Nat := 0
  qmax : Option Nat := some 0
  greedy : Bool := true
  possessive : Bool := false
  element : Option Nat := none
  rmin : Nat := 0
  rmax : Nat := 0
  atomic : Bool := false
  flags : Option FlagMods := none
  pattern : Nat := 0
  flagsNode : Nat := 0
  ignoreCase : Bool := false
  dotAll : Bool := false
  extended : Bool := false
  ref : RefVal := .num 0
  property : String := ""
deriving DecidableEq, Repr

instance : Inhabited Node := ⟨{type := .Character}⟩

/-- The parse errors thrown by the source, named as in §7 of the spec;
each constructor corresponds to one `throw new Error(...)` message.
`OutOfFuel` is the artifact of the fuel-indexed embedding (the source
recursion always terminates, consuming at least one token per step). -/
inductive PErr where
  | UnexpectedToken
  | UnclosedGroup
  | UnclosedCharacterClass
  | InvalidRange
  | ClassRangeOutOfOrder
  | RangeOutOfOrder
  | NothingToRepeat
  | VariableLookbehind
  | InsufficientGroups
  | UndefinedGroupName
  | InvalidBackrefName
  | SubroutineGroupUndefined
  | SubroutineNameUndefined
  | SubroutineNameAmbiguous
  | NumericRefWithNamedCapture
  | InvalidGroupName
  | UnknownKind
  | TokenExpected
  | OutOfFuel
deriving DecidableEq, Repr

/-- The parser context plus the arena: `tokens`/`optimize` are the fixed
inputs, the rest is the mutable state of the source's `context` object
together with the heap of nodes. -/
structure PState where
  tokens : List Token
  optimize : Bool
  nodes : List Node := []
  current : Nat := 0
  namedGroups : List (String × List Nat) := []
  capturingGroups : List Nat := []
  subroutines : List Nat := []
  hasNumberedGroupRef : Bool := false
deriving DecidableEq, Repr

/-- Read node `i` of the arena (out-of-range reads never happen on the
paths the source exercises; they default like an untyped JS read). -/
def getN (st : PState) (i : Nat) : Node := st.nodes.getD i default

/-- Write node `i` of the arena (no-op out of range, like `List.set`). -/
def setN (st : PState) (i : Nat) (n : Node) : PState :=
  {st with nodes := st.nodes.set i n}

/-- Allocate a fresh node; its index is the previous arena size. -/
def allocN (st : PState) (n : Node) : Nat × PState :=
  (st.nodes.length, {st with nodes := st.nodes ++ [n]})

/-- `tokens[i]` (`none` = JS `undefined`). -/
def tokenAt (st : PState) (i : Nat) : Option Token := st.tokens.get? i

/-! ### String utilities: the regexes used on `raw`/`ref` texts -/

/-- ASCII decimal digit. -/
def isDigitCh (c : Char) : Bool := '0' ≤ c && c ≤ '9'

/-- Value of a digit character. -/
def digitVal (c : Char) : Nat := c.toNat - 48

/-- Consume the remaining `\d*` of a numeral, accumulating its value;
`none` when a non-digit appears. -/
def parseDigits : List Char → Nat → Option Nat
  | [], acc => some acc
  | c :: cs, acc =>
    if isDigitCh c then parseDigits cs (acc * 10 + digitVal c) else none

/-- Match `0*([1-9]\d*)$` and return the numeral's value. -/
def parseNumBody : List Char → Option Nat
  | [] => none
  | c :: cs =>
    if c = '0' then parseNumBody cs
    else if '1' ≤ c && c ≤ '9' then parseDigits cs (digitVal c)
    else none

/-- The sign group of the numeric-ref regexes. -/
inductive RefSign where
  | noSign
  | plus
  | minus
deriving DecidableEq, Repr

/-- `exec` of `^([-+]?)0*([1-9]\d*)$` (with `plusAllowed := true`, used
by `parseSubroutine`) or of `^(-?)0*([1-9]\d*)$` (with
`plusAllowed := false`, used by `parseBackreference`). -/
def execNumberedRef (plusAllowed : Bool) : List Char → Option (RefSign × Nat)
  | [] => none
  | c :: cs =>
    if c = '-' then (parseNumBody cs).map fun n => (.minus, n)
    else if c = '+' then
      if plusAllowed then (parseNumBody cs).map fun n => (.plus, n) else none
    else (parseNumBody (c :: cs)).map fun n => (.noSign, n)

/-- `/[-+]/.test(ref)`. -/
def hasSignChar (s : List Char) : Bool := s.any fun c => c = '-' || c = '+'

/-- JS unary `+` on the bare-backref numeral (`raw.slice(1)`): the value
for a digit string, `0` for the empty string, `none` (NaN) otherwise.
(The tokenizer only produces digit strings here; full JS `ToNumber`
coercion of other shapes is not reachable.) -/
def jsPlus (s : List Char) : Option Nat :=
  match s with
  | [] => some 0
  | _ => parseDigits s 0

/-- `raw.slice(3, -1)`: the inner text of `\k<...>`/`\k'...'`/`\g<...>`. -/
def innerSlice3 (raw : String) : List Char := (raw.toList.drop 3).dropLast

/-- `/^\\k[<']/.test(raw)`. -/
def hasKWrapper (raw : String) : Bool :=
  match raw.toList with
  | '\\' :: 'k' :: c :: _ => c = '<' || c = '\''
  | _ => false

/-! ### Unicode collaborators (from `unicode.js`, which is not under
`src/`; modelled from the spec §4.9/§6.5) -/

/-- Modelled from the spec: `normalize` from `unicode.js` (not in
`src/`): "normalize by lowercasing and removing whitespace/underscores". -/
def normalize (s : String) : String :=
  String.mk ((s.toList.filter fun c => !(c = ' ' || c = '_')).map Char.toLower)

/-- Modelled from the spec: `PosixProperties` from `unicode.js` (not in
`src/`): "membership test by normalized name" over the POSIX bracket
class names (glossary: `alpha`, `digit`, …). -/
def PosixProperties : List String :=
  ["alnum", "alpha", "ascii", "blank", "cntrl", "digit", "graph", "lower",
   "print", "punct", "space", "upper", "word", "xdigit"]

/-- Modelled from the spec: `JsUnicodePropertiesMap` from `unicode.js`
(not in `src/`): a normalized-name → canonical-target-name mapping whose
contents the parser only looks up; no claim depends on its entries. -/
def JsUnicodePropertiesMap : List (String × String) := []

/-- `/\s+/g → '_'`, streaming: the flag records whether the previous
character was whitespace, so each whitespace run becomes one underscore. -/
def collapseWsAux : Bool → List Char → List Char
  | _, [] => []
  | inWs, c :: cs =>
    if c = ' ' then
      if inWs then collapseWsAux true cs else '_' :: collapseWsAux true cs
    else c :: collapseWsAux false cs

/-- `replace(/\s+/g, '_')`: each whitespace run becomes one underscore. -/
def collapseWs (s : List Char) : List Char := collapseWsAux false s

/-- ASCII lowercase letter. -/
def isLowerCh (c : Char) : Bool := 'a' ≤ c && c ≤ 'z'

/-- ASCII uppercase letter. -/
def isUpperCh (c : Char) : Bool := 'A' ≤ c && c ≤ 'Z'

/-- ASCII letter. -/
def isLetterCh (c : Char) : Bool := isLowerCh c || isUpperCh c

/-- `replace(/[A-Z][a-z]+(?=[A-Z])/g, '$&_')` as a streaming state
machine: state 1 = just read `[A-Z]`, state 2 = read `[A-Z][a-z]+`
ending at the previous character, state 0 = anything else; an
underscore is inserted when an uppercase letter follows state 2. -/
def camelAux : Nat → List Char → List Char
  | _, [] => []
  | s, c :: cs =>
    if isUpperCh c then
      (if s = 2 then ['_', c] else [c]) ++ camelAux 1 cs
    else if isLowerCh c && (s = 1 || s = 2) then c :: camelAux 2 cs
    else c :: camelAux 0 cs

/-- Split camel-case boundaries with an underscore. -/
def camelSplit (s : List Char) : List Char := camelAux 0 s

/-- `replace(/[a-z]+/ig, m => m[0].toUpperCase() + m.slice(1).toLowerCase())`,
streaming: the flag records whether the previous character was a letter,
so every letter run is recased to Titlecase. -/
def titlecaseAux : Bool → List Char → List Char
  | _, [] => []
  | inRun, c :: cs =>
    if isLetterCh c then
      (if inRun then c.toLower else c.toUpper) :: titlecaseAux true cs
    else c :: titlecaseAux false cs

/-- Recase every letter run to Titlecase. -/
def titlecaseRuns (s : List Char) : List Char := titlecaseAux false s

/-- `getJsUnicodePropertyName` from the source: canonical JS property
name via the map, else a best-effort script-name reformat.  (The map
and `normalize` collaborators are spec-modelled, see above; whitespace
is modelled as the space character.) -/
def getJsUnicodePropertyName (property : String) : String :=
  match JsUnicodePropertiesMap.lookup (normalize property) with
  | some jsName => jsName
  | none =>
    String.mk (titlecaseRuns (camelSplit (collapseWs (property.trim.toList))))

/-- Modelled from the spec: `isValidJsGroupName`'s Unicode-identifier
regex (§4.10: initial `$`, `_` or `ID_Start`; then `$`, U+200C, U+200D
or `ID_Continue`), with the Unicode `ID_Start`/`ID_Continue` classes
(whose tables are not in `src/`) restricted to ASCII letters, plus
digits and underscore for the continue class. -/
def isValidJsGroupName (name : String) : Bool :=
  match name.toList with
  | [] => false
  | c :: cs =>
    (c = '$' || c = '_' || isLetterCh c) &&
    cs.all fun d =>
      d = '$' || d = '_' || d.toNat = 0x200C || d.toNat = 0x200D ||
      isLetterCh d || isDigitCh d

/-! ### Kind tables -/

/-- The assertion-kind mapping table of `createAssertionFromToken`. -/
def assertionKindMap (kind : String) : Option String :=
  if kind = "^" then some "line_start"
  else if kind = "$" then some "line_end"
  else if kind = "\\A" then some "string_start"
  else if kind = "\\b" then some "word_boundary"
  else if kind = "\\B" then some "word_boundary"
  else if kind = "\\G" then some "search_start"
  else if kind = "\\z" then some "string_end"
  else if kind = "\\Z" then some "string_end_newline"
  else none

/-- `TokenCharacterSetKinds` = `AstCharacterSetKinds` (identical values,
source line 37); the tokenizer is not in `src/`, the member list follows
the spec §3.1. -/
def characterSetKinds : List String :=
  ["any", "digit", "hex", "posix", "property", "space", "word"]

/-- `AstDirectiveKinds` (identical to the tokenizer's). -/
def directiveKinds : List String := ["flags", "keep"]

/-- The `AstVariableLengthCharacterSetKinds` mapping of
`createVariableLengthCharacterSet`. -/
def vlcsKindMap (kind : String) : Option String :=
  if kind = "\\R" then some "newline"
  else if kind = "\\X" then some "grapheme"
  else none

/-! ### Node constructors (§2 stage 1), one per source factory -/

/-- `getNodeBase`: the `{type, parent}` kernel of every node. -/
def getNodeBase (parent : Option Nat) (type : AstType) : Node :=
  {type := type, parent := parent}

/-- `createAlternative`. -/
def createAlternative (st : PState) (parent : Option Nat) : Nat × PState :=
  allocN st {getNodeBase parent .Alternative with elements := []}

/-- `withInitialAlternative`, acting on the already-allocated node `i`:
allocate its first `Alternative` and install `alternatives := [alt]`. -/
def withInitialAlternative (st : PState) (i : Nat) : Nat × PState :=
  let p := createAlternative st (some i)
  (i, setN p.2 i {getN p.2 i with alternatives := [p.1]})

/-- `createAssertionFromToken`: lookarounds (from a `GroupOpen` token)
get an initial alternative; plain assertions map `token.kind` through
the assertion table, `word_boundary` also records `negate`. -/
def createAssertionFromToken (st : PState) (parent : Nat) (token : Token) :
    Except PErr (Nat × PState) :=
  if token.type = .GroupOpen then
    let kind := if token.kind = "lookbehind" then "lookbehind" else "lookahead"
    let p := allocN st
      {getNodeBase (some parent) .Assertion with kind := kind, negate := token.negate}
    .ok (withInitialAlternative p.2 p.1)
  else
    match assertionKindMap token.kind with
    | none => .error .UnknownKind
    | some kind =>
      let node := {getNodeBase (some parent) .Assertion with kind := kind}
      let node :=
        if kind = "word_boundary" then {node with negate := token.kind = "\\B"} else node
      .ok (allocN st node)

/-- `createBackreference`. -/
def createBackreference (st : PState) (parent : Nat) (ref : RefVal) : Nat × PState :=
  allocN st {getNodeBase (some parent) .Backreference with ref := ref}

/-- `createCapturingGroup` (validates the name per §4.10). -/
def createCapturingGroup (st : PState) (parent : Nat) (number : Nat)
    (name : Option String) : Except PErr (Nat × PState) :=
  match name with
  | some nm =>
    if isValidJsGroupName nm then
      let p := allocN st
        {getNodeBase (some parent) .CapturingGroup with number := number, name := some nm}
      .ok (withInitialAlternative p.2 p.1)
    else .error .InvalidGroupName
  | none =>
    let p := allocN st {getNodeBase (some parent) .CapturingGroup with number := number}
    .ok (withInitialAlternative p.2 p.1)

/-- `createCharacter`. -/
def createCharacter (st : PState) (parent : Nat) (charCode : Nat) : Nat × PState :=
  allocN st {getNodeBase (some parent) .Character with value := charCode}

/-- `createCharacterClassBase`. -/
def createCharacterClassBase (st : PState) (parent : Option Nat) (negate : Bool) :
    Nat × PState :=
  allocN st {getNodeBase parent .CharacterClass with negate := negate, elements := []}

/-- `createCharacterClassIntersection`: an intersection holding one
initial inner class base. -/
def createCharacterClassIntersection (st : PState) (parent : Nat) : Nat × PState :=
  let p := allocN st (getNodeBase (some parent) .CharacterClassIntersection)
  let q := createCharacterClassBase p.2 (some p.1) false
  (p.1, setN q.2 p.1 {getN q.2 p.1 with classes := [q.1]})

/-- `createCharacterClass` = `withInitialIntersection` of a class base:
the wrapper class's `elements` holds exactly the intersection. -/
def createCharacterClass (st : PState) (parent : Nat) (negate : Bool) : Nat × PState :=
  let c := createCharacterClassBase st (some parent) negate
  let i := createCharacterClassIntersection c.2 c.1
  (c.1, setN i.2 c.1 {getN i.2 c.1 with elements := [i.1]})

/-- `createCharacterClassRange` (throws when `max.value < min.value`).
`minI`/`maxI` are the arena indices of the two `Character` sides. -/
def createCharacterClassRange (st : PState) (parent : Nat) (minI maxI : Nat) :
    Except PErr (Nat × PState) :=
  if (getN st maxI).value < (getN st minI).value then .error .ClassRangeOutOfOrder
  else
    .ok (allocN st
      {getNodeBase (some parent) .CharacterClassRange with rmin := minI, rmax := maxI})

/-- `createCharacterSetFromToken`: demote recognized POSIX property
names, validate the kind, attach `negate`/`property` where applicable. -/
def createCharacterSetFromToken (st : PState) (parent : Nat) (token : Token) :
    Except PErr (Nat × PState) :=
  let kp : String × String :=
    if token.kind = "property" then
      let normalized := normalize token.property
      if PosixProperties.contains normalized then ("posix", normalized)
      else (token.kind, token.property)
    else (token.kind, token.property)
  let kind := kp.1
  let property := kp.2
  if characterSetKinds.contains kind then
    let node := {getNodeBase (some parent) .CharacterSet with kind := kind}
    let node :=
      if kind = "digit" || kind = "hex" || kind = "posix" || kind = "property" ||
         kind = "space" || kind = "word" then
        let node := {node with negate := token.negate}
        if kind = "posix" then {node with property := property}
        else if kind = "property" then
          {node with property := getJsUnicodePropertyName property}
        else node
      else node
    .ok (allocN st node)
  else .error .UnknownKind

/-- `createDirectiveFromToken`: validate the kind; a `flags` directive
carries the token's flag modifiers. -/
def createDirectiveFromToken (st : PState) (parent : Nat) (token : Token) :
    Except PErr (Nat × PState) :=
  if directiveKinds.contains token.kind then
    let node := {getNodeBase (some parent) .Directive with kind := token.kind}
    let node := if token.kind = "flags" then {node with flags := token.gflags} else node
    .ok (allocN st node)
  else .error .UnknownKind

/-- `createFlags`: the three pattern flags, carried verbatim (§6.2). -/
def createFlags (st : PState) (parent : Nat) (flags : FlagsIn) : Nat × PState :=
  allocN st
    {getNodeBase (some parent) .Flags with
      ignoreCase := flags.ignoreCase
      dotAll := flags.dotAll
      extended := flags.extended}

/-- `createGroup`: atomic sets `atomic := true`, else present flag
modifiers are stored; then the initial alternative is attached. -/
def createGroup (st : PState) (parent : Nat) (atomic : Bool)
    (flags : Option FlagMods) : Nat × PState :=
  let node := getNodeBase (some parent) .Group
  let node :=
    if atomic then {node with atomic := true}
    else
      match flags with
      | some f => {node with flags := some f}
      | none => node
  let p := allocN st node
  withInitialAlternative p.2 p.1

/-- `createPattern`. -/
def createPattern (st : PState) (parent : Nat) : Nat × PState :=
  let p := allocN st (getNodeBase (some parent) .Pattern)
  withInitialAlternative p.2 p.1

/-- `isWithin`: walk the `parent` chain looking for an ancestor of the
given type (and kind, when one is supplied).  The extra fuel argument
makes the chain walk terminate in the embedding; the source loop always
terminates because live parent chains are acyclic. -/
def isWithin (st : PState) : Nat → Nat → AstType → Option String → Bool
  | 0, _, _, _ => false
  | fuel + 1, i, ty, kind =>
    match (getN st i).parent with
    | none => false
    | some p =>
      if (getN st p).type = ty ∧ (kind = none ∨ kind = some (getN st p).kind) then true
      else isWithin st fuel p ty kind

/-- JS `max < min` where `max` may be `Infinity` (`none`). -/
def qmaxLt : Option Nat → Nat → Bool
  | none, _ => false
  | some mx, mn => mx < mn

/-- `createQuantifier`: validates `max ≥ min`, then the variable-length
lookbehind guard on the freshly allocated node's ancestor chain. -/
def createQuantifier (st : PState) (parent element : Nat) (mn : Nat)
    (mx : Option Nat) (greedy possessive : Bool) : Except PErr (Nat × PState) :=
  if qmaxLt mx mn then .error .RangeOutOfOrder
  else
    let p := allocN st
      {getNodeBase (some parent) .Quantifier with
        qmin := mn
        qmax := mx
        greedy := greedy
        possessive := possessive
        element := some element}
    if some mn ≠ mx ∧ isWithin p.2 p.2.nodes.length p.1 .Assertion (some "lookbehind") then
      .error .VariableLookbehind
    else .ok p

/-- `createRegExp`: the root, its `Pattern` child (with initial
alternative) and its `Flags` child. -/
def createRegExp (st : PState) (parent : Option Nat) (flags : FlagsIn) : Nat × PState :=
  let r := allocN st (getNodeBase parent .RegExp)
  let p := createPattern r.2 r.1
  let f := createFlags p.2 r.1 flags
  (r.1, setN f.2 r.1 {getN f.2 r.1 with pattern := p.1, flagsNode := f.1})

/-- `createSubroutine`. -/
def createSubroutine (st : PState) (parent : Nat) (ref : RefVal) : Nat × PState :=
  allocN st {getNodeBase (some parent) .Subroutine with ref := ref}

/-- `createVariableLengthCharacterSet` (`\R` → newline, `\X` → grapheme). -/
def createVariableLengthCharacterSet (st : PState) (parent : Nat) (kind : String) :
    Except PErr (Nat × PState) :=
  match vlcsKindMap kind with
  | none => .error .UnknownKind
  | some k =>
    .ok (allocN st {getNodeBase (some parent) .VariableLengthCharacterSet with kind := k})

/-- `createByGroupKind`: dispatch a `GroupOpen` token on its kind. -/
def createByGroupKind (st : PState) (parent : Nat) (token : Token) :
    Except PErr (Nat × PState) :=
  if token.kind = "atomic" then .ok (createGroup st parent true none)
  else if token.kind = "capturing" then
    createCapturingGroup st parent token.number token.name
  else if token.kind = "group" then .ok (createGroup st parent false token.gflags)
  else if token.kind = "lookahead" || token.kind = "lookbehind" then
    createAssertionFromToken st parent token
  else .error .UnknownKind

/-! ### Optimizer (§4.4/§4.6 rewrites) -/

/-- `getOptimizedGroup`: collapse a needlessly nested direct child
group, gated by the flag/atomic compatibility checks; on collapse the
inner group is rewired to the outer group's parent and inherits
`atomic` or `flags`. -/
def getOptimizedGroup (st : PState) (nodeIdx : Nat) : Nat × PState :=
  let node := getN st nodeIdx
  let firstAlt := getN st (node.alternatives.headD 0)
  let elIdx := firstAlt.elements.headD 0
  let el := getN st elIdx
  if node.type = .Group ∧ node.alternatives.length = 1 ∧
     firstAlt.elements.length = 1 ∧ el.type = .Group ∧
     ¬(node.atomic ∧ el.flags.isSome) ∧
     ¬(node.flags.isSome ∧ (el.atomic ∨ el.flags.isSome)) then
    let st := setN st elIdx {el with parent := node.parent}
    let st :=
      if node.atomic then setN st elIdx {getN st elIdx with atomic := true}
      else
        match node.flags with
        | some f => setN st elIdx {getN st elIdx with flags := some f}
        | none => st
    (elIdx, st)
  else (nodeIdx, st)

/-- One step of `optimizeCharacterClassIntersection`'s loop at position
`i`: an inner class whose single element is itself a class is replaced
by that child (reparented, negation XOR-combined). -/
def optimizeCCIStep (st : PState) (interIdx i : Nat) : PState :=
  let inter := getN st interIdx
  let ccIdx := inter.classes.getD i 0
  let cc := getN st ccIdx
  let firstChildIdx := cc.elements.headD 0
  let firstChild := getN st firstChildIdx
  if cc.elements.length = 1 ∧ firstChild.type = .CharacterClass then
    let st := setN st interIdx {inter with classes := inter.classes.set i firstChildIdx}
    setN st firstChildIdx
      {getN st firstChildIdx with
        parent := some interIdx
        negate := xor cc.negate firstChild.negate}
  else st

/-- The loop of `optimizeCharacterClassIntersection`: `cnt` positions
starting at `i` (the classes list's length is stable across steps). -/
def optimizeCCILoop (st : PState) (interIdx : Nat) : Nat → Nat → PState
  | _, 0 => st
  | i, cnt + 1 => optimizeCCILoop (optimizeCCIStep st interIdx i) interIdx (i + 1) cnt

/-- `optimizeCharacterClassIntersection`. -/
def optimizeCharacterClassIntersection (st : PState) (interIdx : Nat) : PState :=
  optimizeCCILoop st interIdx 0 (getN st interIdx).classes.length

/-! ### Sub-parsers -/

/-- JS `num > numCapsToLeft` where `num` may be NaN (`none`). -/
def jsGtNat : Option Nat → Nat → Bool
  | none, _ => false
  | some n, m => m < n

/-- The `fromNum` closure of `parseBackreference`: range-check the
parsed number against the groups opened so far, set the numbered-ref
flag, emit the (relatively resolved) backreference. -/
def fromNum (st : PState) (parent : Nat) (num : Option Nat) (isRelative : Bool) :
    Except PErr (Nat × PState) :=
  let numCapsToLeft := st.capturingGroups.length
  if jsGtNat num numCapsToLeft then .error .InsufficientGroups
  else
    let st := {st with hasNumberedGroupRef := true}
    let r : RefVal :=
      match num with
      | some n => .num (if isRelative then (numCapsToLeft : Int) + 1 - n else n)
      | none => .nan
    .ok (createBackreference st parent r)

/-- `parseBackreference`. -/
def parseBackreference (st : PState) (parent : Nat) (token : Token) :
    Except PErr (Nat × PState) :=
  let raw := token.raw
  if hasKWrapper raw then
    let ref := innerSlice3 raw
    match execNumberedRef false ref with
    | some sn => fromNum st parent (some sn.2) (sn.1 = .minus)
    | none =>
      if hasSignChar ref then .error .InvalidBackrefName
      else if (st.namedGroups.lookup (String.mk ref)).isSome then
        .ok (createBackreference st parent (.name (String.mk ref)))
      else .error .UndefinedGroupName
  else fromNum st parent (jsPlus (token.raw.toList.drop 1)) false

/-- `parseSubroutine`: numeric refs are resolved to absolute numbers at
parse time (`""`/`+`/`-` signs per §4.8) and the numbered-ref flag set;
the node is registered for post-pass validation. -/
def parseSubroutine (st : PState) (parent : Nat) (token : Token) : Nat × PState :=
  let refStr := innerSlice3 token.raw
  match execNumberedRef true refStr with
  | some sn =>
    let numCapsToLeft := st.capturingGroups.length
    let st := {st with hasNumberedGroupRef := true}
    let r : Int :=
      match sn.1 with
      | .noSign => sn.2
      | .plus => numCapsToLeft + sn.2
      | .minus => (numCapsToLeft : Int) + 1 - sn.2
    let p := createSubroutine st parent (.num r)
    (p.1, {p.2 with subroutines := p.2.subroutines ++ [p.1]})
  | none =>
    let p := createSubroutine st parent (.name (String.mk refStr))
    (p.1, {p.2 with subroutines := p.2.subroutines ++ [p.1]})

/-- `parseQuantifier`: quantify the preceding sibling (pop it, wrap it,
reparent it). -/
def parseQuantifier (st : PState) (parent : Nat) (token : Token) :
    Except PErr (Nat × PState) :=
  match (getN st parent).elements.getLast? with
  | none => .error .NothingToRepeat
  | some lastEl =>
    match createQuantifier st parent lastEl token.qmin token.qmax token.greedy
        token.possessive with
    | .error e => .error e
    | .ok qs =>
      let st2 := setN qs.2 lastEl {getN qs.2 lastEl with parent := some qs.1}
      let st3 := setN st2 parent
        {getN st2 parent with elements := (getN st2 parent).elements.dropLast}
      .ok (qs.1, st3)

/-- Update the named-groups map-of-lists: ensure an entry for `nm`,
append `idx` to it (the source's `if (!has) set(name, []); get(...).push`). -/
def updateAssoc : List (String × List Nat) → String → Nat → List (String × List Nat)
  | [], nm, idx => [(nm, [idx])]
  | kv :: rest, nm, idx =>
    if kv.1 = nm then (kv.1, kv.2 ++ [idx]) :: rest else kv :: updateAssoc rest nm idx

/-- Register a named capturing group in the context. -/
def registerNamed (st : PState) (nm : String) (idx : Nat) : PState :=
  {st with namedGroups := updateAssoc st.namedGroups nm idx}

/-- The registration step of `parseGroupOpen`: a capturing group is
pushed onto `capturingGroups` and, when named, into the named-groups
map. -/
def registerGroup (st : PState) (g : Nat) : PState :=
  if (getN st g).type = .CapturingGroup then
    let st' := {st with capturingGroups := st.capturingGroups ++ [g]}
    match (getN st' g).name with
    | some nm => registerNamed st' nm g
    | none => st'
  else st

/-- The guard of `parseCharacterClassHyphen` deciding whether a range is
formed: the previous element exists and is not a `CharacterClass`, and
the (unconsumed) lookahead token exists and is not a class open, close
or intersector. -/
def hyphenRangeGuard (st : PState) (parent : Nat) (nextToken : Option Token) : Bool :=
  match (getN st parent).elements.getLast?, nextToken with
  | some prev, some nt =>
    !((getN st prev).type == .CharacterClass) &&
    !(nt.type == .CharacterClassOpen) && !(nt.type == .CharacterClassClose) &&
    !(nt.type == .CharacterClassIntersector)
  | _, _ => false

/-! ### Post-pass validator (§4.11) -/

/-- The subroutine loop of `parse`'s post-pass: first failure wins.
(A `nan` ref cannot occur in `subroutines`; JS's always-false NaN
comparisons would let it pass, as modelled.) -/
def checkSubroutines (st : PState) : List Nat → Except PErr Unit
  | [] => .ok ()
  | i :: rest =>
    match (getN st i).ref with
    | .num n =>
      if n < 1 ∨ (st.capturingGroups.length : Int) < n then .error .SubroutineGroupUndefined
      else checkSubroutines st rest
    | .nan => checkSubroutines st rest
    | .name s =>
      match st.namedGroups.lookup s with
      | none => .error .SubroutineNameUndefined
      | some l =>
        if l.length > 1 then .error .SubroutineNameAmbiguous else checkSubroutines st rest

/-- The whole post-pass: numeric/named mutual exclusion, then the
subroutine checks. -/
def validateContext (st : PState) : Except PErr Unit :=
  if st.hasNumberedGroupRef ∧ st.namedGroups.length ≠ 0 then
    .error .NumericRefWithNamedCapture
  else checkSubroutines st st.subroutines

/-! ### The walker -/

/-- The mutually recursive procedures of the source, as job tags for the
fuel-indexed interpreter: `walk` (advance-and-dispatch), the body loop
of `parseCharacterClassOpen`, the body loop of `parseGroupOpen`, and the
top-level loop of `parse`. -/
inductive Job where
  | walk (parent : Nat)
  | classBody (interIdx : Nat)
  | groupBody (nodeIdx : Nat)
  | mainLoop (ast top : Nat)
deriving DecidableEq, Repr

/-- The interpreter: one fuel unit per (mutually) recursive call.  The
source recursion consumes at least one token per nested call, so any
fuel at least `2 * tokens.length + 2` behaves like the source; the
claims quantify over the fuel.  Returns the produced node's index
(loops return a dummy `0`) and the updated state. -/
def run : Nat → Job → PState → Except PErr (Nat × PState)
  | 0, _, _ => .error .OutOfFuel
  | fuel + 1, .walk parent, st =>
    match tokenAt st st.current with
    | none => .error .TokenExpected
    | some token =>
      let st := {st with current := st.current + 1}
      match token.type with
      | .Alternator => .ok (createAlternative st (getN st parent).parent)
      | .Assertion => createAssertionFromToken st parent token
      | .Backreference => parseBackreference st parent token
      | .Character => .ok (createCharacter st parent token.value)
      | .CharacterClassHyphen =>
        let nextToken := tokenAt st st.current
        if hyphenRangeGuard st parent nextToken then
          match (getN st parent).elements.getLast? with
          | none => .error .InvalidRange
          | some prevNode =>
            match run fuel (.walk parent) st with
            | .error e => .error e
            | .ok ns =>
              let nextNode := ns.1
              let st1 := ns.2
              if (getN st1 prevNode).type = .Character ∧
                 (getN st1 nextNode).type = .Character then
                let st2 := setN st1 parent
                  {getN st1 parent with elements := (getN st1 parent).elements.dropLast}
                match createCharacterClassRange st2 parent prevNode nextNode with
                | .error e => .error e
                | .ok rs =>
                  let st4 := setN rs.2 prevNode
                    {getN rs.2 prevNode with parent := some rs.1}
                  let st5 := setN st4 nextNode
                    {getN st4 nextNode with parent := some rs.1}
                  .ok (rs.1, st5)
              else .error .InvalidRange
        else .ok (createCharacter st parent 45)
      | .CharacterClassOpen =>
        let cs := createCharacterClass st parent token.negate
        let c := cs.1
        let interIdx := (getN cs.2 c).elements.headD 0
        match run fuel (.classBody interIdx) cs.2 with
        | .error e => .error e
        | .ok bs =>
          let st2 := bs.2
          let st3 := if st2.optimize then optimizeCharacterClassIntersection st2 interIdx
                     else st2
          if (getN st3 interIdx).classes.length = 1 then
            let ccIdx := (getN st3 interIdx).classes.headD 0
            let st4 := setN st3 ccIdx
              {getN st3 ccIdx with
                parent := some parent
                negate := xor (getN st3 c).negate (getN st3 ccIdx).negate}
            .ok (ccIdx, {st4 with current := st4.current + 1})
          else .ok (c, {st3 with current := st3.current + 1})
      | .CharacterSet => createCharacterSetFromToken st parent token
      | .Directive => createDirectiveFromToken st parent token
      | .GroupOpen =>
        match createByGroupKind st parent token with
        | .error e => .error e
        | .ok gs =>
          let g := gs.1
          let st2 := registerGroup gs.2 g
          match run fuel (.groupBody g) st2 with
          | .error e => .error e
          | .ok bs =>
            let st3 := bs.2
            let ns := if st3.optimize then getOptimizedGroup st3 g else (g, st3)
            .ok (ns.1, {ns.2 with current := ns.2.current + 1})
      | .Quantifier => parseQuantifier st parent token
      | .Subroutine => .ok (parseSubroutine st parent token)
      | .VariableLengthCharacterSet =>
        createVariableLengthCharacterSet st parent token.kind
      | _ => .error .UnexpectedToken
  | fuel + 1, .classBody interIdx, st =>
    match tokenAt st st.current with
    | none => .error .UnclosedCharacterClass
    | some nt =>
      if nt.type = .CharacterClassClose then .ok (0, st)
      else if nt.type = .CharacterClassIntersector then
        let bs := createCharacterClassBase st (some interIdx) false
        let st2 := setN bs.2 interIdx
          {getN bs.2 interIdx with classes := (getN bs.2 interIdx).classes ++ [bs.1]}
        run fuel (.classBody interIdx) {st2 with current := st2.current + 1}
      else
        let ccIdx := (getN st interIdx).classes.getLastD 0
        match run fuel (.walk ccIdx) st with
        | .error e => .error e
        | .ok es =>
          let st2 := setN es.2 ccIdx
            {getN es.2 ccIdx with elements := (getN es.2 ccIdx).elements ++ [es.1]}
          run fuel (.classBody interIdx) st2
  | fuel + 1, .groupBody nodeIdx, st =>
    match tokenAt st st.current with
    | none => .error .UnclosedGroup
    | some nt =>
      if nt.type = .GroupClose then .ok (0, st)
      else if nt.type = .Alternator then
        let as' := createAlternative st (some nodeIdx)
        let st2 := setN as'.2 nodeIdx
          {getN as'.2 nodeIdx with
           alternatives := (getN as'.2 nodeIdx).alternatives ++ [as'.1]}
        run fuel (.groupBody nodeIdx) {st2 with current := st2.current + 1}
      else
        let altIdx := (getN st nodeIdx).alternatives.getLastD 0
        match run fuel (.walk altIdx) st with
        | .error e => .error e
        | .ok es =>
          let st2 := setN es.2 altIdx
            {getN es.2 altIdx with elements := (getN es.2 altIdx).elements ++ [es.1]}
          run fuel (.groupBody nodeIdx) st2
  | fuel + 1, .mainLoop ast top, st =>
    if st.current < st.tokens.length then
      match run fuel (.walk top) st with
      | .error e => .error e
      | .ok ns =>
        let node := ns.1
        let st1 := ns.2
        if (getN st1 node).type = .Alternative then
          let pat := (getN st1 ast).pattern
          let st2 := setN st1 pat
            {getN st1 pat with alternatives := (getN st1 pat).alternatives ++ [node]}
          run fuel (.mainLoop ast node) st2
        else
          let st2 := setN st1 top
            {getN st1 top with elements := (getN st1 top).elements ++ [node]}
          run fuel (.mainLoop ast top) st2
    else .ok (0, st)

/-- The prologue of `parse`: fresh context, `createRegExp`, and the
initial `top` alternative.  Returns `(ast, top, state)`. -/
def parseSetup (tokens : List Token) (flags : FlagsIn) (optimize : Bool) :
    Nat × Nat × PState :=
  let st0 : PState := {tokens := tokens, optimize := optimize}
  let rs := createRegExp st0 none flags
  (rs.1, (getN rs.2 (getN rs.2 rs.1).pattern).alternatives.headD 0, rs.2)

/-- `parse`: build the root, run the main loop, run the post-pass,
return the root index with the final arena. -/
def parse (fuel : Nat) (tokens : List Token) (flags : FlagsIn) (optimize : Bool) :
    Except PErr (Nat × PState) :=
  let s := parseSetup tokens flags optimize
  match run fuel (.mainLoop s.1 s.2.1) s.2.2 with
  | .error e => .error e
  | .ok ms =>
    match validateContext ms.2 with
    | .error e => .error e
    | .ok _ => .ok (s.1, ms.2)

/-- `parse` at a fuel that covers any run on the given tokens (each
interpreter call consumes a token or returns). -/
def parseTokens (tokens : List Token) (flags : FlagsIn) (optimize : Bool) :
    Except PErr (Nat × PState) :=
  parse (4 * tokens.length + 16) tokens flags optimize

/-! ### Arena access lemmas -/

theorem listGetD_ge {l : List Node} {i : Nat} (h : l.length ≤ i) :
    l.getD i default = default := by
  induction l generalizing i with
  | nil => cases i <;> rfl
  | cons x xs ih =>
    cases i with
    | zero => simp at h
    | succ j => simpa [List.getD] using ih (Nat.le_of_succ_le_succ h)

theorem listGetD_append_self (l : List Node) (n : Node) :
    (l ++ [n]).getD l.length default = n := by
  induction l with
  | nil => rfl
  | cons x xs ih => simp [List.getD, ih]

theorem listGetD_append_lt {l : List Node} {i : Nat} (n : Node) (h : i < l.length) :
    (l ++ [n]).getD i default = l.getD i default := by
  induction l generalizing i with
  | nil => simp at h
  | cons x xs ih =>
    cases i with
    | zero => rfl
    | succ j => simpa [List.getD] using ih (Nat.lt_of_succ_lt_succ h)

theorem listGetD_set_self {l : List Node} {i : Nat} (n : Node) (h : i < l.length) :
    (l.set i n).getD i default = n := by
  induction l generalizing i with
  | nil => simp at h
  | cons x xs ih =>
    cases i with
    | zero => rfl
    | succ j => simpa [List.getD] using ih (Nat.lt_of_succ_lt_succ h)

theorem listGetD_set_ne {l : List Node} {i j : Nat} (n : Node) (h : j ≠ i) :
    (l.set i n).getD j default = l.getD j default := by
  induction l generalizing i j with
  | nil => rfl
  | cons x xs ih =>
    cases i with
    | zero => cases j with | zero => exact absurd rfl h | succ k => rfl
    | succ i' =>
      cases j with
      | zero => rfl
      | succ k => simpa [List.getD] using ih fun hk => h (by omega)

theorem nodes_allocN (st : PState) (n : Node) :
    (allocN st n).2.nodes = st.nodes ++ [n] := rfl

theorem length_allocN (st : PState) (n : Node) :
    (allocN st n).2.nodes.length = st.nodes.length + 1 := by
  simp [allocN]

theorem fst_allocN (st : PState) (n : Node) : (allocN st n).1 = st.nodes.length := rfl

theorem getN_allocN_self (st : PState) (n : Node) :
    getN (allocN st n).2 st.nodes.length = n := by
  simp [getN, allocN, listGetD_append_self st.nodes n]

theorem getN_allocN_lt (st : PState) (n : Node) {i : Nat} (h : i < st.nodes.length) :
    getN (allocN st n).2 i = getN st i := by
  simpa [getN, allocN] using listGetD_append_lt n h

theorem length_setN (st : PState) (i : Nat) (n : Node) :
    (setN st i n).nodes.length = st.nodes.length := by
  simp [setN]

theorem getN_setN_self (st : PState) {i : Nat} (n : Node) (h : i < st.nodes.length) :
    getN (setN st i n) i = n := by
  simpa [getN, setN] using listGetD_set_self n h

theorem getN_setN_ne (st : PState) (i : Nat) (n : Node) {j : Nat} (h : j ≠ i) :
    getN (setN st i n) j = getN st j := by
  simpa [getN, setN] using listGetD_set_ne n h

theorem getN_ge (st : PState) {i : Nat} (h : st.nodes.length ≤ i) :
    getN st i = default := listGetD_ge h

/-! ## Claim C10: parsing the empty token sequence -/

/-- C10: parsing an empty token sequence succeeds and returns a `RegExp`
root whose pattern has exactly one `Alternative` with an empty elements
list, and whose `Flags` node carries the input `ignoreCase`, `dotAll`
and `extended` values verbatim. -/
theorem C10_empty_tokens (ic da ex : Bool) :
    (parseTokens [] {ignoreCase := ic, dotAll := da, extended := ex} false).map
      (fun p =>
        ((getN p.2 p.1).type,
         (getN p.2 (getN p.2 p.1).pattern).type,
         (getN p.2 (getN p.2 p.1).pattern).alternatives.map
           (fun a => ((getN p.2 a).type, (getN p.2 a).elements)),
         (getN p.2 (getN p.2 p.1).flagsNode).type,
         (getN p.2 (getN p.2 p.1).flagsNode).ignoreCase,
         (getN p.2 (getN p.2 p.1).flagsNode).dotAll,
         (getN p.2 (getN p.2 p.1).flagsNode).extended))
    = .ok (.RegExp, .Pattern, [(.Alternative, [])], .Flags, ic, da, ex) := by
  cases ic <;> cases da <;> cases ex <;> rfl

/-! ## Claim C3: `(?:(a))` under `optimize: true` -/

/-- The token sequence of `(?:(a))`. -/
def tokensC3 : List Token :=
  [{type := .GroupOpen, kind := "group"},
   {type := .GroupOpen, kind := "capturing", number := 1},
   {type := .Character, value := 97},
   {type := .GroupClose},
   {type := .GroupClose}]

/-- C3 counterexample: parsing `(?:(a))` with `optimize: true` does NOT
collapse the outer non-capturing group.  The parent of the original
outer group is the pattern's first alternative (index 2); its elements
hold only a `Group` (no `CapturingGroup`), and the `CapturingGroup`
with number 1 sits under that group's alternative (index 5) instead
(`getOptimizedGroup` collapses only when the inner element's type is
`Group`, which a `CapturingGroup` is not). -/
theorem C3_counterexample :
    (parseTokens tokensC3 {} true).map
      (fun p =>
        ((getN p.2 2).elements.map fun e => (getN p.2 e).type,
         (getN p.2 4).alternatives,
         (getN p.2 5).elements.map fun e =>
           ((getN p.2 e).type, (getN p.2 e).number, (getN p.2 e).parent)))
    = .ok ([.Group], [5], [(.CapturingGroup, 1, some 5)]) := by rfl

/-- C3 amended: for the token sequence of `(?:(a))` parsed with
`optimize: true`, the outer non-capturing `Group` does not collapse
(the redundant-nesting collapse requires the sole inner element to be
itself of type `Group`, and a `CapturingGroup` is not): the outer group
stays directly under the pattern's first alternative, without `atomic`
or `flags`, and the `CapturingGroup` with number 1 sits under the outer
group's single alternative. -/
theorem C3_amended_thm :
    (parseTokens tokensC3 {} true).map
      (fun p =>
        (p.1,
         (getN p.2 (getN p.2 p.1).pattern).alternatives,
         (getN p.2 2).type, (getN p.2 2).elements,
         (getN p.2 4).type, (getN p.2 4).atomic, (getN p.2 4).flags,
         (getN p.2 4).parent, (getN p.2 4).alternatives,
         (getN p.2 5).type, (getN p.2 5).elements,
         (getN p.2 6).type, (getN p.2 6).number, (getN p.2 6).parent))
    = .ok (0, [2], .Alternative, [4], .Group, false, none, some 2, [5],
           .Alternative, [6], .CapturingGroup, 1, some 5) := by rfl

/-! ## Claim C2: legality of the redundant-group-nesting collapse -/

/-- The token sequence of `(?>(?i:a))`: an atomic group around a
flag-modifier group. -/
def tokensC2 : List Token :=
  [{type := .GroupOpen, kind := "atomic"},
   {type := .GroupOpen, kind := "group", gflags := some {enable := "i"}},
   {type := .Character, value := 97},
   {type := .GroupClose},
   {type := .GroupClose}]

/-- C2 counterexample: an outer atomic group around an inner group with
flags is NOT a legal merger.  Parsing `(?>(?i:a))` with `optimize: true`
leaves the nesting in place: the outer atomic `Group` (index 4) stays
under the pattern's first alternative and still holds the inner flags
`Group` (index 6), which gains no `atomic` and keeps its parent
(`getOptimizedGroup`'s guard `!(node.atomic && firstAltFirstEl.flags)`
rejects the collapse). -/
theorem C2_counterexample :
    (parseTokens tokensC2 {} true).map
      (fun p =>
        ((getN p.2 2).elements.map fun e =>
           ((getN p.2 e).type, (getN p.2 e).atomic, (getN p.2 e).flags),
         (getN p.2 4).alternatives,
         (getN p.2 5).elements,
         (getN p.2 6).type, (getN p.2 6).atomic, (getN p.2 6).flags,
         (getN p.2 6).parent))
    = .ok ([(.Group, true, none)], [5], [6], .Group, false,
           some {enable := "i", disable := ""}, some 5) := by rfl

/-- C2 amended: when `optimize` is true and a `Group` has exactly one
alternative containing exactly one element that is itself a `Group`,
`getOptimizedGroup` collapses to the inner group exactly when the
merger is lossless, where an outer atomic group around an inner group
with flags is ILLEGAL (the nesting stays in place), as are an outer
flags group around an inner atomic group and an outer flags group
around an inner flags group; every other combination is legal, and then
the inner group gains `atomic` when the outer is atomic, else inherits
the outer `flags` when present, and its parent is rewired to the outer
group's parent. -/
theorem C2_amended_thm (st : PState) (nodeIdx altIdx elIdx : Nat)
    (halt : (getN st nodeIdx).alternatives = [altIdx])
    (hels : (getN st altIdx).elements = [elIdx])
    (hnode : (getN st nodeIdx).type = .Group)
    (hel : (getN st elIdx).type = .Group)
    (hlt : elIdx < st.nodes.length) :
    (¬((getN st nodeIdx).atomic ∧ (getN st elIdx).flags.isSome) ∧
     ¬((getN st nodeIdx).flags.isSome ∧
        ((getN st elIdx).atomic ∨ (getN st elIdx).flags.isSome)) →
      (getOptimizedGroup st nodeIdx).1 = elIdx ∧
      (getN (getOptimizedGroup st nodeIdx).2 elIdx).parent = (getN st nodeIdx).parent ∧
      (getN (getOptimizedGroup st nodeIdx).2 elIdx).atomic =
        ((getN st nodeIdx).atomic || (getN st elIdx).atomic) ∧
      (getN (getOptimizedGroup st nodeIdx).2 elIdx).flags =
        (if (getN st nodeIdx).atomic then (getN st elIdx).flags
         else if (getN st nodeIdx).flags.isSome then (getN st nodeIdx).flags
         else (getN st elIdx).flags)) ∧
    ((((getN st nodeIdx).atomic ∧ (getN st elIdx).flags.isSome) ∨
      ((getN st nodeIdx).flags.isSome ∧
        ((getN st elIdx).atomic ∨ (getN st elIdx).flags.isSome))) →
      getOptimizedGroup st nodeIdx = (nodeIdx, st)) := by
  have e1 : (getN st nodeIdx).alternatives.headD 0 = altIdx := by rw [halt]; rfl
  have e3 : (getN st nodeIdx).alternatives.length = 1 := by rw [halt]; rfl
  have hlt2 : ∀ (m : Node), elIdx < (setN st elIdx m).nodes.length := fun m => by
    rw [length_setN]; exact hlt
  constructor
  · intro hleg
    simp only [getOptimizedGroup, e1, e3, hels]
    simp only [List.headD, List.length_cons, List.length_nil]
    rw [if_pos ⟨hnode, trivial, trivial, hel, hleg.1, hleg.2⟩]
    by_cases ha : (getN st nodeIdx).atomic
    · simp only [ha, if_true, ite_true]
      rw [getN_setN_self _ _ hlt, getN_setN_self _ _ (hlt2 _)]
      simp
    · have ha' : (getN st nodeIdx).atomic = false := by
        cases hh : (getN st nodeIdx).atomic
        · rfl
        · exact absurd hh ha
      simp only [ha', Bool.false_eq_true, if_false, ite_false, Bool.false_or]
      cases hfo : (getN st nodeIdx).flags with
      | none =>
        simp only [Option.isSome_none, Bool.false_eq_true, if_false, ite_false]
        rw [getN_setN_self _ _ hlt]
        simp
      | some f =>
        simp only [Option.isSome_some, if_true, ite_true]
        rw [getN_setN_self _ _ hlt, getN_setN_self _ _ (hlt2 _)]
        simp
  · intro hill
    simp only [getOptimizedGroup, e1, e3, hels]
    simp only [List.headD, List.length_cons, List.length_nil]
    rw [if_neg]
    intro hg
    rcases hill with h1 | h2
    · exact hg.2.2.2.2.1 h1
    · exact hg.2.2.2.2.2 h2

/-- Concrete state for the C2 witness: an outer atomic `Group` (index
0) whose single alternative (index 1) holds an inner plain `Group`
(index 2) — a legal merger. -/
def c2st : PState :=
  {tokens := [], optimize := true,
   nodes := [{type := .Group, parent := some 7, alternatives := [1], atomic := true},
             {type := .Alternative, parent := some 0, elements := [2]},
             {type := .Group, parent := some 1, alternatives := []}]}

/-! ## Claim C4: subroutine numeric-ref resolution -/

/-- The token sequence of `(a)\g<-1>`. -/
def tokensC4 : List Token :=
  [{type := .GroupOpen, kind := "capturing", number := 1},
   {type := .Character, value := 97},
   {type := .GroupClose},
   {type := .Subroutine, raw := "\\g<-1>"}]

/-- C4: for every `Subroutine` token whose inner text matches
`^([-+]?)0*([1-9]\d*)$`, the emitted `Subroutine.ref` is resolved to an
absolute number at parse time — `parsed` for the empty sign,
`capturingGroups.length + parsed` for `+`, and
`capturingGroups.length + 1 - parsed` for `-` — and the numbered-ref
flag is set; moreover parsing the tokens of `(a)\g<-1>` yields
`Subroutine(ref = 1)` in the same alternative as the capturing group
and the post-pass succeeds. -/
theorem C4_subroutine_numeric_refs :
    (∀ (st : PState) (parent : Nat) (tok : Token) (sign : RefSign) (num : Nat),
      execNumberedRef true (innerSlice3 tok.raw) = some (sign, num) →
        (parseSubroutine st parent tok).2.hasNumberedGroupRef = true ∧
        (getN (parseSubroutine st parent tok).2 (parseSubroutine st parent tok).1).type
          = .Subroutine ∧
        (getN (parseSubroutine st parent tok).2 (parseSubroutine st parent tok).1).ref
          = .num (match sign with
                  | .noSign => (num : Int)
                  | .plus => (st.capturingGroups.length : Int) + num
                  | .minus => (st.capturingGroups.length : Int) + 1 - num) ∧
        (parseSubroutine st parent tok).2.subroutines
          = st.subroutines ++ [(parseSubroutine st parent tok).1]) ∧
    (parseTokens tokensC4 {} false).map
      (fun p => ((getN p.2 2).elements.map fun e => (getN p.2 e).type,
                 (getN p.2 7).ref)) = .ok ([.CapturingGroup, .Subroutine], .num 1) := by
  constructor
  · intro st parent tok sign num h
    cases sign <;>
      simp [parseSubroutine, h, createSubroutine, allocN, getN, getNodeBase,
        listGetD_append_self]
  · rfl

/-- Concrete context and token for the C4 witness: one capturing group
to the left, subroutine token `\g<-1>`. -/
def c4wSt : PState := {tokens := [], optimize := false, capturingGroups := [4]}

/-- The C4 witness token. -/
def c4wTok : Token := {type := .Subroutine, raw := "\\g<-1>"}

/-- Witness for `C4_subroutine_numeric_refs` at a concrete state. -/
theorem C4_witness :
    execNumberedRef true (innerSlice3 c4wTok.raw) = some (.minus, 1) ∧
    ((parseSubroutine c4wSt 0 c4wTok).2.hasNumberedGroupRef = true ∧
     (getN (parseSubroutine c4wSt 0 c4wTok).2 (parseSubroutine c4wSt 0 c4wTok).1).type
       = .Subroutine ∧
     (getN (parseSubroutine c4wSt 0 c4wTok).2 (parseSubroutine c4wSt 0 c4wTok).1).ref
       = .num (match RefSign.minus with
               | .noSign => (1 : Int)
               | .plus => (c4wSt.capturingGroups.length : Int) + 1
               | .minus => (c4wSt.capturingGroups.length : Int) + 1 - 1) ∧
     (parseSubroutine c4wSt 0 c4wTok).2.subroutines
       = c4wSt.subroutines ++ [(parseSubroutine c4wSt 0 c4wTok).1]) :=
  ⟨by decide, C4_subroutine_numeric_refs.1 c4wSt 0 c4wTok .minus 1 (by decide)⟩

/-! ## Claim C6: the post-pass validator -/

/-- The per-subroutine failure condition, as the claim states it: a
numeric ref outside `1 ≤ ref ≤ capturingGroups.length` is
`SubroutineGroupUndefined`; a string ref absent from the named-groups
map is `SubroutineNameUndefined`; a string ref registered under more
than one group is `SubroutineNameAmbiguous`. -/
def subroutineErr (st : PState) (i : Nat) : Option PErr :=
  match (getN st i).ref with
  | .num n =>
    if 1 ≤ n ∧ n ≤ (st.capturingGroups.length : Int) then none
    else some .SubroutineGroupUndefined
  | .nan => none
  | .name s =>
    match st.namedGroups.lookup s with
    | none => some .SubroutineNameUndefined
    | some l => if l.length > 1 then some .SubroutineNameAmbiguous else none

/-- First failing subroutine, in recording order. -/
def firstSubErr (st : PState) : List Nat → Option PErr
  | [] => none
  | i :: rest =>
    match subroutineErr st i with
    | some e => some e
    | none => firstSubErr st rest

theorem checkSubroutines_eq_firstSubErr (st : PState) (l : List Nat) :
    checkSubroutines st l =
      (match firstSubErr st l with
       | some e => .error e
       | none => .ok ()) := by
  induction l with
  | nil => rfl
  | cons i rest ih =>
    cases href : (getN st i).ref with
    | num n =>
      by_cases hn : n < 1 ∨ (st.capturingGroups.length : Int) < n
      · simp only [checkSubroutines, firstSubErr, subroutineErr, href, if_pos hn,
          if_neg (show ¬(1 ≤ n ∧ n ≤ (st.capturingGroups.length : Int)) by omega)]
      · simp only [checkSubroutines, firstSubErr, subroutineErr, href, if_neg hn,
          if_pos (show 1 ≤ n ∧ n ≤ (st.capturingGroups.length : Int) by omega)]
        exact ih
    | nan =>
      simp only [checkSubroutines, firstSubErr, subroutineErr, href]
      exact ih
    | name s =>
      cases hl : st.namedGroups.lookup s with
      | none => simp only [checkSubroutines, firstSubErr, subroutineErr, href, hl]
      | some l' =>
        by_cases hlen : l'.length > 1
        · simp only [checkSubroutines, firstSubErr, subroutineErr, href, hl,
            if_pos hlen]
        · simp only [checkSubroutines, firstSubErr, subroutineErr, href, hl,
            if_neg hlen]
          exact ih

theorem subroutineErr_ne_numericRef (st : PState) (i : Nat) :
    subroutineErr st i ≠ some .NumericRefWithNamedCapture := by
  cases href : (getN st i).ref with
  | num n =>
    simp only [subroutineErr, href]
    split <;> simp
  | nan => simp [subroutineErr, href]
  | name s =>
    simp only [subroutineErr, href]
    cases hl : st.namedGroups.lookup s with
    | none => simp
    | some l => split <;> simp

theorem checkSubroutines_ne_numericRef (st : PState) (l : List Nat) :
    checkSubroutines st l ≠ .error .NumericRefWithNamedCapture := by
  rw [checkSubroutines_eq_firstSubErr]
  induction l with
  | nil => simp [firstSubErr]
  | cons i rest ih =>
    simp only [firstSubErr]
    cases hse : subroutineErr st i with
    | none => exact ih
    | some e =>
      intro hcontra
      have he : e = .NumericRefWithNamedCapture := by simpa using hcontra
      exact subroutineErr_ne_numericRef st i (he ▸ hse)

/-- C6: after the walk completes, parsing fails with
`NumericRefWithNamedCapture` iff the numbered-ref flag is set and the
named-groups map is non-empty; otherwise each recorded subroutine is
checked in order (first failure wins, with the error kinds of
`subroutineErr`); when nothing fails, the `RegExp` root is returned. -/
theorem C6_post_pass (st : PState) :
    ((validateContext st = .error .NumericRefWithNamedCapture) ↔
      (st.hasNumberedGroupRef = true ∧ st.namedGroups ≠ [])) ∧
    (¬(st.hasNumberedGroupRef = true ∧ st.namedGroups ≠ []) →
      validateContext st =
        (match firstSubErr st st.subroutines with
         | some e => .error e
         | none => .ok ())) ∧
    (∀ (fuel : Nat) (tokens : List Token) (flags : FlagsIn) (optimize : Bool)
       (ms : Nat × PState),
      run fuel (.mainLoop (parseSetup tokens flags optimize).1
          (parseSetup tokens flags optimize).2.1)
          (parseSetup tokens flags optimize).2.2 = .ok ms →
      parse fuel tokens flags optimize =
        (match validateContext ms.2 with
         | .error e => .error e
         | .ok _ => .ok ((parseSetup tokens flags optimize).1, ms.2))) := by
  refine ⟨?_, ?_, ?_⟩
  · constructor
    · intro hv
      by_contra hcond
      have hne : ¬(st.hasNumberedGroupRef = true ∧ st.namedGroups.length ≠ 0) := by
        intro ⟨h1, h2⟩
        exact hcond ⟨h1, fun hnil => h2 (by rw [hnil]; rfl)⟩
      rw [validateContext, if_neg hne] at hv
      exact checkSubroutines_ne_numericRef st st.subroutines hv
    · intro ⟨h1, h2⟩
      rw [validateContext, if_pos ⟨h1, fun hlen => h2 (List.length_eq_zero.mp hlen)⟩]
  · intro hcond
    have hne : ¬(st.hasNumberedGroupRef = true ∧ st.namedGroups.length ≠ 0) := by
      intro ⟨h1, h2⟩
      exact hcond ⟨h1, fun hnil => h2 (by rw [hnil]; rfl)⟩
    rw [validateContext, if_neg hne, checkSubroutines_eq_firstSubErr]
  · intro fuel tokens flags optimize ms hrun
    simp only [parse, hrun]

/-- Concrete context for the C6 witness: numbered-ref flag unset, one
valid numeric subroutine ref. -/
def c6wSt : PState :=
  {tokens := [], optimize := false,
   nodes := [{type := .Subroutine, parent := some 9, ref := .num 1}],
   subroutines := [0], capturingGroups := [3]}

/-- Witness for `C6_post_pass` at concrete inputs. -/
theorem C6_witness :
    (¬(c6wSt.hasNumberedGroupRef = true ∧ c6wSt.namedGroups ≠ []) ∧
      validateContext c6wSt =
        (match firstSubErr c6wSt c6wSt.subroutines with
         | some e => .error e
         | none => .ok ())) ∧
    (run 1 (.mainLoop (parseSetup [] {} false).1 (parseSetup [] {} false).2.1)
        (parseSetup [] {} false).2.2 = .ok (0, (parseSetup [] {} false).2.2) ∧
      parse 1 [] {} false =
        (match validateContext (parseSetup [] {} false).2.2 with
         | .error e => .error e
         | .ok _ => .ok ((parseSetup [] {} false).1, (parseSetup [] {} false).2.2))) :=
  ⟨⟨by decide, (C6_post_pass c6wSt).2.1 (by decide)⟩,
   ⟨by rfl, (C6_post_pass c6wSt).2.2 1 [] {} false
      (0, (parseSetup [] {} false).2.2) (by rfl)⟩⟩

/-! ## Claim C7: `\k<...>`/`\k'...'` backreference resolution -/

/-- C7: for a backreference token wrapped in `\k<...>` or `\k'...'`
whose inner text matches `^(-?)0*([1-9]\d*)$`, parsing fails with
`InsufficientGroups` exactly when the parsed number exceeds the count
of capturing groups opened so far (the comparison uses the parsed
number, before relative resolution), and otherwise emits a
`Backreference` whose ref is `count + 1 - parsed` for sign `-` and
`parsed` otherwise (setting the numbered-ref flag); a non-numeric inner
text containing `-` or `+` fails with `InvalidBackrefName`, and any
other inner text absent from the named-groups map fails with
`UndefinedGroupName` (present ones emit a named `Backreference`). -/
theorem C7_backreference_k_wrapped (st : PState) (parent : Nat) (tok : Token)
    (hk : hasKWrapper tok.raw = true) :
    (∀ (sign : RefSign) (num : Nat),
      execNumberedRef false (innerSlice3 tok.raw) = some (sign, num) →
        ((parseBackreference st parent tok = .error .InsufficientGroups) ↔
          st.capturingGroups.length < num) ∧
        (num ≤ st.capturingGroups.length →
          ∃ p, parseBackreference st parent tok = .ok p ∧
            (getN p.2 p.1).type = .Backreference ∧
            (getN p.2 p.1).ref =
              .num (if sign = .minus
                    then (st.capturingGroups.length : Int) + 1 - num
                    else (num : Int)) ∧
            p.2.hasNumberedGroupRef = true)) ∧
    (execNumberedRef false (innerSlice3 tok.raw) = none →
      (hasSignChar (innerSlice3 tok.raw) = true →
        parseBackreference st parent tok = .error .InvalidBackrefName) ∧
      (hasSignChar (innerSlice3 tok.raw) = false →
        ((parseBackreference st parent tok = .error .UndefinedGroupName) ↔
          st.namedGroups.lookup (String.mk (innerSlice3 tok.raw)) = none) ∧
        (∀ l, st.namedGroups.lookup (String.mk (innerSlice3 tok.raw)) = some l →
          ∃ p, parseBackreference st parent tok = .ok p ∧
            (getN p.2 p.1).type = .Backreference ∧
            (getN p.2 p.1).ref = .name (String.mk (innerSlice3 tok.raw))))) := by
  constructor
  · intro sign num h
    constructor
    · simp only [parseBackreference, hk, if_true, h, fromNum, jsGtNat]
      by_cases hgt : st.capturingGroups.length < num
      · rw [if_pos (by simpa using hgt)]
        simp [hgt]
      · rw [if_neg (by simpa using hgt)]
        simp [hgt]
    · intro hle
      have hres : parseBackreference st parent tok =
          .ok (createBackreference {st with hasNumberedGroupRef := true} parent
            (.num (if sign = .minus
                   then (st.capturingGroups.length : Int) + 1 - num
                   else (num : Int)))) := by
        cases sign <;>
          · simp only [parseBackreference, hk, if_true, h, fromNum, jsGtNat]
            rw [if_neg (by simpa using Nat.not_lt.mpr hle)]
            simp
      rw [hres]
      exact ⟨_, rfl,
        by simp [createBackreference, allocN, getN, getNodeBase, listGetD_append_self],
        by simp [createBackreference, allocN, getN, getNodeBase, listGetD_append_self],
        by simp [createBackreference, allocN]⟩
  · intro h
    constructor
    · intro hsc
      simp [parseBackreference, hk, h, hsc]
    · intro hsc
      constructor
      · simp only [parseBackreference, hk, if_true, h, hsc, Bool.false_eq_true,
          if_false]
        cases hl : st.namedGroups.lookup (String.mk (innerSlice3 tok.raw)) <;>
          simp [hl]
      · intro l hl
        have hres : parseBackreference st parent tok =
            .ok (createBackreference st parent (.name (String.mk (innerSlice3 tok.raw)))) := by
          simp [parseBackreference, hk, h, hsc, hl]
        rw [hres]
        exact ⟨_, rfl,
          by simp [createBackreference, allocN, getN, getNodeBase, listGetD_append_self],
          by simp [createBackreference, allocN, getN, getNodeBase, listGetD_append_self]⟩

/-- Concrete context and token for the C7 witness: `\k<-2>` with three
capturing groups to the left resolves to `3 + 1 - 2 = 2`. -/
def c7wSt : PState := {tokens := [], optimize := false, capturingGroups := [4, 5, 6]}

/-- The C7 witness token. -/
def c7wTok : Token := {type := .Backreference, raw := "\\k<-2>"}

/-- Witness for `C7_backreference_k_wrapped` at a concrete state. -/
theorem C7_witness :
    hasKWrapper c7wTok.raw = true ∧
    execNumberedRef false (innerSlice3 c7wTok.raw) = some (.minus, 2) ∧
    2 ≤ c7wSt.capturingGroups.length ∧
    (∃ p, parseBackreference c7wSt 0 c7wTok = .ok p ∧
      (getN p.2 p.1).type = .Backreference ∧
      (getN p.2 p.1).ref =
        .num (if RefSign.minus = .minus
              then (c7wSt.capturingGroups.length : Int) + 1 - 2
              else (2 : Int)) ∧
      p.2.hasNumberedGroupRef = true) :=
  ⟨by decide, by decide, by decide,
   ((C7_backreference_k_wrapped c7wSt 0 c7wTok (by decide)).1 .minus 2
      (by decide)).2 (by decide)⟩

/-! ## Arena well-formedness: child-container indices stay in range -/

/-- All child-container indices (elements, alternatives, classes) of
every node are inside the arena. -/
def boundedSt (st : PState) : Prop :=
  ∀ i, i < st.nodes.length →
    (∀ j ∈ (getN st i).elements, j < st.nodes.length) ∧
    (∀ j ∈ (getN st i).alternatives, j < st.nodes.length) ∧
    (∀ j ∈ (getN st i).classes, j < st.nodes.length)

theorem boundedSt_allocN {st : PState} (h : boundedSt st) {n : Node}
    (hne : n.elements = []) (hna : n.alternatives = []) (hnc : n.classes = []) :
    boundedSt (allocN st n).2 := by
  intro i hi
  rw [length_allocN] at hi
  rw [length_allocN]
  by_cases hilt : i < st.nodes.length
  · rw [getN_allocN_lt st n hilt]
    obtain ⟨h1, h2, h3⟩ := h i hilt
    exact ⟨fun j hj => Nat.lt_succ_of_lt (h1 j hj),
      fun j hj => Nat.lt_succ_of_lt (h2 j hj),
      fun j hj => Nat.lt_succ_of_lt (h3 j hj)⟩
  · have : i = st.nodes.length := by omega
    subst this
    rw [getN_allocN_self, hne, hna, hnc]
    exact ⟨fun j hj => absurd hj (List.not_mem_nil j),
      fun j hj => absurd hj (List.not_mem_nil j),
      fun j hj => absurd hj (List.not_mem_nil j)⟩

theorem boundedSt_setN {st : PState} (h : boundedSt st) {i : Nat} {n : Node}
    (hne : ∀ j ∈ n.elements, j < st.nodes.length)
    (hna : ∀ j ∈ n.alternatives, j < st.nodes.length)
    (hnc : ∀ j ∈ n.classes, j < st.nodes.length) :
    boundedSt (setN st i n) := by
  intro k hk
  rw [length_setN] at hk
  by_cases hki : k = i
  · subst hki
    rw [getN_setN_self st n hk, length_setN]
    exact ⟨hne, hna, hnc⟩
  · rw [getN_setN_ne st i n hki, length_setN]
    exact h k hk

/-- One allocation-returning step starting from `st`: the new state is
bounded, the returned index is in range, the arena only grew. -/
def wfStep (st : PState) (p : Nat × PState) : Prop :=
  boundedSt p.2 ∧ p.1 < p.2.nodes.length ∧ st.nodes.length ≤ p.2.nodes.length

theorem containersBounded_getN {st : PState} (h : boundedSt st) (x : Nat) :
    (∀ j ∈ (getN st x).elements, j < st.nodes.length) ∧
    (∀ j ∈ (getN st x).alternatives, j < st.nodes.length) ∧
    (∀ j ∈ (getN st x).classes, j < st.nodes.length) := by
  by_cases hx : x < st.nodes.length
  · exact h x hx
  · rw [getN_ge st (Nat.le_of_not_lt hx)]
    exact ⟨fun j hj => absurd hj (List.not_mem_nil j),
      fun j hj => absurd hj (List.not_mem_nil j),
      fun j hj => absurd hj (List.not_mem_nil j)⟩

theorem wfStep_allocN {st : PState} (h : boundedSt st) {n : Node}
    (hne : n.elements = []) (hna : n.alternatives = []) (hnc : n.classes = []) :
    wfStep st (allocN st n) := by
  refine ⟨boundedSt_allocN h hne hna hnc, ?_, ?_⟩ <;>
    simp [allocN]

theorem createAlternative_wf {st : PState} (h : boundedSt st) (parent : Option Nat) :
    wfStep st (createAlternative st parent) :=
  wfStep_allocN h rfl rfl rfl

theorem withInitialAlternative_wf {st : PState} (h : boundedSt st) {i : Nat}
    (hi : i < st.nodes.length) : wfStep st (withInitialAlternative st i) := by
  simp only [wfStep, withInitialAlternative, createAlternative, fst_allocN,
    length_setN, length_allocN]
  refine ⟨?_, by omega, by omega⟩
  apply boundedSt_setN (boundedSt_allocN h rfl rfl rfl)
  · rw [getN_allocN_lt st _ hi, length_allocN]
    exact fun j hj => Nat.lt_succ_of_lt ((containersBounded_getN h i).1 j hj)
  · rw [length_allocN]
    intro j hj
    rw [List.mem_singleton] at hj
    omega
  · rw [getN_allocN_lt st _ hi, length_allocN]
    exact fun j hj => Nat.lt_succ_of_lt ((containersBounded_getN h i).2.2 j hj)

theorem headD_mem_nat {l : List Nat} {d : Nat} (h : l ≠ []) : l.headD d ∈ l := by
  cases l with
  | nil => exact absurd rfl h
  | cons a t => exact List.mem_cons_self a t

theorem getLastD_mem_nat {l : List Nat} {d : Nat} (h : l ≠ []) : l.getLastD d ∈ l := by
  rw [List.getLastD_eq_getLast?, List.getLast?_eq_getLast _ h]
  exact Option.getD_some ▸ List.getLast_mem h

theorem wfStep_alloc_wia {st : PState} (h : boundedSt st) {n : Node}
    (hne : n.elements = []) (hna : n.alternatives = []) (hnc : n.classes = []) :
    wfStep st (withInitialAlternative (allocN st n).2 (allocN st n).1) := by
  have h1 := boundedSt_allocN h hne hna hnc
  have h2 := withInitialAlternative_wf h1
    (show (allocN st n).1 < (allocN st n).2.nodes.length by
      rw [fst_allocN, length_allocN]; omega)
  exact ⟨h2.1, h2.2.1, le_trans (by rw [length_allocN]; omega) h2.2.2⟩

theorem createAssertionFromToken_wf {st : PState} (h : boundedSt st)
    {parent : Nat} {tok : Token} {p : Nat × PState}
    (hres : createAssertionFromToken st parent tok = .ok p) : wfStep st p := by
  unfold createAssertionFromToken at hres
  by_cases hty : tok.type = .GroupOpen
  · rw [if_pos hty] at hres
    cases hres
    exact wfStep_alloc_wia h rfl rfl rfl
  · rw [if_neg hty] at hres
    cases hmap : assertionKindMap tok.kind with
    | none => rw [hmap] at hres; cases hres
    | some kind =>
      rw [hmap] at hres
      simp only [] at hres
      cases hres
      exact wfStep_allocN h (by split <;> rfl) (by split <;> rfl) (by split <;> rfl)

theorem fromNum_wf {st : PState} (h : boundedSt st) {parent : Nat}
    {num : Option Nat} {rel : Bool} {p : Nat × PState}
    (hres : fromNum st parent num rel = .ok p) : wfStep st p := by
  simp only [fromNum] at hres
  by_cases hgt : jsGtNat num st.capturingGroups.length = true
  · rw [if_pos hgt] at hres; cases hres
  · rw [if_neg hgt] at hres
    cases hres
    exact wfStep_allocN (show boundedSt {st with hasNumberedGroupRef := true} from h)
      rfl rfl rfl

theorem parseBackreference_wf {st : PState} (h : boundedSt st)
    {parent : Nat} {tok : Token} {p : Nat × PState}
    (hres : parseBackreference st parent tok = .ok p) : wfStep st p := by
  simp only [parseBackreference] at hres
  by_cases hk : hasKWrapper tok.raw = true
  · rw [if_pos hk] at hres
    cases hexec : execNumberedRef false (innerSlice3 tok.raw) with
    | some sn => rw [hexec] at hres; exact fromNum_wf h hres
    | none =>
      rw [hexec] at hres
      simp only [] at hres
      by_cases hsc : hasSignChar (innerSlice3 tok.raw) = true
      · rw [if_pos hsc] at hres; cases hres
      · rw [if_neg hsc] at hres
        by_cases hlk : (st.namedGroups.lookup (String.mk (innerSlice3 tok.raw))).isSome = true
        · rw [if_pos hlk] at hres
          cases hres
          exact wfStep_allocN h rfl rfl rfl
        · rw [if_neg hlk] at hres
          cases hres
  · rw [if_neg hk] at hres
    exact fromNum_wf h hres

theorem parseSubroutine_wf {st : PState} (h : boundedSt st)
    (parent : Nat) (tok : Token) :
    wfStep st (parseSubroutine st parent tok) := by
  cases hexec : execNumberedRef true (innerSlice3 tok.raw) with
  | some sn =>
    simp only [parseSubroutine, hexec]
    refine ⟨?_, ?_, ?_⟩
    · exact boundedSt_allocN
        (show boundedSt {st with hasNumberedGroupRef := true} from h) rfl rfl rfl
    · simp [createSubroutine, allocN]
    · simp [createSubroutine, allocN]
  | none =>
    simp only [parseSubroutine, hexec]
    refine ⟨?_, ?_, ?_⟩
    · exact boundedSt_allocN h rfl rfl rfl
    · simp [createSubroutine, allocN]
    · simp [createSubroutine, allocN]

theorem createGroup_wf {st : PState} (h : boundedSt st) (parent : Nat)
    (atomic : Bool) (flags : Option FlagMods) :
    wfStep st (createGroup st parent atomic flags) := by
  unfold createGroup
  cases atomic with
  | true => exact wfStep_alloc_wia h rfl rfl rfl
  | false =>
    cases flags with
    | none => exact wfStep_alloc_wia h rfl rfl rfl
    | some f => exact wfStep_alloc_wia h rfl rfl rfl

theorem createCapturingGroup_wf {st : PState} (h : boundedSt st)
    {parent : Nat} {number : Nat} {name : Option String} {p : Nat × PState}
    (hres : createCapturingGroup st parent number name = .ok p) : wfStep st p := by
  cases name with
  | some nm =>
    simp only [createCapturingGroup] at hres
    by_cases hval : isValidJsGroupName nm = true
    · rw [if_pos hval] at hres
      cases hres
      exact wfStep_alloc_wia h rfl rfl rfl
    · rw [if_neg hval] at hres
      cases hres
  | none =>
    simp only [createCapturingGroup] at hres
    cases hres
    exact wfStep_alloc_wia h rfl rfl rfl

theorem createByGroupKind_wf {st : PState} (h : boundedSt st)
    {parent : Nat} {tok : Token} {p : Nat × PState}
    (hres : createByGroupKind st parent tok = .ok p) : wfStep st p := by
  unfold createByGroupKind at hres
  split at hres
  · cases hres; exact createGroup_wf h parent true none
  · split at hres
    · exact createCapturingGroup_wf h hres
    · split at hres
      · cases hres; exact createGroup_wf h parent false tok.gflags
      · split at hres
        · exact createAssertionFromToken_wf h hres
        · cases hres

theorem listGetD_append_right (l m : List Node) (k : Nat) :
    (l ++ m).getD (l.length + k) default = m.getD k default := by
  induction l with
  | nil => simp [List.getD]
  | cons x xs ih => simpa [List.getD, Nat.succ_add] using ih

theorem listSet_append_right (l m : List Node) (k : Nat) (n : Node) :
    (l ++ m).set (l.length + k) n = l ++ m.set k n := by
  induction l with
  | nil => simp
  | cons x xs ih => simp [List.set, Nat.succ_add, ih]

theorem listGetD_append_lt2 {l : List Node} {i : Nat} (m : List Node)
    (h : i < l.length) : (l ++ m).getD i default = l.getD i default := by
  induction l generalizing i with
  | nil => simp at h
  | cons x xs ih =>
    cases i with
    | zero => rfl
    | succ j => simpa [List.getD] using ih (Nat.lt_of_succ_lt_succ h)

theorem listGetD_append_len (l m : List Node) :
    (l ++ m).getD l.length default = m.getD 0 default := by
  simpa using listGetD_append_right l m 0

theorem listSet_append_len (l m : List Node) (n : Node) :
    (l ++ m).set l.length n = l ++ m.set 0 n := by
  have h := listSet_append_right l m 0 n
  rwa [Nat.add_zero] at h

theorem listGetD_mem {l : List Node} {k : Nat} (h : k < l.length) :
    l.getD k default ∈ l := by
  induction l generalizing k with
  | nil => simp at h
  | cons x xs ih =>
    cases k with
    | zero => exact List.mem_cons_self x xs
    | succ k' =>
      exact List.mem_cons_of_mem x (ih (Nat.lt_of_succ_lt_succ h))

/-- Boundedness of a state whose arena is the old one plus a suffix of
new nodes with suitably bounded containers. -/
theorem boundedSt_of_append {st st' : PState} (h : boundedSt st)
    {suf : List Node} (hs : st'.nodes = st.nodes ++ suf)
    (hb : ∀ n ∈ suf,
      (∀ j ∈ n.elements, j < st.nodes.length + suf.length) ∧
      (∀ j ∈ n.alternatives, j < st.nodes.length + suf.length) ∧
      (∀ j ∈ n.classes, j < st.nodes.length + suf.length)) :
    boundedSt st' := by
  intro i hi
  have hlen : st'.nodes.length = st.nodes.length + suf.length := by
    rw [hs, List.length_append]
  rw [hlen] at hi
  by_cases hilt : i < st.nodes.length
  · have hg : getN st' i = getN st i := by
      unfold getN
      rw [hs, listGetD_append_lt2 _ hilt]
    rw [hg, hlen]
    obtain ⟨h1, h2, h3⟩ := h i hilt
    exact ⟨fun j hj => by have := h1 j hj; omega,
      fun j hj => by have := h2 j hj; omega,
      fun j hj => by have := h3 j hj; omega⟩
  · obtain ⟨k, hk⟩ : ∃ k, i = st.nodes.length + k := ⟨i - st.nodes.length, by omega⟩
    have hks : k < suf.length := by omega
    have hg : getN st' i = suf.getD k default := by
      unfold getN
      rw [hs, hk, listGetD_append_right]
    rw [hg, hlen]
    exact hb _ (listGetD_mem hks)

/-- The arena shape produced by `createCharacterClass`: wrapper class,
intersection, initial inner base, at three consecutive fresh indices. -/
theorem createCharacterClass_shape (st : PState) (parent : Nat) (negate : Bool) :
    (createCharacterClass st parent negate).1 = st.nodes.length ∧
    (createCharacterClass st parent negate).2.nodes =
      st.nodes ++
        [{getNodeBase (some parent) .CharacterClass with
            negate := negate, elements := [st.nodes.length + 1]},
         {getNodeBase (some st.nodes.length) .CharacterClassIntersection with
            classes := [st.nodes.length + 2]},
         {getNodeBase (some (st.nodes.length + 1)) .CharacterClass with
            negate := false, elements := []}] := by
  refine ⟨rfl, ?_⟩
  simp only [createCharacterClass, createCharacterClassIntersection,
    createCharacterClassBase, allocN, setN, getN, List.append_assoc,
    List.singleton_append, List.cons_append, List.nil_append,
    List.length_append, List.length_cons, List.length_nil,
    listGetD_append_right, listSet_append_right,
    listGetD_append_len, listSet_append_len]
  norm_num

theorem createCharacterClass_wf {st : PState} (h : boundedSt st)
    (parent : Nat) (negate : Bool) :
    wfStep st (createCharacterClass st parent negate) := by
  obtain ⟨h1, h2⟩ := createCharacterClass_shape st parent negate
  refine ⟨?_, ?_, ?_⟩
  · refine boundedSt_of_append h h2 ?_
    intro n hn
    simp only [List.mem_cons, List.not_mem_nil, or_false] at hn
    rcases hn with hn | hn | hn <;> subst hn <;>
      refine ⟨?_, ?_, ?_⟩ <;>
      · intro j hj
        simp only [List.mem_singleton, List.length_cons, List.length_nil] at hj ⊢
        first
        | (subst hj; omega)
        | cases hj
  · rw [h1]
    have : (createCharacterClass st parent negate).2.nodes.length
        = st.nodes.length + 3 := by rw [h2]; simp
    omega
  · have : (createCharacterClass st parent negate).2.nodes.length
        = st.nodes.length + 3 := by rw [h2]; simp
    omega

theorem boundedSt_nodes_eq {st st' : PState} (h : st.nodes = st'.nodes)
    (hb : boundedSt st) : boundedSt st' := by
  intro i hi
  have hg : getN st' i = getN st i := by unfold getN; rw [← h]
  rw [hg, ← h]
  exact hb i (by rw [← h] at hi; exact hi)

theorem createCharacter_wf {st : PState} (h : boundedSt st) (parent v : Nat) :
    wfStep st (createCharacter st parent v) :=
  wfStep_allocN h rfl rfl rfl

theorem createCharacterSetFromToken_wf {st : PState} (h : boundedSt st)
    {parent : Nat} {tok : Token} {p : Nat × PState}
    (hres : createCharacterSetFromToken st parent tok = .ok p) : wfStep st p := by
  simp only [createCharacterSetFromToken] at hres
  repeat' split at hres
  all_goals cases hres
  all_goals exact wfStep_allocN h rfl rfl rfl

theorem createDirectiveFromToken_wf {st : PState} (h : boundedSt st)
    {parent : Nat} {tok : Token} {p : Nat × PState}
    (hres : createDirectiveFromToken st parent tok = .ok p) : wfStep st p := by
  unfold createDirectiveFromToken at hres
  repeat' split at hres
  all_goals cases hres
  all_goals exact wfStep_allocN h rfl rfl rfl

theorem createVariableLengthCharacterSet_wf {st : PState} (h : boundedSt st)
    {parent : Nat} {kind : String} {p : Nat × PState}
    (hres : createVariableLengthCharacterSet st parent kind = .ok p) : wfStep st p := by
  unfold createVariableLengthCharacterSet at hres
  cases hmap : vlcsKindMap kind with
  | none => rw [hmap] at hres; cases hres
  | some k =>
    rw [hmap] at hres
    cases hres
    exact wfStep_allocN h rfl rfl rfl

theorem createCharacterClassRange_wf {st : PState} (h : boundedSt st)
    {parent minI maxI : Nat} {p : Nat × PState}
    (hres : createCharacterClassRange st parent minI maxI = .ok p) : wfStep st p := by
  unfold createCharacterClassRange at hres
  split at hres
  · cases hres
  · cases hres
    exact wfStep_allocN h rfl rfl rfl

theorem createQuantifier_wf {st : PState} (h : boundedSt st)
    {parent element mn : Nat} {mx : Option Nat} {gr ps : Bool} {p : Nat × PState}
    (hres : createQuantifier st parent element mn mx gr ps = .ok p) : wfStep st p := by
  simp only [createQuantifier] at hres
  split at hres
  · cases hres
  · split at hres
    · cases hres
    · cases hres
      exact wfStep_allocN h rfl rfl rfl

theorem parseQuantifier_wf {st : PState} (h : boundedSt st)
    {parent : Nat} {tok : Token} {p : Nat × PState}
    (hres : parseQuantifier st parent tok = .ok p) : wfStep st p := by
  cases hlast : (getN st parent).elements.getLast? with
  | none => simp only [parseQuantifier, hlast] at hres; cases hres
  | some lastEl =>
    simp only [parseQuantifier, hlast] at hres
    cases hcq : createQuantifier st parent lastEl tok.qmin tok.qmax tok.greedy
        tok.possessive with
    | error e => simp only [hcq] at hres; cases hres
    | ok qs =>
      simp only [hcq] at hres
      cases hres
      have hqw := createQuantifier_wf h hcq
      have hb2 : boundedSt (setN qs.2 lastEl
          {getN qs.2 lastEl with parent := some qs.1}) := by
        apply boundedSt_setN hqw.1
        · exact (containersBounded_getN hqw.1 lastEl).1
        · exact (containersBounded_getN hqw.1 lastEl).2.1
        · exact (containersBounded_getN hqw.1 lastEl).2.2
      refine ⟨?_, ?_, ?_⟩
      · apply boundedSt_setN hb2
        · intro j hj
          exact (containersBounded_getN hb2 parent).1 j (List.dropLast_subset _ hj)
        · exact (containersBounded_getN hb2 parent).2.1
        · exact (containersBounded_getN hb2 parent).2.2
      · simp only [length_setN]
        exact hqw.2.1
      · simp only [length_setN]
        exact hqw.2.2

theorem getOptimizedGroup_wf {st : PState} (h : boundedSt st) {g : Nat}
    (hg : g < st.nodes.length) :
    boundedSt (getOptimizedGroup st g).2 ∧
    (getOptimizedGroup st g).1 < st.nodes.length ∧
    (getOptimizedGroup st g).2.nodes.length = st.nodes.length := by
  simp only [getOptimizedGroup]
  split
  case isTrue hcond =>
    have haltne : (getN st g).alternatives ≠ [] := by
      intro hnil
      rw [hnil] at hcond
      simp at hcond
    have haltlt : (getN st g).alternatives.headD 0 < st.nodes.length :=
      (h g hg).2.1 _ (headD_mem_nat haltne)
    have helne : (getN st ((getN st g).alternatives.headD 0)).elements ≠ [] := by
      intro hnil
      rw [hnil] at hcond
      simp at hcond
    have hellt : (getN st ((getN st g).alternatives.headD 0)).elements.headD 0
        < st.nodes.length :=
      (h _ haltlt).1 _ (headD_mem_nat helne)
    have hb1 : boundedSt (setN st
        ((getN st ((getN st g).alternatives.headD 0)).elements.headD 0)
        {getN st ((getN st ((getN st g).alternatives.headD 0)).elements.headD 0) with
          parent := (getN st g).parent}) := by
      apply boundedSt_setN h
      · exact (containersBounded_getN h _).1
      · exact (containersBounded_getN h _).2.1
      · exact (containersBounded_getN h _).2.2
    refine ⟨?_, hellt, ?_⟩
    · split
      · apply boundedSt_setN hb1
        · exact (containersBounded_getN hb1 _).1
        · exact (containersBounded_getN hb1 _).2.1
        · exact (containersBounded_getN hb1 _).2.2
      · split
        · apply boundedSt_setN hb1
          · exact (containersBounded_getN hb1 _).1
          · exact (containersBounded_getN hb1 _).2.1
          · exact (containersBounded_getN hb1 _).2.2
        · exact hb1
    · split
      · simp only [length_setN]
      · split
        · simp only [length_setN]
        · simp only [length_setN]
  case isFalse => exact ⟨h, hg, rfl⟩

theorem optimizeCCIStep_wf {st : PState} (h : boundedSt st) (interIdx i : Nat) :
    boundedSt (optimizeCCIStep st interIdx i) ∧
    (optimizeCCIStep st interIdx i).nodes.length = st.nodes.length := by
  simp only [optimizeCCIStep]
  split
  case isTrue hcond =>
    have hccne : (getN st ((getN st interIdx).classes.getD i 0)).elements ≠ [] := by
      intro hnil
      rw [hnil] at hcond
      simp at hcond
    have hcclt : (getN st interIdx).classes.getD i 0 < st.nodes.length := by
      by_contra hge
      rw [getN_ge st (Nat.le_of_not_lt hge)] at hccne
      exact hccne rfl
    have hfclt : (getN st ((getN st interIdx).classes.getD i 0)).elements.headD 0
        < st.nodes.length :=
      (h _ hcclt).1 _ (headD_mem_nat hccne)
    have hb1 : boundedSt (setN st interIdx
        {getN st interIdx with
          classes := (getN st interIdx).classes.set i
            ((getN st ((getN st interIdx).classes.getD i 0)).elements.headD 0)}) := by
      apply boundedSt_setN h
      · exact (containersBounded_getN h _).1
      · exact (containersBounded_getN h _).2.1
      · intro j hj
        rcases List.mem_or_eq_of_mem_set hj with hj' | hj'
        · exact (containersBounded_getN h _).2.2 j hj'
        · subst hj'; exact hfclt
    constructor
    · apply boundedSt_setN hb1
      · exact (containersBounded_getN hb1 _).1
      · exact (containersBounded_getN hb1 _).2.1
      · exact (containersBounded_getN hb1 _).2.2
    · simp only [length_setN]
  case isFalse => exact ⟨h, rfl⟩

theorem optimizeCCILoop_wf (interIdx : Nat) :
    ∀ (cnt : Nat) (st : PState), boundedSt st → ∀ i : Nat,
      boundedSt (optimizeCCILoop st interIdx i cnt) ∧
      (optimizeCCILoop st interIdx i cnt).nodes.length = st.nodes.length := by
  intro cnt
  induction cnt with
  | zero => exact fun st h i => ⟨h, rfl⟩
  | succ c ih =>
    intro st h i
    simp only [optimizeCCILoop]
    have hs := optimizeCCIStep_wf h interIdx i
    have hrec := ih (optimizeCCIStep st interIdx i) hs.1 (i + 1)
    exact ⟨hrec.1, hrec.2.trans hs.2⟩

theorem optimizeCharacterClassIntersection_wf {st : PState} (h : boundedSt st)
    (interIdx : Nat) :
    boundedSt (optimizeCharacterClassIntersection st interIdx) ∧
    (optimizeCharacterClassIntersection st interIdx).nodes.length =
      st.nodes.length := by
  unfold optimizeCharacterClassIntersection
  exact optimizeCCILoop_wf interIdx _ st h 0

theorem nodes_withCurrent (st : PState) (c : Nat) :
    ({st with current := c} : PState).nodes = st.nodes := rfl

theorem boundedSt_withCurrent {st : PState} (h : boundedSt st) (c : Nat) :
    boundedSt {st with current := c} := h

theorem nodes_registerGroup (st : PState) (g : Nat) :
    (registerGroup st g).nodes = st.nodes := by
  simp only [registerGroup]
  split
  · cases (getN {st with capturingGroups := st.capturingGroups ++ [g]} g).name <;> rfl
  · rfl

theorem boundedSt_push_elements {st : PState} (hb : boundedSt st) (i : Nat) {v : Nat}
    (hv : v < st.nodes.length) :
    boundedSt (setN st i
      {getN st i with elements := (getN st i).elements ++ [v]}) := by
  apply boundedSt_setN hb
  · intro j hj
    rcases List.mem_append.mp hj with hj | hj
    · exact (containersBounded_getN hb i).1 j hj
    · rw [List.mem_singleton] at hj; subst hj; exact hv
  · exact (containersBounded_getN hb i).2.1
  · exact (containersBounded_getN hb i).2.2

theorem boundedSt_push_alternatives {st : PState} (hb : boundedSt st) (i : Nat)
    {v : Nat} (hv : v < st.nodes.length) :
    boundedSt (setN st i
      {getN st i with alternatives := (getN st i).alternatives ++ [v]}) := by
  apply boundedSt_setN hb
  · exact (containersBounded_getN hb i).1
  · intro j hj
    rcases List.mem_append.mp hj with hj | hj
    · exact (containersBounded_getN hb i).2.1 j hj
    · rw [List.mem_singleton] at hj; subst hj; exact hv
  · exact (containersBounded_getN hb i).2.2

theorem boundedSt_push_classes {st : PState} (hb : boundedSt st) (i : Nat)
    {v : Nat} (hv : v < st.nodes.length) :
    boundedSt (setN st i
      {getN st i with classes := (getN st i).classes ++ [v]}) := by
  apply boundedSt_setN hb
  · exact (containersBounded_getN hb i).1
  · exact (containersBounded_getN hb i).2.1
  · intro j hj
    rcases List.mem_append.mp hj with hj | hj
    · exact (containersBounded_getN hb i).2.2 j hj
    · rw [List.mem_singleton] at hj; subst hj; exact hv

theorem boundedSt_reparent {st : PState} (hb : boundedSt st) (i : Nat)
    (pv : Option Nat) :
    boundedSt (setN st i {getN st i with parent := pv}) :=
  boundedSt_setN hb (containersBounded_getN hb i).1
    (containersBounded_getN hb i).2.1 (containersBounded_getN hb i).2.2

theorem boundedSt_set_pn {st : PState} (hb : boundedSt st) (i : Nat)
    (pv : Option Nat) (ng : Bool) :
    boundedSt (setN st i {getN st i with parent := pv, negate := ng}) :=
  boundedSt_setN hb (containersBounded_getN hb i).1
    (containersBounded_getN hb i).2.1 (containersBounded_getN hb i).2.2

/-- Master well-formedness invariant of the interpreter: from a bounded
arena every successful run yields a bounded arena, never shrinks it, and
a `walk` job returns an in-range node index. -/
theorem run_wf : ∀ (fuel : Nat) (job : Job) (st : PState) (ns : Nat × PState),
    boundedSt st → run fuel job st = .ok ns →
    boundedSt ns.2 ∧ st.nodes.length ≤ ns.2.nodes.length ∧
      ∀ parent, job = Job.walk parent → ns.1 < ns.2.nodes.length := by
  intro fuel
  induction fuel with
  | zero =>
    intro job st ns hb hrun
    simp only [run] at hrun
    cases hrun
  | succ f ih =>
    intro job st ns hb hrun
    cases job with
    | walk parent =>
      simp only [run] at hrun
      cases htok : tokenAt st st.current with
      | none => simp only [htok] at hrun; cases hrun
      | some token =>
        simp only [htok] at hrun
        set st1 := {st with current := st.current + 1} with hst1
        have hb1 : boundedSt st1 := hb
        have e0 : st1.nodes.length = st.nodes.length := by rw [hst1]
        cases htt : token.type with
        | Alternator =>
          simp only [htt] at hrun
          cases hrun
          have hw := createAlternative_wf hb1 (getN st1 parent).parent
          exact ⟨hw.1, e0 ▸ hw.2.2, fun p hp => hw.2.1⟩
        | Assertion =>
          simp only [htt] at hrun
          have hw := createAssertionFromToken_wf hb1 hrun
          exact ⟨hw.1, e0 ▸ hw.2.2, fun p hp => hw.2.1⟩
        | Backreference =>
          simp only [htt] at hrun
          have hw := parseBackreference_wf hb1 hrun
          exact ⟨hw.1, e0 ▸ hw.2.2, fun p hp => hw.2.1⟩
        | Character =>
          simp only [htt] at hrun
          cases hrun
          have hw := createCharacter_wf hb1 parent token.value
          exact ⟨hw.1, e0 ▸ hw.2.2, fun p hp => hw.2.1⟩
        | CharacterClassHyphen =>
          simp only [htt] at hrun
          split at hrun
          case isTrue hg =>
            cases hlast : (getN st1 parent).elements.getLast? with
            | none => simp only [hlast] at hrun; cases hrun
            | some prevNode =>
              simp only [hlast] at hrun
              cases hw : run f (Job.walk parent) st1 with
              | error e => simp only [hw] at hrun; cases hrun
              | ok ws =>
                simp only [hw] at hrun
                obtain ⟨hbW, hmW, hresW⟩ := ih (Job.walk parent) st1 ws hb1 hw
                have hnlt : ws.1 < ws.2.nodes.length := hresW parent rfl
                split at hrun
                case isTrue hcc =>
                  cases hcr : createCharacterClassRange (setN ws.2 parent
                      {getN ws.2 parent with
                        elements := (getN ws.2 parent).elements.dropLast})
                      parent prevNode ws.1 with
                  | error e => simp only [hcr] at hrun; cases hrun
                  | ok rs =>
                    simp only [hcr] at hrun
                    cases hrun
                    have hb2 : boundedSt (setN ws.2 parent
                        {getN ws.2 parent with
                          elements := (getN ws.2 parent).elements.dropLast}) := by
                      apply boundedSt_setN hbW
                      · intro j hj
                        exact (containersBounded_getN hbW parent).1 j
                          (List.dropLast_subset _ hj)
                      · exact (containersBounded_getN hbW parent).2.1
                      · exact (containersBounded_getN hbW parent).2.2
                    have hwr := createCharacterClassRange_wf hb2 hcr
                    have hb4 := boundedSt_reparent hwr.1 prevNode (some rs.1)
                    have hb5 := boundedSt_reparent hb4 ws.1 (some rs.1)
                    refine ⟨hb5, ?_, fun p hp => ?_⟩
                    · simp only [length_setN]
                      have e2 := length_setN ws.2 parent
                        {getN ws.2 parent with
                          elements := (getN ws.2 parent).elements.dropLast}
                      have e3 := hwr.2.2
                      omega
                    · simp only [length_setN]
                      exact hwr.2.1
                case isFalse hcc => cases hrun
          case isFalse hg =>
            cases hrun
            have hw := createCharacter_wf hb1 parent 45
            exact ⟨hw.1, e0 ▸ hw.2.2, fun p hp => hw.2.1⟩
        | CharacterClassOpen =>
          simp only [htt] at hrun
          set cs := createCharacterClass st1 parent token.negate with hcs
          set ii := (getN cs.2 cs.1).elements.headD 0 with hii
          have hcw : wfStep st1 cs := by
            rw [hcs]; exact createCharacterClass_wf hb1 parent token.negate
          cases hcb : run f (Job.classBody ii) cs.2 with
          | error e => simp only [hcb] at hrun; cases hrun
          | ok bs =>
            simp only [hcb] at hrun
            obtain ⟨hbB, hmB, -⟩ := ih (Job.classBody ii) cs.2 bs hcw.1 hcb
            by_cases hopt : bs.2.optimize = true
            · rw [if_pos hopt] at hrun
              have hO := optimizeCharacterClassIntersection_wf hbB ii
              split at hrun
              next hcl =>
                cases hrun
                have hccne :
                    (getN (optimizeCharacterClassIntersection bs.2 ii) ii).classes
                      ≠ [] := by
                  intro h0; rw [h0] at hcl; simp at hcl
                have hcclt :
                    (getN (optimizeCharacterClassIntersection bs.2 ii) ii).classes.headD 0
                      < (optimizeCharacterClassIntersection bs.2 ii).nodes.length :=
                  (containersBounded_getN hO.1 ii).2.2 _ (headD_mem_nat hccne)
                have hb4 := boundedSt_set_pn hO.1
                  ((getN (optimizeCharacterClassIntersection bs.2 ii) ii).classes.headD 0)
                  (some parent)
                  (xor (getN (optimizeCharacterClassIntersection bs.2 ii) cs.1).negate
                    (getN (optimizeCharacterClassIntersection bs.2 ii)
                      ((getN (optimizeCharacterClassIntersection bs.2 ii) ii).classes.headD 0)).negate)
                refine ⟨boundedSt_withCurrent hb4 _, ?_, fun p hp => ?_⟩
                · simp only [nodes_withCurrent, length_setN]
                  have e1 := hcw.2.2
                  have e2 := hO.2
                  omega
                · simp only [nodes_withCurrent, length_setN]
                  exact hcclt
              next hcl =>
                cases hrun
                refine ⟨boundedSt_withCurrent hO.1 _, ?_, fun p hp => ?_⟩
                · simp only [nodes_withCurrent]
                  have e1 := hcw.2.2
                  have e2 := hO.2
                  omega
                · simp only [nodes_withCurrent]
                  have e1 := hcw.2.1
                  have e2 := hO.2
                  omega
            · rw [if_neg hopt] at hrun
              split at hrun
              next hcl =>
                cases hrun
                have hccne : (getN bs.2 ii).classes ≠ [] := by
                  intro h0; rw [h0] at hcl; simp at hcl
                have hcclt : (getN bs.2 ii).classes.headD 0 < bs.2.nodes.length :=
                  (containersBounded_getN hbB ii).2.2 _ (headD_mem_nat hccne)
                have hb4 := boundedSt_set_pn hbB
                  ((getN bs.2 ii).classes.headD 0) (some parent)
                  (xor (getN bs.2 cs.1).negate
                    (getN bs.2 ((getN bs.2 ii).classes.headD 0)).negate)
                refine ⟨boundedSt_withCurrent hb4 _, ?_, fun p hp => ?_⟩
                · simp only [nodes_withCurrent, length_setN]
                  have e1 := hcw.2.2
                  omega
                · simp only [nodes_withCurrent, length_setN]
                  exact hcclt
              next hcl =>
                cases hrun
                refine ⟨boundedSt_withCurrent hbB _, ?_, fun p hp => ?_⟩
                · simp only [nodes_withCurrent]
                  have e1 := hcw.2.2
                  omega
                · simp only [nodes_withCurrent]
                  have e1 := hcw.2.1
                  omega
        | CharacterSet =>
          simp only [htt] at hrun
          have hw := createCharacterSetFromToken_wf hb1 hrun
          exact ⟨hw.1, e0 ▸ hw.2.2, fun p hp => hw.2.1⟩
        | Directive =>
          simp only [htt] at hrun
          have hw := createDirectiveFromToken_wf hb1 hrun
          exact ⟨hw.1, e0 ▸ hw.2.2, fun p hp => hw.2.1⟩
        | GroupOpen =>
          simp only [htt] at hrun
          cases hcg : createByGroupKind st1 parent token with
          | error e => simp only [hcg] at hrun; cases hrun
          | ok gs =>
            simp only [hcg] at hrun
            have hgw := createByGroupKind_wf hb1 hcg
            have hb2 : boundedSt (registerGroup gs.2 gs.1) :=
              boundedSt_nodes_eq (nodes_registerGroup gs.2 gs.1).symm hgw.1
            have hl2 : (registerGroup gs.2 gs.1).nodes.length = gs.2.nodes.length := by
              rw [nodes_registerGroup]
            cases hgb : run f (Job.groupBody gs.1) (registerGroup gs.2 gs.1) with
            | error e => simp only [hgb] at hrun; cases hrun
            | ok bs =>
              simp only [hgb] at hrun
              obtain ⟨hbB, hmB, -⟩ := ih (Job.groupBody gs.1)
                (registerGroup gs.2 gs.1) bs hb2 hgb
              have hglt : gs.1 < bs.2.nodes.length := by
                have e1 := hgw.2.1
                omega
              by_cases hopt : bs.2.optimize = true
              · rw [if_pos hopt] at hrun
                cases hrun
                have hog := getOptimizedGroup_wf hbB hglt
                refine ⟨boundedSt_withCurrent hog.1 _, ?_, fun p hp => ?_⟩
                · simp only [nodes_withCurrent]
                  have e1 := hgw.2.2
                  have e2 := hog.2.2
                  omega
                · simp only [nodes_withCurrent]
                  have e1 := hog.2.1
                  have e2 := hog.2.2
                  omega
              · rw [if_neg hopt] at hrun
                cases hrun
                refine ⟨boundedSt_withCurrent hbB _, ?_, fun p hp => ?_⟩
                · simp only [nodes_withCurrent]
                  have e1 := hgw.2.2
                  omega
                · simp only [nodes_withCurrent]
                  exact hglt
        | Quantifier =>
          simp only [htt] at hrun
          have hw := parseQuantifier_wf hb1 hrun
          exact ⟨hw.1, e0 ▸ hw.2.2, fun p hp => hw.2.1⟩
        | Subroutine =>
          simp only [htt] at hrun
          cases hrun
          have hw := parseSubroutine_wf hb1 parent token
          exact ⟨hw.1, e0 ▸ hw.2.2, fun p hp => hw.2.1⟩
        | VariableLengthCharacterSet =>
          simp only [htt] at hrun
          have hw := createVariableLengthCharacterSet_wf hb1 hrun
          exact ⟨hw.1, e0 ▸ hw.2.2, fun p hp => hw.2.1⟩
        | CharacterClassClose => simp only [htt] at hrun; cases hrun
        | CharacterClassIntersector => simp only [htt] at hrun; cases hrun
        | GroupClose => simp only [htt] at hrun; cases hrun
    | classBody interIdx =>
      simp only [run] at hrun
      cases htok : tokenAt st st.current with
      | none => simp only [htok] at hrun; cases hrun
      | some nt =>
        simp only [htok] at hrun
        by_cases hclose : nt.type = TokTy.CharacterClassClose
        · rw [if_pos hclose] at hrun
          cases hrun
          exact ⟨hb, Nat.le_refl _, fun p hp => Job.noConfusion hp⟩
        · rw [if_neg hclose] at hrun
          by_cases hinter : nt.type = TokTy.CharacterClassIntersector
          · rw [if_pos hinter] at hrun
            have hbb : wfStep st (createCharacterClassBase st (some interIdx) false) :=
              wfStep_allocN hb rfl rfl rfl
            obtain ⟨hbR, hmR, -⟩ := ih (Job.classBody interIdx) _ ns
              (boundedSt_withCurrent
                (boundedSt_push_classes hbb.1 interIdx hbb.2.1) _) hrun
            refine ⟨hbR, ?_, fun p hp => Job.noConfusion hp⟩
            simp only [nodes_withCurrent, length_setN] at hmR
            exact Nat.le_trans hbb.2.2 hmR
          · rw [if_neg hinter] at hrun
            cases hw : run f (Job.walk ((getN st interIdx).classes.getLastD 0)) st with
            | error e => simp only [hw] at hrun; cases hrun
            | ok es =>
              simp only [hw] at hrun
              obtain ⟨hbW, hmW, hresW⟩ := ih _ st es hb hw
              have helt : es.1 < es.2.nodes.length := hresW _ rfl
              obtain ⟨hbR, hmR, -⟩ := ih (Job.classBody interIdx) _ ns
                (boundedSt_push_elements hbW
                  ((getN st interIdx).classes.getLastD 0) helt) hrun
              refine ⟨hbR, ?_, fun p hp => Job.noConfusion hp⟩
              simp only [length_setN] at hmR
              exact Nat.le_trans hmW hmR
    | groupBody nodeIdx =>
      simp only [run] at hrun
      cases htok : tokenAt st st.current with
      | none => simp only [htok] at hrun; cases hrun
      | some nt =>
        simp only [htok] at hrun
        by_cases hclose : nt.type = TokTy.GroupClose
        · rw [if_pos hclose] at hrun
          cases hrun
          exact ⟨hb, Nat.le_refl _, fun p hp => Job.noConfusion hp⟩
        · rw [if_neg hclose] at hrun
          by_cases halt : nt.type = TokTy.Alternator
          · rw [if_pos halt] at hrun
            have haw := createAlternative_wf hb (some nodeIdx)
            obtain ⟨hbR, hmR, -⟩ := ih (Job.groupBody nodeIdx) _ ns
              (boundedSt_withCurrent
                (boundedSt_push_alternatives haw.1 nodeIdx haw.2.1) _) hrun
            refine ⟨hbR, ?_, fun p hp => Job.noConfusion hp⟩
            simp only [nodes_withCurrent, length_setN] at hmR
            exact Nat.le_trans haw.2.2 hmR
          · rw [if_neg halt] at hrun
            cases hw : run f (Job.walk ((getN st nodeIdx).alternatives.getLastD 0)) st with
            | error e => simp only [hw] at hrun; cases hrun
            | ok es =>
              simp only [hw] at hrun
              obtain ⟨hbW, hmW, hresW⟩ := ih _ st es hb hw
              have helt : es.1 < es.2.nodes.length := hresW _ rfl
              obtain ⟨hbR, hmR, -⟩ := ih (Job.groupBody nodeIdx) _ ns
                (boundedSt_push_elements hbW
                  ((getN st nodeIdx).alternatives.getLastD 0) helt) hrun
              refine ⟨hbR, ?_, fun p hp => Job.noConfusion hp⟩
              simp only [length_setN] at hmR
              exact Nat.le_trans hmW hmR
    | mainLoop ast top =>
      simp only [run] at hrun
      by_cases hlt : st.current < st.tokens.length
      · rw [if_pos hlt] at hrun
        cases hw : run f (Job.walk top) st with
        | error e => simp only [hw] at hrun; cases hrun
        | ok ws =>
          simp only [hw] at hrun
          obtain ⟨hbW, hmW, hresW⟩ := ih _ st ws hb hw
          have hnlt : ws.1 < ws.2.nodes.length := hresW top rfl
          split at hrun
          next hal =>
            obtain ⟨hbR, hmR, -⟩ := ih (Job.mainLoop ast ws.1) _ ns
              (boundedSt_push_alternatives hbW ((getN ws.2 ast).pattern) hnlt) hrun
            refine ⟨hbR, ?_, fun p hp => Job.noConfusion hp⟩
            simp only [length_setN] at hmR
            exact Nat.le_trans hmW hmR
          next hal =>
            obtain ⟨hbR, hmR, -⟩ := ih (Job.mainLoop ast top) _ ns
              (boundedSt_push_elements hbW top hnlt) hrun
            refine ⟨hbR, ?_, fun p hp => Job.noConfusion hp⟩
            simp only [length_setN] at hmR
            exact Nat.le_trans hmW hmR
      · rw [if_neg hlt] at hrun
        cases hrun
        exact ⟨hb, Nat.le_refl _, fun p hp => Job.noConfusion hp⟩

theorem listGetLast?_mem {l : List Nat} {a : Nat} (h : l.getLast? = some a) :
    a ∈ l := by
  induction l with
  | nil => cases h
  | cons x xs ih =>
    cases xs with
    | nil =>
      simp only [List.getLast?_singleton, Option.some.injEq] at h
      simp [h]
    | cons y ys =>
      rw [List.getLast?_cons_cons] at h
      exact List.mem_cons_of_mem _ (ih h)

/-! ## Claim C1: intersection wrapping under `optimize := false` -/

/-- No element of node `i` is a `CharacterClassIntersection`. -/
def noInterElems (st : PState) (i : Nat) : Prop :=
  ∀ j ∈ (getN st i).elements, (getN st j).type ≠ AstType.CharacterClassIntersection

/-- The amended C1 shape of a node's `elements` list: either exactly one
`CharacterClassIntersection` child (the wrapper-class shape) or no
intersection child at all (every other node, including hoisted classes). -/
def okClass (st : PState) (i : Nat) : Prop :=
  (∃ k, (getN st i).elements = [k] ∧
    (getN st k).type = AstType.CharacterClassIntersection) ∨ noInterElems st i

/-- The C1 state invariant for `optimize := false` runs: bounded arena,
every node has the amended class shape, members of `classes` containers
are intersection-free `CharacterClass` nodes, and members of
`alternatives` containers are intersection-free `Alternative` nodes. -/
def SInv (st : PState) : Prop :=
  boundedSt st ∧ (∀ i, okClass st i) ∧
  (∀ i, ∀ j ∈ (getN st i).classes,
    (getN st j).type = AstType.CharacterClass ∧ noInterElems st j) ∧
  (∀ i, ∀ j ∈ (getN st i).alternatives,
    (getN st j).type = AstType.Alternative ∧ noInterElems st j)

theorem listSet_oob : ∀ (l : List Node) (i : Nat) (n : Node),
    l.length ≤ i → l.set i n = l := by
  intro l
  induction l with
  | nil => intro i n h; cases i <;> rfl
  | cons x xs ih =>
    intro i n h
    cases i with
    | zero => simp at h
    | succ j =>
      simp only [List.set]
      rw [ih j n (by simpa using h)]

theorem setN_oob {st : PState} {i : Nat} (h : st.nodes.length ≤ i) (n : Node) :
    setN st i n = st := by
  unfold setN
  rw [listSet_oob _ _ _ h]

theorem noInterElems_transfer {st st' : PState} {i : Nat}
    (he : (getN st' i).elements = (getN st i).elements)
    (ht : ∀ k, (getN st' k).type = (getN st k).type)
    (h : noInterElems st i) : noInterElems st' i := by
  intro j hj
  rw [he] at hj
  rw [ht j]
  exact h j hj

theorem okClass_transfer {st st' : PState} {i : Nat}
    (he : (getN st' i).elements = (getN st i).elements)
    (ht : ∀ k, (getN st' k).type = (getN st k).type)
    (h : okClass st i) : okClass st' i := by
  rcases h with ⟨k, hk, hkt⟩ | h
  · exact .inl ⟨k, by rw [he, hk], by rw [ht k]; exact hkt⟩
  · exact .inr (noInterElems_transfer he ht h)

theorem types_setN_same {st : PState} {i : Nat} {n : Node}
    (hio : i < st.nodes.length) (ht : n.type = (getN st i).type) :
    ∀ k, (getN (setN st i n) k).type = (getN st k).type := by
  intro k
  by_cases hk : k = i
  · subst hk
    rw [getN_setN_self _ _ hio, ht]
  · rw [getN_setN_ne _ _ _ hk]

theorem elems_setN_same {st : PState} {i : Nat} {n : Node}
    (hio : i < st.nodes.length) (he : n.elements = (getN st i).elements) :
    ∀ k, (getN (setN st i n) k).elements = (getN st k).elements := by
  intro k
  by_cases hk : k = i
  · subst hk
    rw [getN_setN_self _ _ hio, he]
  · rw [getN_setN_ne _ _ _ hk]

theorem alts_setN_same {st : PState} {i : Nat} {n : Node}
    (hio : i < st.nodes.length) (ha : n.alternatives = (getN st i).alternatives) :
    ∀ k, (getN (setN st i n) k).alternatives = (getN st k).alternatives := by
  intro k
  by_cases hk : k = i
  · subst hk
    rw [getN_setN_self _ _ hio, ha]
  · rw [getN_setN_ne _ _ _ hk]

theorem classes_setN_same {st : PState} {i : Nat} {n : Node}
    (hio : i < st.nodes.length) (hc : n.classes = (getN st i).classes) :
    ∀ k, (getN (setN st i n) k).classes = (getN st k).classes := by
  intro k
  by_cases hk : k = i
  · subst hk
    rw [getN_setN_self _ _ hio, hc]
  · rw [getN_setN_ne _ _ _ hk]

/-- `setN` preserving all four structural fields preserves the C1
invariant (covers reparenting and flag/negation rewrites). -/
theorem SInv_setN_frozen {st : PState} {i : Nat} {n : Node} (h : SInv st)
    (ht : n.type = (getN st i).type) (he : n.elements = (getN st i).elements)
    (ha : n.alternatives = (getN st i).alternatives)
    (hc : n.classes = (getN st i).classes) : SInv (setN st i n) := by
  by_cases hio : i < st.nodes.length
  case neg => rw [setN_oob (Nat.le_of_not_lt hio) n]; exact h
  have hT := types_setN_same hio ht
  have hE := elems_setN_same hio he
  have hA := alts_setN_same hio ha
  have hC := classes_setN_same hio hc
  refine ⟨?_, ?_, ?_, ?_⟩
  · apply boundedSt_setN h.1
    · rw [he]; exact (containersBounded_getN h.1 i).1
    · rw [ha]; exact (containersBounded_getN h.1 i).2.1
    · rw [hc]; exact (containersBounded_getN h.1 i).2.2
  · intro k
    exact okClass_transfer (hE k) hT (h.2.1 k)
  · intro k j hj
    rw [hC k] at hj
    obtain ⟨hjt, hjn⟩ := h.2.2.1 k j hj
    exact ⟨by rw [hT j]; exact hjt, noInterElems_transfer (hE j) hT hjn⟩
  · intro k j hj
    rw [hA k] at hj
    obtain ⟨hjt, hjn⟩ := h.2.2.2 k j hj
    exact ⟨by rw [hT j]; exact hjt, noInterElems_transfer (hE j) hT hjn⟩

/-- `setN` that rewrites `elements` to an intersection-free bounded list
(push of a walked node, pop of the last element) preserves the C1
invariant. -/
theorem SInv_setN_elems {st : PState} {i : Nat} {n : Node} (h : SInv st)
    (ht : n.type = (getN st i).type)
    (ha : n.alternatives = (getN st i).alternatives)
    (hc : n.classes = (getN st i).classes)
    (hbnd : ∀ j ∈ n.elements, j < st.nodes.length)
    (hni : ∀ j ∈ n.elements, (getN st j).type ≠ AstType.CharacterClassIntersection) :
    SInv (setN st i n) := by
  by_cases hio : i < st.nodes.length
  case neg => rw [setN_oob (Nat.le_of_not_lt hio) n]; exact h
  have hT := types_setN_same hio ht
  have hA := alts_setN_same hio ha
  have hC := classes_setN_same hio hc
  have hEi : noInterElems (setN st i n) i := by
    intro j hj
    rw [getN_setN_self _ _ hio] at hj
    rw [hT j]
    exact hni j hj
  have hniAll : ∀ j, noInterElems st j → noInterElems (setN st i n) j := by
    intro j hj
    by_cases hji : j = i
    · subst hji; exact hEi
    · exact noInterElems_transfer (by rw [getN_setN_ne _ _ _ hji]) hT hj
  refine ⟨?_, ?_, ?_, ?_⟩
  · apply boundedSt_setN h.1 hbnd
    · rw [ha]; exact (containersBounded_getN h.1 i).2.1
    · rw [hc]; exact (containersBounded_getN h.1 i).2.2
  · intro k
    by_cases hk : k = i
    · subst hk; exact .inr hEi
    · exact okClass_transfer (by rw [getN_setN_ne _ _ _ hk]) hT (h.2.1 k)
  · intro k j hj
    rw [hC k] at hj
    obtain ⟨hjt, hjn⟩ := h.2.2.1 k j hj
    exact ⟨by rw [hT j]; exact hjt, hniAll j hjn⟩
  · intro k j hj
    rw [hA k] at hj
    obtain ⟨hjt, hjn⟩ := h.2.2.2 k j hj
    exact ⟨by rw [hT j]; exact hjt, hniAll j hjn⟩

/-- `setN` that appends an intersection-free `Alternative` node to
`alternatives` preserves the C1 invariant. -/
theorem SInv_setN_alts {st : PState} {i : Nat} {n : Node} {a : Nat} (h : SInv st)
    (ht : n.type = (getN st i).type)
    (he : n.elements = (getN st i).elements)
    (hc : n.classes = (getN st i).classes)
    (hna : n.alternatives = (getN st i).alternatives ++ [a])
    (haBnd : a < st.nodes.length)
    (haT : (getN st a).type = AstType.Alternative)
    (haN : noInterElems st a) :
    SInv (setN st i n) := by
  by_cases hio : i < st.nodes.length
  case neg => rw [setN_oob (Nat.le_of_not_lt hio) n]; exact h
  have hT := types_setN_same hio ht
  have hE := elems_setN_same hio he
  have hC := classes_setN_same hio hc
  have hniAll : ∀ j, noInterElems st j → noInterElems (setN st i n) j :=
    fun j hj => noInterElems_transfer (hE j) hT hj
  refine ⟨?_, ?_, ?_, ?_⟩
  · apply boundedSt_setN h.1
    · rw [he]; exact (containersBounded_getN h.1 i).1
    · rw [hna]
      intro j hj
      rcases List.mem_append.mp hj with hj | hj
      · exact (containersBounded_getN h.1 i).2.1 j hj
      · rw [List.mem_singleton] at hj; subst hj; exact haBnd
    · rw [hc]; exact (containersBounded_getN h.1 i).2.2
  · intro k
    exact okClass_transfer (hE k) hT (h.2.1 k)
  · intro k j hj
    rw [hC k] at hj
    obtain ⟨hjt, hjn⟩ := h.2.2.1 k j hj
    exact ⟨by rw [hT j]; exact hjt, hniAll j hjn⟩
  · intro k j hj
    by_cases hk : k = i
    · subst hk
      rw [getN_setN_self _ _ hio, hna] at hj
      rcases List.mem_append.mp hj with hj | hj
      · obtain ⟨hjt, hjn⟩ := h.2.2.2 _ j hj
        exact ⟨by rw [hT j]; exact hjt, hniAll j hjn⟩
      · rw [List.mem_singleton] at hj; subst hj
        exact ⟨by rw [hT j]; exact haT, hniAll j haN⟩
    · rw [getN_setN_ne _ _ _ hk] at hj
      obtain ⟨hjt, hjn⟩ := h.2.2.2 k j hj
      exact ⟨by rw [hT j]; exact hjt, hniAll j hjn⟩

/-- `setN` that appends an intersection-free `CharacterClass` node to
`classes` preserves the C1 invariant. -/
theorem SInv_setN_classes {st : PState} {i : Nat} {n : Node} {c : Nat} (h : SInv st)
    (ht : n.type = (getN st i).type)
    (he : n.elements = (getN st i).elements)
    (ha : n.alternatives = (getN st i).alternatives)
    (hnc : n.classes = (getN st i).classes ++ [c])
    (hcBnd : c < st.nodes.length)
    (hcT : (getN st c).type = AstType.CharacterClass)
    (hcN : noInterElems st c) :
    SInv (setN st i n) := by
  by_cases hio : i < st.nodes.length
  case neg => rw [setN_oob (Nat.le_of_not_lt hio) n]; exact h
  have hT := types_setN_same hio ht
  have hE := elems_setN_same hio he
  have hA := alts_setN_same hio ha
  have hniAll : ∀ j, noInterElems st j → noInterElems (setN st i n) j :=
    fun j hj => noInterElems_transfer (hE j) hT hj
  refine ⟨?_, ?_, ?_, ?_⟩
  · apply boundedSt_setN h.1
    · rw [he]; exact (containersBounded_getN h.1 i).1
    · rw [ha]; exact (containersBounded_getN h.1 i).2.1
    · rw [hnc]
      intro j hj
      rcases List.mem_append.mp hj with hj | hj
      · exact (containersBounded_getN h.1 i).2.2 j hj
      · rw [List.mem_singleton] at hj; subst hj; exact hcBnd
  · intro k
    exact okClass_transfer (hE k) hT (h.2.1 k)
  · intro k j hj
    by_cases hk : k = i
    · subst hk
      rw [getN_setN_self _ _ hio, hnc] at hj
      rcases List.mem_append.mp hj with hj | hj
      · obtain ⟨hjt, hjn⟩ := h.2.2.1 _ j hj
        exact ⟨by rw [hT j]; exact hjt, hniAll j hjn⟩
      · rw [List.mem_singleton] at hj; subst hj
        exact ⟨by rw [hT j]; exact hcT, hniAll j hcN⟩
    · rw [getN_setN_ne _ _ _ hk] at hj
      obtain ⟨hjt, hjn⟩ := h.2.2.1 k j hj
      exact ⟨by rw [hT j]; exact hjt, hniAll j hjn⟩
  · intro k j hj
    rw [hA k] at hj
    obtain ⟨hjt, hjn⟩ := h.2.2.2 k j hj
    exact ⟨by rw [hT j]; exact hjt, hniAll j hjn⟩

theorem SInv_nodes_eq {st st' : PState} (h : st.nodes = st'.nodes)
    (hs : SInv st) : SInv st' := by
  have hg : ∀ i, getN st' i = getN st i := fun i => by unfold getN; rw [← h]
  have hT : ∀ k, (getN st' k).type = (getN st k).type := fun k => by rw [hg k]
  refine ⟨boundedSt_nodes_eq h hs.1, ?_, ?_, ?_⟩
  · intro k
    exact okClass_transfer (by rw [hg k]) hT (hs.2.1 k)
  · intro k j hj
    rw [hg k] at hj
    obtain ⟨hjt, hjn⟩ := hs.2.2.1 k j hj
    exact ⟨by rw [hT j]; exact hjt,
      noInterElems_transfer (by rw [hg j]) hT hjn⟩
  · intro k j hj
    rw [hg k] at hj
    obtain ⟨hjt, hjn⟩ := hs.2.2.2 k j hj
    exact ⟨by rw [hT j]; exact hjt,
      noInterElems_transfer (by rw [hg j]) hT hjn⟩

theorem SInv_withCurrent {st : PState} (h : SInv st) (c : Nat) :
    SInv {st with current := c} := h

/-- Popping the last element always leaves an intersection-free
`elements` list: a wrapper `[k]` pops to `[]`, any other shape was
already intersection-free. -/
theorem noInter_dropLast {st : PState} {i : Nat} (h : okClass st i) :
    ∀ j ∈ (getN st i).elements.dropLast,
      (getN st j).type ≠ AstType.CharacterClassIntersection := by
  rcases h with ⟨k, hk, _⟩ | h
  · rw [hk]
    intro j hj
    simp at hj
  · intro j hj
    exact h j (List.dropLast_subset _ hj)

/-- Appending a suffix of nodes whose containers satisfy the invariant
conditions (stated over the extended arena) preserves the C1 invariant. -/
theorem SInv_of_append {st st' : PState} (h : SInv st) {suf : List Node}
    (hs : st'.nodes = st.nodes ++ suf)
    (hbnd : ∀ n ∈ suf,
      (∀ j ∈ n.elements, j < st.nodes.length + suf.length) ∧
      (∀ j ∈ n.alternatives, j < st.nodes.length + suf.length) ∧
      (∀ j ∈ n.classes, j < st.nodes.length + suf.length))
    (hok : ∀ n ∈ suf,
      (∃ k, n.elements = [k] ∧
        (getN st' k).type = AstType.CharacterClassIntersection) ∨
      (∀ j ∈ n.elements, (getN st' j).type ≠ AstType.CharacterClassIntersection))
    (hcw : ∀ n ∈ suf, ∀ j ∈ n.classes,
      (getN st' j).type = AstType.CharacterClass ∧ noInterElems st' j)
    (haw : ∀ n ∈ suf, ∀ j ∈ n.alternatives,
      (getN st' j).type = AstType.Alternative ∧ noInterElems st' j) :
    SInv st' := by
  have hb' := boundedSt_of_append h.1 hs hbnd
  have hlen : st'.nodes.length = st.nodes.length + suf.length := by
    rw [hs, List.length_append]
  have hold : ∀ k, k < st.nodes.length → getN st' k = getN st k := by
    intro k hk
    unfold getN
    rw [hs, listGetD_append_lt2 _ hk]
  have hT : ∀ k, k < st.nodes.length → (getN st' k).type = (getN st k).type :=
    fun k hk => by rw [hold k hk]
  have hnew : ∀ k, st.nodes.length ≤ k → k < st.nodes.length + suf.length →
      getN st' k = suf.getD (k - st.nodes.length) default ∧
      suf.getD (k - st.nodes.length) default ∈ suf := by
    intro k h1 h2
    obtain ⟨d, hd⟩ : ∃ d, k = st.nodes.length + d := ⟨k - st.nodes.length, by omega⟩
    subst hd
    have hix : st.nodes.length + d - st.nodes.length = d := by omega
    constructor
    · unfold getN
      rw [hs, listGetD_append_right, hix]
    · rw [hix]
      exact listGetD_mem (by omega)
  have hoob : ∀ k, st.nodes.length + suf.length ≤ k → getN st' k = default := by
    intro k hk
    exact getN_ge st' (by omega)
  have hniOld : ∀ j, j < st.nodes.length → noInterElems st j → noInterElems st' j := by
    intro j hj hn e he'
    rw [hold j hj] at he'
    have helt := (h.1 j hj).1 e he'
    rw [hT e helt]
    exact hn e he'
  refine ⟨hb', ?_, ?_, ?_⟩
  · intro k
    by_cases hk : k < st.nodes.length
    · rcases h.2.1 k with ⟨m, hm, hmt⟩ | hni
      · left
        refine ⟨m, by rw [hold k hk]; exact hm, ?_⟩
        have hmlt : m < st.nodes.length :=
          (h.1 k hk).1 m (by rw [hm]; exact List.mem_singleton.mpr rfl)
        rw [hT m hmlt]
        exact hmt
      · exact .inr (hniOld k hk hni)
    · by_cases hk2 : k < st.nodes.length + suf.length
      · obtain ⟨hg, hmem⟩ := hnew k (Nat.le_of_not_lt hk) hk2
        rcases hok _ hmem with ⟨m, hm, hmt⟩ | hR
        · exact .inl ⟨m, by rw [hg]; exact hm, hmt⟩
        · right
          intro j hj
          rw [hg] at hj
          exact hR j hj
      · right
        intro j hj
        rw [hoob k (Nat.le_of_not_lt hk2)] at hj
        exact absurd hj (List.not_mem_nil j)
  · intro k j hj
    by_cases hk : k < st.nodes.length
    · rw [hold k hk] at hj
      obtain ⟨hjt, hjn⟩ := h.2.2.1 k j hj
      have hjlt : j < st.nodes.length := (h.1 k hk).2.2 j hj
      exact ⟨by rw [hT j hjlt]; exact hjt, hniOld j hjlt hjn⟩
    · by_cases hk2 : k < st.nodes.length + suf.length
      · obtain ⟨hg, hmem⟩ := hnew k (Nat.le_of_not_lt hk) hk2
        rw [hg] at hj
        exact hcw _ hmem j hj
      · rw [hoob k (Nat.le_of_not_lt hk2)] at hj
        exact absurd hj (List.not_mem_nil j)
  · intro k j hj
    by_cases hk : k < st.nodes.length
    · rw [hold k hk] at hj
      obtain ⟨hjt, hjn⟩ := h.2.2.2 k j hj
      have hjlt : j < st.nodes.length := (h.1 k hk).2.1 j hj
      exact ⟨by rw [hT j hjlt]; exact hjt, hniOld j hjlt hjn⟩
    · by_cases hk2 : k < st.nodes.length + suf.length
      · obtain ⟨hg, hmem⟩ := hnew k (Nat.le_of_not_lt hk) hk2
        rw [hg] at hj
        exact haw _ hmem j hj
      · rw [hoob k (Nat.le_of_not_lt hk2)] at hj
        exact absurd hj (List.not_mem_nil j)

theorem SInv_allocN {st : PState} (h : SInv st) {n : Node}
    (hne : n.elements = []) (hna : n.alternatives = []) (hnc : n.classes = []) :
    SInv (allocN st n).2 := by
  refine SInv_of_append h (nodes_allocN st n) ?_ ?_ ?_ ?_ <;>
    intro m hm <;>
    (simp only [List.mem_singleton] at hm; subst hm)
  · rw [hne, hna, hnc]
    exact ⟨fun j hj => absurd hj (List.not_mem_nil j),
      fun j hj => absurd hj (List.not_mem_nil j),
      fun j hj => absurd hj (List.not_mem_nil j)⟩
  · right
    rw [hne]
    exact fun j hj => absurd hj (List.not_mem_nil j)
  · rw [hnc]
    exact fun j hj => absurd hj (List.not_mem_nil j)
  · rw [hna]
    exact fun j hj => absurd hj (List.not_mem_nil j)

/-- The fact bundle for a plain allocation step. -/
theorem stepFacts_allocN {st : PState} (h : SInv st) {n : Node}
    (hne : n.elements = []) (hna : n.alternatives = []) (hnc : n.classes = []) :
    SInv (allocN st n).2 ∧
    (allocN st n).1 < (allocN st n).2.nodes.length ∧
    st.nodes.length ≤ (allocN st n).2.nodes.length ∧
    (allocN st n).2.optimize = st.optimize ∧
    (∀ k, k < st.nodes.length → (getN (allocN st n).2 k).type = (getN st k).type) ∧
    getN (allocN st n).2 (allocN st n).1 = n :=
  ⟨SInv_allocN h hne hna hnc,
   by rw [fst_allocN, length_allocN]; omega,
   by rw [length_allocN]; omega,
   rfl,
   fun k hk => by rw [getN_allocN_lt st n hk],
   by rw [fst_allocN]; exact getN_allocN_self st n⟩

/-- Arena shape of `withInitialAlternative` applied to a fresh
allocation: the node with its initial alternative installed, then the
alternative, at two consecutive fresh indices. -/
theorem wia_shape (st : PState) (n : Node) :
    (withInitialAlternative (allocN st n).2 (allocN st n).1).1 = st.nodes.length ∧
    (withInitialAlternative (allocN st n).2 (allocN st n).1).2.nodes =
      st.nodes ++ [{n with alternatives := [st.nodes.length + 1]},
        {getNodeBase (some st.nodes.length) .Alternative with elements := []}] := by
  refine ⟨rfl, ?_⟩
  simp only [withInitialAlternative, createAlternative, allocN, setN, getN,
    List.append_assoc, List.singleton_append, List.cons_append, List.nil_append,
    List.length_append, List.length_cons, List.length_nil,
    listGetD_append_right, listSet_append_right, listGetD_append_len,
    listSet_append_len]
  norm_num

/-- The fact bundle for an allocation wrapped by
`withInitialAlternative` (groups, capturing groups, lookarounds). -/
theorem stepFacts_wia {st : PState} (h : SInv st) {n : Node}
    (hne : n.elements = []) (_hna : n.alternatives = []) (hnc : n.classes = []) :
    SInv (withInitialAlternative (allocN st n).2 (allocN st n).1).2 ∧
    (withInitialAlternative (allocN st n).2 (allocN st n).1).1 <
      (withInitialAlternative (allocN st n).2 (allocN st n).1).2.nodes.length ∧
    st.nodes.length ≤
      (withInitialAlternative (allocN st n).2 (allocN st n).1).2.nodes.length ∧
    (withInitialAlternative (allocN st n).2 (allocN st n).1).2.optimize
      = st.optimize ∧
    (∀ k, k < st.nodes.length →
      (getN (withInitialAlternative (allocN st n).2 (allocN st n).1).2 k).type
        = (getN st k).type) ∧
    getN (withInitialAlternative (allocN st n).2 (allocN st n).1).2
      (withInitialAlternative (allocN st n).2 (allocN st n).1).1 =
      {n with alternatives := [st.nodes.length + 1]} := by
  obtain ⟨h1, h2⟩ := wia_shape st n
  have hlen : (withInitialAlternative (allocN st n).2
      (allocN st n).1).2.nodes.length = st.nodes.length + 2 := by
    rw [h2]; simp
  have hgself : getN (withInitialAlternative (allocN st n).2
      (allocN st n).1).2 st.nodes.length =
      {n with alternatives := [st.nodes.length + 1]} := by
    unfold getN
    rw [h2, listGetD_append_len]
    rfl
  have hgalt : getN (withInitialAlternative (allocN st n).2
      (allocN st n).1).2 (st.nodes.length + 1) =
      {getNodeBase (some st.nodes.length) .Alternative with elements := []} := by
    unfold getN
    rw [h2, listGetD_append_right]
    rfl
  refine ⟨?_, ?_, ?_, rfl, ?_, ?_⟩
  · refine SInv_of_append h h2 ?_ ?_ ?_ ?_
    · intro m hm
      simp only [List.mem_cons, List.not_mem_nil, or_false] at hm
      rcases hm with hm | hm <;> subst hm
      · refine ⟨?_, ?_, ?_⟩
        · intro j hj
          rw [show ({n with alternatives := [st.nodes.length + 1]} : Node).elements
              = n.elements from rfl, hne] at hj
          exact absurd hj (List.not_mem_nil j)
        · intro j hj
          simp only [List.mem_singleton] at hj
          subst hj
          simp
        · intro j hj
          rw [show ({n with alternatives := [st.nodes.length + 1]} : Node).classes
              = n.classes from rfl, hnc] at hj
          exact absurd hj (List.not_mem_nil j)
      · exact ⟨fun j hj => absurd hj (List.not_mem_nil j),
          fun j hj => absurd hj (List.not_mem_nil j),
          fun j hj => absurd hj (List.not_mem_nil j)⟩
    · intro m hm
      simp only [List.mem_cons, List.not_mem_nil, or_false] at hm
      right
      rcases hm with hm | hm <;> subst hm
      · intro j hj
        rw [show ({n with alternatives := [st.nodes.length + 1]} : Node).elements
            = n.elements from rfl, hne] at hj
        exact absurd hj (List.not_mem_nil j)
      · intro j hj
        exact absurd hj (List.not_mem_nil j)
    · intro m hm
      simp only [List.mem_cons, List.not_mem_nil, or_false] at hm
      rcases hm with hm | hm <;> subst hm
      · intro j hj
        rw [show ({n with alternatives := [st.nodes.length + 1]} : Node).classes
            = n.classes from rfl, hnc] at hj
        exact absurd hj (List.not_mem_nil j)
      · intro j hj
        exact absurd hj (List.not_mem_nil j)
    · intro m hm
      simp only [List.mem_cons, List.not_mem_nil, or_false] at hm
      rcases hm with hm | hm <;> subst hm
      · intro j hj
        simp only [List.mem_singleton] at hj
        subst hj
        refine ⟨by rw [hgalt]; rfl, ?_⟩
        intro e he
        rw [hgalt] at he
        exact absurd he (List.not_mem_nil e)
      · intro j hj
        exact absurd hj (List.not_mem_nil j)
  · rw [h1, hlen]; omega
  · rw [hlen]; omega
  · intro k hk
    have : getN (withInitialAlternative (allocN st n).2 (allocN st n).1).2 k
        = getN st k := by
      unfold getN
      rw [h2, listGetD_append_lt2 _ hk]
    rw [this]
  · rw [h1]
    exact hgself

theorem optimize_registerGroup (st : PState) (g : Nat) :
    (registerGroup st g).optimize = st.optimize := by
  simp only [registerGroup]
  split
  · cases (getN {st with capturingGroups := st.capturingGroups ++ [g]} g).name <;> rfl
  · rfl

/-- The per-step fact bundle of the C1 induction: invariant, result
bound, arena growth, `optimize` stability, type stability. -/
def stepInv (st : PState) (p : Nat × PState) : Prop :=
  SInv p.2 ∧ p.1 < p.2.nodes.length ∧ st.nodes.length ≤ p.2.nodes.length ∧
  p.2.optimize = st.optimize ∧
  (∀ k, k < st.nodes.length → (getN p.2 k).type = (getN st k).type) ∧
  (∀ k, k < st.nodes.length → noInterElems st k → noInterElems p.2 k) ∧
  (∀ k, k < st.nodes.length → (getN st k).classes ≠ [] →
    (getN p.2 k).classes ≠ []) ∧
  (∀ k, k < st.nodes.length → (getN st k).alternatives ≠ [] →
    (getN p.2 k).alternatives ≠ [])

theorem classesNE_append {st st' : PState} {suf : List Node}
    (hs : st'.nodes = st.nodes ++ suf) :
    ∀ k, k < st.nodes.length → (getN st k).classes ≠ [] →
      (getN st' k).classes ≠ [] := by
  intro k hk hne
  have hold : getN st' k = getN st k := by
    unfold getN; rw [hs, listGetD_append_lt2 _ hk]
  rw [hold]
  exact hne

theorem altsNE_append {st st' : PState} {suf : List Node}
    (hs : st'.nodes = st.nodes ++ suf) :
    ∀ k, k < st.nodes.length → (getN st k).alternatives ≠ [] →
      (getN st' k).alternatives ≠ [] := by
  intro k hk hne
  have hold : getN st' k = getN st k := by
    unfold getN; rw [hs, listGetD_append_lt2 _ hk]
  rw [hold]
  exact hne

theorem classesNE_setN {st : PState} {i : Nat} {n : Node}
    (hio : i < st.nodes.length)
    (hc : (getN st i).classes ≠ [] → n.classes ≠ []) :
    ∀ k, k < st.nodes.length → (getN st k).classes ≠ [] →
      (getN (setN st i n) k).classes ≠ [] := by
  intro k hk hne
  by_cases hki : k = i
  · subst hki
    rw [getN_setN_self _ _ hio]
    exact hc hne
  · rw [getN_setN_ne _ _ _ hki]
    exact hne

theorem altsNE_setN {st : PState} {i : Nat} {n : Node}
    (hio : i < st.nodes.length)
    (ha : (getN st i).alternatives ≠ [] → n.alternatives ≠ []) :
    ∀ k, k < st.nodes.length → (getN st k).alternatives ≠ [] →
      (getN (setN st i n) k).alternatives ≠ [] := by
  intro k hk hne
  by_cases hki : k = i
  · subst hki
    rw [getN_setN_self _ _ hio]
    exact ha hne
  · rw [getN_setN_ne _ _ _ hki]
    exact hne

/-- Old nodes keep intersection-free `elements` across an arena append. -/
theorem noInterPres_append {st st' : PState} (hb : boundedSt st) {suf : List Node}
    (hs : st'.nodes = st.nodes ++ suf) :
    ∀ k, k < st.nodes.length → noInterElems st k → noInterElems st' k := by
  intro k hk hn j hj
  have hold : getN st' k = getN st k := by
    unfold getN; rw [hs, listGetD_append_lt2 _ hk]
  rw [hold] at hj
  have hjlt := (hb k hk).1 j hj
  have holdj : getN st' j = getN st j := by
    unfold getN; rw [hs, listGetD_append_lt2 _ hjlt]
  rw [holdj]
  exact hn j hj

/-- A structural-field-preserving `setN` keeps intersection-free
`elements` of every node. -/
theorem noInterPres_setN_frozen {st : PState} {i : Nat} {n : Node}
    (hio : i < st.nodes.length) (ht : n.type = (getN st i).type)
    (he : n.elements = (getN st i).elements) :
    ∀ k, noInterElems st k → noInterElems (setN st i n) k :=
  fun k hk =>
    noInterElems_transfer (elems_setN_same hio he k) (types_setN_same hio ht) hk

/-- A `setN` whose new `elements` list is itself intersection-free keeps
intersection-free `elements` of every node. -/
theorem noInterPres_setN_elems {st : PState} {i : Nat} {n : Node}
    (hio : i < st.nodes.length) (ht : n.type = (getN st i).type)
    (hni : ∀ j ∈ n.elements, (getN st j).type ≠ AstType.CharacterClassIntersection) :
    ∀ k, noInterElems st k → noInterElems (setN st i n) k := by
  intro k hk
  by_cases hki : k = i
  · subst hki
    intro j hj
    rw [getN_setN_self _ _ hio] at hj
    rw [types_setN_same hio ht j]
    exact hni j hj
  · exact noInterElems_transfer (by rw [getN_setN_ne _ _ _ hki])
      (types_setN_same hio ht) hk

theorem stepInv_alloc {st : PState} (h : SInv st) {n : Node}
    (hne : n.elements = []) (hna : n.alternatives = []) (hnc : n.classes = []) :
    stepInv st (allocN st n) ∧ getN (allocN st n).2 (allocN st n).1 = n := by
  obtain ⟨h1, h2, h3, h4, h5, h6⟩ := stepFacts_allocN h hne hna hnc
  exact ⟨⟨h1, h2, h3, h4, h5,
    noInterPres_append h.1 (nodes_allocN st n),
    classesNE_append (nodes_allocN st n),
    altsNE_append (nodes_allocN st n)⟩, h6⟩

theorem stepInv_wia {st : PState} (h : SInv st) {n : Node}
    (hne : n.elements = []) (hna : n.alternatives = []) (hnc : n.classes = []) :
    stepInv st (withInitialAlternative (allocN st n).2 (allocN st n).1) ∧
    getN (withInitialAlternative (allocN st n).2 (allocN st n).1).2
      (withInitialAlternative (allocN st n).2 (allocN st n).1).1 =
      {n with alternatives := [st.nodes.length + 1]} := by
  obtain ⟨h1, h2, h3, h4, h5, h6⟩ := stepFacts_wia h hne hna hnc
  exact ⟨⟨h1, h2, h3, h4, h5,
    noInterPres_append h.1 (wia_shape st n).2,
    classesNE_append (wia_shape st n).2,
    altsNE_append (wia_shape st n).2⟩, h6⟩

theorem createAlternative_inv {st : PState} (h : SInv st) (parent : Option Nat) :
    stepInv st (createAlternative st parent) ∧
    (getN (createAlternative st parent).2
      (createAlternative st parent).1).type = AstType.Alternative ∧
    (getN (createAlternative st parent).2
      (createAlternative st parent).1).elements = [] := by
  unfold createAlternative
  refine ⟨(stepInv_alloc h rfl rfl rfl).1, ?_, ?_⟩
  · rw [(stepInv_alloc h rfl rfl rfl).2]
    rfl
  · rw [(stepInv_alloc h rfl rfl rfl).2]

theorem createCharacter_inv {st : PState} (h : SInv st) (parent v : Nat) :
    stepInv st (createCharacter st parent v) ∧
    (getN (createCharacter st parent v).2
      (createCharacter st parent v).1).type = AstType.Character := by
  unfold createCharacter
  refine ⟨(stepInv_alloc h rfl rfl rfl).1, ?_⟩
  rw [(stepInv_alloc h rfl rfl rfl).2]
  rfl

theorem createAssertionFromToken_inv {st : PState} (h : SInv st)
    {parent : Nat} {tok : Token} {p : Nat × PState}
    (hres : createAssertionFromToken st parent tok = .ok p) :
    stepInv st p ∧ (getN p.2 p.1).type = AstType.Assertion ∧
    (tok.type = TokTy.GroupOpen → (getN p.2 p.1).alternatives ≠ []) := by
  simp only [createAssertionFromToken] at hres
  by_cases hty : tok.type = .GroupOpen
  · rw [if_pos hty] at hres
    cases hres
    refine ⟨(stepInv_wia h rfl rfl rfl).1, ?_, fun hGO => ?_⟩
    · rw [(stepInv_wia h rfl rfl rfl).2]
      rfl
    · rw [(stepInv_wia h rfl rfl rfl).2]
      simp
  · rw [if_neg hty] at hres
    cases hmap : assertionKindMap tok.kind with
    | none => rw [hmap] at hres; cases hres
    | some k =>
      rw [hmap] at hres
      simp only [] at hres
      split at hres
      all_goals cases hres
      all_goals refine ⟨(stepInv_alloc h rfl rfl rfl).1, ?_, fun hGO => absurd hGO hty⟩
      all_goals rw [(stepInv_alloc h rfl rfl rfl).2]
      all_goals rfl

theorem fromNum_inv {st : PState} (h : SInv st) {parent : Nat}
    {num : Option Nat} {rel : Bool} {p : Nat × PState}
    (hres : fromNum st parent num rel = .ok p) :
    stepInv st p ∧ (getN p.2 p.1).type = AstType.Backreference := by
  simp only [fromNum, createBackreference] at hres
  by_cases hgt : jsGtNat num st.capturingGroups.length = true
  · rw [if_pos hgt] at hres; cases hres
  · rw [if_neg hgt] at hres
    cases hres
    refine ⟨(stepInv_alloc
      (show SInv {st with hasNumberedGroupRef := true} from h) rfl rfl rfl).1, ?_⟩
    rw [(stepInv_alloc
      (show SInv {st with hasNumberedGroupRef := true} from h) rfl rfl rfl).2]
    rfl

theorem parseBackreference_inv {st : PState} (h : SInv st)
    {parent : Nat} {tok : Token} {p : Nat × PState}
    (hres : parseBackreference st parent tok = .ok p) :
    stepInv st p ∧ (getN p.2 p.1).type = AstType.Backreference := by
  simp only [parseBackreference, createBackreference] at hres
  by_cases hk : hasKWrapper tok.raw = true
  · rw [if_pos hk] at hres
    cases hexec : execNumberedRef false (innerSlice3 tok.raw) with
    | some sn => rw [hexec] at hres; exact fromNum_inv h hres
    | none =>
      rw [hexec] at hres
      simp only [] at hres
      by_cases hsc : hasSignChar (innerSlice3 tok.raw) = true
      · rw [if_pos hsc] at hres; cases hres
      · rw [if_neg hsc] at hres
        by_cases hlk : (st.namedGroups.lookup
            (String.mk (innerSlice3 tok.raw))).isSome = true
        · rw [if_pos hlk] at hres
          cases hres
          refine ⟨(stepInv_alloc h rfl rfl rfl).1, ?_⟩
          rw [(stepInv_alloc h rfl rfl rfl).2]
          rfl
        · rw [if_neg hlk] at hres
          cases hres
  · rw [if_neg hk] at hres
    exact fromNum_inv h hres

theorem createCharacterClassRange_inv {st : PState} (h : SInv st)
    {parent minI maxI : Nat} {p : Nat × PState}
    (hres : createCharacterClassRange st parent minI maxI = .ok p) :
    stepInv st p ∧ (getN p.2 p.1).type = AstType.CharacterClassRange ∧
    p.1 = st.nodes.length ∧ p.2.nodes.length = st.nodes.length + 1 := by
  simp only [createCharacterClassRange] at hres
  split at hres
  · cases hres
  · cases hres
    refine ⟨(stepInv_alloc h rfl rfl rfl).1, ?_, fst_allocN _ _, length_allocN _ _⟩
    rw [(stepInv_alloc h rfl rfl rfl).2]
    rfl

theorem createCharacterSetFromToken_inv {st : PState} (h : SInv st)
    {parent : Nat} {tok : Token} {p : Nat × PState}
    (hres : createCharacterSetFromToken st parent tok = .ok p) :
    stepInv st p ∧ (getN p.2 p.1).type = AstType.CharacterSet := by
  simp only [createCharacterSetFromToken] at hres
  repeat' split at hres
  all_goals cases hres
  all_goals refine ⟨(stepInv_alloc h rfl rfl rfl).1, ?_⟩
  all_goals rw [(stepInv_alloc h rfl rfl rfl).2]
  all_goals rfl

theorem createDirectiveFromToken_inv {st : PState} (h : SInv st)
    {parent : Nat} {tok : Token} {p : Nat × PState}
    (hres : createDirectiveFromToken st parent tok = .ok p) :
    stepInv st p ∧ (getN p.2 p.1).type = AstType.Directive := by
  simp only [createDirectiveFromToken] at hres
  repeat' split at hres
  all_goals cases hres
  all_goals refine ⟨(stepInv_alloc h rfl rfl rfl).1, ?_⟩
  all_goals rw [(stepInv_alloc h rfl rfl rfl).2]
  all_goals rfl

theorem createVariableLengthCharacterSet_inv {st : PState} (h : SInv st)
    {parent : Nat} {kind : String} {p : Nat × PState}
    (hres : createVariableLengthCharacterSet st parent kind = .ok p) :
    stepInv st p ∧
    (getN p.2 p.1).type = AstType.VariableLengthCharacterSet := by
  simp only [createVariableLengthCharacterSet] at hres
  cases hmap : vlcsKindMap kind with
  | none => rw [hmap] at hres; cases hres
  | some k =>
    simp only [hmap] at hres
    cases hres
    refine ⟨(stepInv_alloc h rfl rfl rfl).1, ?_⟩
    rw [(stepInv_alloc h rfl rfl rfl).2]
    rfl

theorem getN_withSubroutines (st : PState) (l : List Nat) (i : Nat) :
    getN {st with subroutines := l} i = getN st i := rfl

theorem parseSubroutine_inv {st : PState} (h : SInv st)
    (parent : Nat) (tok : Token) :
    stepInv st (parseSubroutine st parent tok) ∧
    (getN (parseSubroutine st parent tok).2
      (parseSubroutine st parent tok).1).type = AstType.Subroutine := by
  cases hexec : execNumberedRef true (innerSlice3 tok.raw) with
  | some sn =>
    simp only [parseSubroutine, hexec, createSubroutine]
    refine ⟨(stepInv_alloc
      (show SInv {st with hasNumberedGroupRef := true} from h) rfl rfl rfl).1, ?_⟩
    rw [getN_withSubroutines, (stepInv_alloc
      (show SInv {st with hasNumberedGroupRef := true} from h) rfl rfl rfl).2]
    rfl
  | none =>
    simp only [parseSubroutine, hexec, createSubroutine]
    refine ⟨(stepInv_alloc h rfl rfl rfl).1, ?_⟩
    rw [getN_withSubroutines, (stepInv_alloc h rfl rfl rfl).2]
    rfl

theorem parseQuantifier_inv {st : PState} (h : SInv st)
    {parent : Nat} {tok : Token} {p : Nat × PState}
    (hres : parseQuantifier st parent tok = .ok p) :
    stepInv st p ∧ (getN p.2 p.1).type = AstType.Quantifier := by
  cases hlast : (getN st parent).elements.getLast? with
  | none => simp only [parseQuantifier, hlast] at hres; cases hres
  | some lastEl =>
    simp only [parseQuantifier, hlast] at hres
    cases hcq : createQuantifier st parent lastEl tok.qmin tok.qmax tok.greedy
        tok.possessive with
    | error e => simp only [hcq] at hres; cases hres
    | ok qs =>
      simp only [hcq] at hres
      cases hres
      have hqs : ∃ n : Node, n.type = AstType.Quantifier ∧ n.elements = [] ∧
          n.alternatives = [] ∧ n.classes = [] ∧ qs = allocN st n := by
        simp only [createQuantifier] at hcq
        split at hcq
        · cases hcq
        · split at hcq
          · cases hcq
          · cases hcq
            exact ⟨_, rfl, rfl, rfl, rfl, rfl⟩
      obtain ⟨qn, hqt, hq1, hq2, hq3, hqeq⟩ := hqs
      subst hqeq
      have hparlt : parent < st.nodes.length := by
        by_contra hge
        rw [getN_ge st (Nat.le_of_not_lt hge)] at hlast
        rw [show (default : Node).elements = [] from rfl] at hlast
        simp at hlast
      have hlastlt : lastEl < st.nodes.length :=
        (h.1 parent hparlt).1 lastEl (listGetLast?_mem hlast)
      obtain ⟨hS1, hG1⟩ := stepInv_alloc h hq1 hq2 hq3
      set st2 := setN (allocN st qn).2 lastEl
        {getN (allocN st qn).2 lastEl with parent := some (allocN st qn).1} with hst2
      set st3 := setN st2 parent
        {getN st2 parent with
          elements := (getN st2 parent).elements.dropLast} with hst3
      have hS2 : SInv st2 := by
        rw [hst2]
        exact SInv_setN_frozen hS1.1 rfl rfl rfl rfl
      have hl2 : st2.nodes.length = st.nodes.length + 1 := by
        rw [hst2, length_setN, length_allocN]
      have hS3 : SInv st3 := by
        rw [hst3]
        exact SInv_setN_elems hS2 rfl rfl rfl
          (fun j hj =>
            (containersBounded_getN hS2.1 parent).1 j (List.dropLast_subset _ hj))
          (noInter_dropLast (hS2.2.1 parent))
      have hl3 : st3.nodes.length = st2.nodes.length := by
        rw [hst3, length_setN]
      have hT2 : ∀ k, (getN st2 k).type = (getN (allocN st qn).2 k).type := by
        rw [hst2]
        exact types_setN_same (by rw [length_allocN]; omega) rfl
      have hT3 : ∀ k, (getN st3 k).type = (getN st2 k).type := by
        rw [hst3]
        exact types_setN_same (by omega) rfl
      have hne3 : (allocN st qn).1 ≠ parent := by rw [fst_allocN]; omega
      have hne2 : (allocN st qn).1 ≠ lastEl := by rw [fst_allocN]; omega
      have hgr : getN st3 (allocN st qn).1 = qn := by
        rw [hst3, getN_setN_ne _ _ _ hne3, hst2, getN_setN_ne _ _ _ hne2, hG1]
      have hp2 : ∀ k, noInterElems (allocN st qn).2 k → noInterElems st2 k := by
        rw [hst2]
        exact noInterPres_setN_frozen (by rw [length_allocN]; omega) rfl rfl
      have hp3 : ∀ k, noInterElems st2 k → noInterElems st3 k := by
        rw [hst3]
        exact noInterPres_setN_elems (by omega) rfl
          (noInter_dropLast (hS2.2.1 parent))
      have hne2' : ∀ k, k < (allocN st qn).2.nodes.length →
          (getN (allocN st qn).2 k).classes ≠ [] → (getN st2 k).classes ≠ [] := by
        rw [hst2]
        exact classesNE_setN (by rw [length_allocN]; omega) (fun hx => hx)
      have hne3' : ∀ k, k < st2.nodes.length →
          (getN st2 k).classes ≠ [] → (getN st3 k).classes ≠ [] := by
        rw [hst3]
        exact classesNE_setN (by omega) (fun hx => hx)
      have hna2' : ∀ k, k < (allocN st qn).2.nodes.length →
          (getN (allocN st qn).2 k).alternatives ≠ [] →
            (getN st2 k).alternatives ≠ [] := by
        rw [hst2]
        exact altsNE_setN (by rw [length_allocN]; omega) (fun hx => hx)
      have hna3' : ∀ k, k < st2.nodes.length →
          (getN st2 k).alternatives ≠ [] → (getN st3 k).alternatives ≠ [] := by
        rw [hst3]
        exact altsNE_setN (by omega) (fun hx => hx)
      refine ⟨⟨hS3, ?_, ?_, ?_, ?_, ?_, ?_, ?_⟩, ?_⟩
      · show (allocN st qn).1 < st3.nodes.length
        rw [fst_allocN]; omega
      · show st.nodes.length ≤ st3.nodes.length
        omega
      · show st3.optimize = st.optimize
        rw [hst3, hst2]
        rfl
      · intro k hk
        show (getN st3 k).type = (getN st k).type
        rw [hT3 k, hT2 k, getN_allocN_lt st qn hk]
      · intro k hk hn
        show noInterElems st3 k
        exact hp3 k (hp2 k (noInterPres_append h.1 (nodes_allocN st qn) k hk hn))
      · intro k hk hne
        show (getN st3 k).classes ≠ []
        refine hne3' k (by omega) (hne2' k (by rw [length_allocN]; omega) ?_)
        rw [getN_allocN_lt st qn hk]
        exact hne
      · intro k hk hne
        show (getN st3 k).alternatives ≠ []
        refine hna3' k (by omega) (hna2' k (by rw [length_allocN]; omega) ?_)
        rw [getN_allocN_lt st qn hk]
        exact hne
      · show (getN st3 (allocN st qn).1).type = AstType.Quantifier
        rw [hgr]
        exact hqt

theorem createGroup_inv {st : PState} (h : SInv st) (parent : Nat)
    (atomic : Bool) (flags : Option FlagMods) :
    stepInv st (createGroup st parent atomic flags) ∧
    (getN (createGroup st parent atomic flags).2
      (createGroup st parent atomic flags).1).type = AstType.Group ∧
    (getN (createGroup st parent atomic flags).2
      (createGroup st parent atomic flags).1).alternatives ≠ [] := by
  cases atomic with
  | true =>
    have e : getN (createGroup st parent true flags).2
        (createGroup st parent true flags).1 =
        {({getNodeBase (some parent) .Group with atomic := true} : Node) with
          alternatives := [st.nodes.length + 1]} :=
      (stepInv_wia h rfl rfl rfl).2
    refine ⟨(stepInv_wia h rfl rfl rfl).1, ?_, ?_⟩
    · rw [e]
      rfl
    · rw [e]
      simp
  | false =>
    cases flags with
    | none =>
      have e : getN (createGroup st parent false none).2
          (createGroup st parent false none).1 =
          {(getNodeBase (some parent) .Group : Node) with
            alternatives := [st.nodes.length + 1]} :=
        (stepInv_wia h rfl rfl rfl).2
      refine ⟨(stepInv_wia h rfl rfl rfl).1, ?_, ?_⟩
      · rw [e]
        rfl
      · rw [e]
        simp
    | some f =>
      have e : getN (createGroup st parent false (some f)).2
          (createGroup st parent false (some f)).1 =
          {({getNodeBase (some parent) .Group with flags := some f} : Node) with
            alternatives := [st.nodes.length + 1]} :=
        (stepInv_wia h rfl rfl rfl).2
      refine ⟨(stepInv_wia h rfl rfl rfl).1, ?_, ?_⟩
      · rw [e]
        rfl
      · rw [e]
        simp

theorem createCapturingGroup_inv {st : PState} (h : SInv st)
    {parent : Nat} {number : Nat} {name : Option String} {p : Nat × PState}
    (hres : createCapturingGroup st parent number name = .ok p) :
    stepInv st p ∧ (getN p.2 p.1).type = AstType.CapturingGroup ∧
    (getN p.2 p.1).alternatives ≠ [] := by
  cases name with
  | some nm =>
    simp only [createCapturingGroup] at hres
    by_cases hval : isValidJsGroupName nm = true
    · rw [if_pos hval] at hres
      cases hres
      refine ⟨(stepInv_wia h rfl rfl rfl).1, ?_, ?_⟩
      · rw [(stepInv_wia h rfl rfl rfl).2]
        rfl
      · rw [(stepInv_wia h rfl rfl rfl).2]
        simp
    · rw [if_neg hval] at hres
      cases hres
  | none =>
    simp only [createCapturingGroup] at hres
    cases hres
    refine ⟨(stepInv_wia h rfl rfl rfl).1, ?_, ?_⟩
    · rw [(stepInv_wia h rfl rfl rfl).2]
      rfl
    · rw [(stepInv_wia h rfl rfl rfl).2]
      simp

theorem createByGroupKind_inv {st : PState} (h : SInv st)
    {parent : Nat} {tok : Token} {p : Nat × PState}
    (htokty : tok.type = TokTy.GroupOpen)
    (hres : createByGroupKind st parent tok = .ok p) :
    stepInv st p ∧ (getN p.2 p.1).type ≠ AstType.CharacterClassIntersection ∧
    (getN p.2 p.1).type ≠ AstType.Alternative ∧
    (getN p.2 p.1).alternatives ≠ [] := by
  unfold createByGroupKind at hres
  split at hres
  · cases hres
    obtain ⟨h1, h2, h3⟩ := createGroup_inv h parent true none
    exact ⟨h1, by rw [h2]; decide, by rw [h2]; decide, h3⟩
  · split at hres
    · obtain ⟨h1, h2, h3⟩ := createCapturingGroup_inv h hres
      exact ⟨h1, by rw [h2]; decide, by rw [h2]; decide, h3⟩
    · split at hres
      · cases hres
        obtain ⟨h1, h2, h3⟩ := createGroup_inv h parent false tok.gflags
        exact ⟨h1, by rw [h2]; decide, by rw [h2]; decide, h3⟩
      · split at hres
        · obtain ⟨h1, h2, h3⟩ := createAssertionFromToken_inv h hres
          exact ⟨h1, by rw [h2]; decide, by rw [h2]; decide, h3 htokty⟩
        · cases hres

theorem createCharacterClass_inv {st : PState} (h : SInv st)
    (parent : Nat) (negate : Bool) :
    stepInv st (createCharacterClass st parent negate) ∧
    (getN (createCharacterClass st parent negate).2
      (createCharacterClass st parent negate).1).type = AstType.CharacterClass ∧
    (getN (createCharacterClass st parent negate).2
      (createCharacterClass st parent negate).1).elements.headD 0
      = st.nodes.length + 1 ∧
    (getN (createCharacterClass st parent negate).2
      (st.nodes.length + 1)).classes ≠ [] := by
  obtain ⟨h1, h2⟩ := createCharacterClass_shape st parent negate
  have hlen : (createCharacterClass st parent negate).2.nodes.length
      = st.nodes.length + 3 := by rw [h2]; simp
  have gW : getN (createCharacterClass st parent negate).2 st.nodes.length =
      {getNodeBase (some parent) .CharacterClass with
        negate := negate, elements := [st.nodes.length + 1]} := by
    unfold getN
    rw [h2, listGetD_append_len]
    rfl
  have gI : getN (createCharacterClass st parent negate).2 (st.nodes.length + 1) =
      {getNodeBase (some st.nodes.length) .CharacterClassIntersection with
        classes := [st.nodes.length + 2]} := by
    unfold getN
    rw [h2, listGetD_append_right]
    rfl
  have gB : getN (createCharacterClass st parent negate).2 (st.nodes.length + 2) =
      {getNodeBase (some (st.nodes.length + 1)) .CharacterClass with
        negate := false, elements := []} := by
    unfold getN
    rw [h2]
    rw [show st.nodes.length + 2 = st.nodes.length + 2 from rfl,
      listGetD_append_right]
    rfl
  have hold : ∀ k, k < st.nodes.length →
      getN (createCharacterClass st parent negate).2 k = getN st k := by
    intro k hk
    unfold getN
    rw [h2, listGetD_append_lt2 _ hk]
  have hSI : SInv (createCharacterClass st parent negate).2 := by
    refine SInv_of_append h h2 ?_ ?_ ?_ ?_
    · intro m hm
      simp only [List.mem_cons, List.not_mem_nil, or_false] at hm
      rcases hm with hm | hm | hm <;> subst hm <;>
        refine ⟨?_, ?_, ?_⟩ <;>
        · intro j hj
          simp only [List.mem_singleton, List.length_cons, List.length_nil] at hj ⊢
          first
          | (subst hj; omega)
          | cases hj
    · intro m hm
      simp only [List.mem_cons, List.not_mem_nil, or_false] at hm
      rcases hm with hm | hm | hm <;> subst hm
      · left
        refine ⟨st.nodes.length + 1, rfl, ?_⟩
        rw [gI]
        rfl
      · right
        intro j hj
        exact absurd hj (List.not_mem_nil j)
      · right
        intro j hj
        exact absurd hj (List.not_mem_nil j)
    · intro m hm
      simp only [List.mem_cons, List.not_mem_nil, or_false] at hm
      rcases hm with hm | hm | hm <;> subst hm
      · intro j hj
        exact absurd hj (List.not_mem_nil j)
      · intro j hj
        simp only [List.mem_singleton] at hj
        subst hj
        refine ⟨by rw [gB]; rfl, ?_⟩
        intro e he
        rw [gB] at he
        exact absurd he (List.not_mem_nil e)
      · intro j hj
        exact absurd hj (List.not_mem_nil j)
    · intro m hm
      simp only [List.mem_cons, List.not_mem_nil, or_false] at hm
      rcases hm with hm | hm | hm <;> subst hm <;>
        · intro j hj
          exact absurd hj (List.not_mem_nil j)
  refine ⟨⟨hSI, ?_, ?_, rfl, ?_, ?_, ?_, ?_⟩, ?_, ?_, ?_⟩
  · rw [h1, hlen]; omega
  · rw [hlen]; omega
  · intro k hk
    rw [hold k hk]
  · exact noInterPres_append h.1 h2
  · exact classesNE_append h2
  · exact altsNE_append h2
  · rw [h1, gW]
    rfl
  · rw [h1, gW]
    rfl
  · rw [gI]
    simp

/-- Job preconditions of the C1 induction. -/
def Pre : Job → PState → Prop
  | .walk _, _ => True
  | .classBody ii, st => (getN st ii).classes ≠ []
  | .groupBody g, st => (getN st g).alternatives ≠ []
  | .mainLoop _ top, st =>
    (getN st top).type = AstType.Alternative ∧ noInterElems st top

theorem getN_withCurrent (st : PState) (c i : Nat) :
    getN {st with current := c} i = getN st i := rfl

theorem lt_of_classesNE {st : PState} {i : Nat}
    (h : (getN st i).classes ≠ []) : i < st.nodes.length := by
  by_contra hge
  rw [getN_ge st (Nat.le_of_not_lt hge)] at h
  exact h rfl

theorem lt_of_altsNE {st : PState} {i : Nat}
    (h : (getN st i).alternatives ≠ []) : i < st.nodes.length := by
  by_contra hge
  rw [getN_ge st (Nat.le_of_not_lt hge)] at h
  exact h rfl

theorem lt_of_typeAlt {st : PState} {i : Nat}
    (h : (getN st i).type = AstType.Alternative) : i < st.nodes.length := by
  by_contra hge
  rw [getN_ge st (Nat.le_of_not_lt hge)] at h
  exact absurd h (by decide)

theorem stepInv_concl {st st1 : PState} {ns : Nat × PState}
    (he : st1.nodes = st.nodes) (ho : st1.optimize = st.optimize)
    (hopt : st.optimize = false) (hstep : stepInv st1 ns) :
    SInv ns.2 ∧ st.nodes.length ≤ ns.2.nodes.length ∧ ns.2.optimize = false ∧
    (∀ k, k < st.nodes.length → (getN ns.2 k).type = (getN st k).type) ∧
    (∀ k, k < st.nodes.length → noInterElems st k → noInterElems ns.2 k) ∧
    (∀ k, k < st.nodes.length → (getN st k).classes ≠ [] →
      (getN ns.2 k).classes ≠ []) ∧
    (∀ k, k < st.nodes.length → (getN st k).alternatives ≠ [] →
      (getN ns.2 k).alternatives ≠ []) := by
  obtain ⟨h1, h2, h3, h4, h5, h6, h7, h8⟩ := hstep
  have hg : ∀ i, getN st1 i = getN st i := fun i => by unfold getN; rw [he]
  have hlen : st1.nodes.length = st.nodes.length := by rw [he]
  refine ⟨h1, by omega, by rw [h4, ho, hopt], ?_, ?_, ?_, ?_⟩
  · intro k hk
    rw [h5 k (by omega), hg k]
  · intro k hk hn
    refine h6 k (by omega) ?_
    intro j hj
    rw [hg k] at hj
    rw [hg j]
    exact hn j hj
  · intro k hk hne
    refine h7 k (by omega) ?_
    rw [hg k]
    exact hne
  · intro k hk hne
    refine h8 k (by omega) ?_
    rw [hg k]
    exact hne

theorem walkTriple {st1 : PState} {p : Nat × PState} {T : AstType}
    (hstep : stepInv st1 p) (hty : (getN p.2 p.1).type = T)
    (hT1 : T ≠ AstType.CharacterClassIntersection)
    (hT2 : T ≠ AstType.Alternative) :
    p.1 < p.2.nodes.length ∧
    (getN p.2 p.1).type ≠ AstType.CharacterClassIntersection ∧
    ((getN p.2 p.1).type = AstType.Alternative → noInterElems p.2 p.1) :=
  ⟨hstep.2.1, by rw [hty]; exact hT1,
   fun hA => absurd (hty.symm.trans hA) hT2⟩

/-- The C1 induction: with `optimize := false`, from an invariant state
under the job preconditions, every successful run preserves the
invariant, grows the arena, keeps `optimize` off, keeps old node types
and intersection-free `elements` (and nonempty `classes`/`alternatives`)
of old nodes, and a `walk` returns a bounded non-intersection node that,
when an `Alternative`, is intersection-free. -/
theorem run_inv : ∀ (fuel : Nat) (job : Job) (st : PState) (ns : Nat × PState),
    st.optimize = false → SInv st → Pre job st →
    run fuel job st = .ok ns →
    SInv ns.2 ∧ st.nodes.length ≤ ns.2.nodes.length ∧ ns.2.optimize = false ∧
    (∀ k, k < st.nodes.length → (getN ns.2 k).type = (getN st k).type) ∧
    (∀ k, k < st.nodes.length → noInterElems st k → noInterElems ns.2 k) ∧
    (∀ k, k < st.nodes.length → (getN st k).classes ≠ [] →
      (getN ns.2 k).classes ≠ []) ∧
    (∀ k, k < st.nodes.length → (getN st k).alternatives ≠ [] →
      (getN ns.2 k).alternatives ≠ []) ∧
    (∀ parent, job = Job.walk parent →
      ns.1 < ns.2.nodes.length ∧
      (getN ns.2 ns.1).type ≠ AstType.CharacterClassIntersection ∧
      ((getN ns.2 ns.1).type = AstType.Alternative → noInterElems ns.2 ns.1)) := by
  intro fuel
  induction fuel with
  | zero =>
    intro job st ns hopt hb hpre hrun
    simp only [run] at hrun
    cases hrun
  | succ f ih =>
    intro job st ns hopt hb hpre hrun
    cases job with
    | walk parent =>
      simp only [run] at hrun
      cases htok : tokenAt st st.current with
      | none => simp only [htok] at hrun; cases hrun
      | some token =>
        simp only [htok] at hrun
        set st1 := {st with current := st.current + 1} with hst1
        have hb1 : SInv st1 := hb
        have hopt1 : st1.optimize = false := hopt
        have e0 : st1.nodes.length = st.nodes.length := by rw [hst1]
        cases htt : token.type with
        | Alternator =>
          simp only [htt] at hrun
          cases hrun
          obtain ⟨hstep, hty, helems⟩ :=
            createAlternative_inv hb1 (getN st1 parent).parent
          have hc := stepInv_concl (by rw [hst1]) (by rw [hst1]) hopt hstep
          exact ⟨hc.1, hc.2.1, hc.2.2.1, hc.2.2.2.1, hc.2.2.2.2.1,
            hc.2.2.2.2.2.1, hc.2.2.2.2.2.2,
            fun q hq => ⟨hstep.2.1, by rw [hty]; decide,
              fun hA j hj => by
                rw [helems] at hj
                exact absurd hj (List.not_mem_nil j)⟩⟩
        | Assertion =>
          simp only [htt] at hrun
          obtain ⟨hstep, hty, -⟩ := createAssertionFromToken_inv hb1 hrun
          have hc := stepInv_concl (by rw [hst1]) (by rw [hst1]) hopt hstep
          exact ⟨hc.1, hc.2.1, hc.2.2.1, hc.2.2.2.1, hc.2.2.2.2.1,
            hc.2.2.2.2.2.1, hc.2.2.2.2.2.2,
            fun q hq => walkTriple hstep hty (by decide) (by decide)⟩
        | Backreference =>
          simp only [htt] at hrun
          obtain ⟨hstep, hty⟩ := parseBackreference_inv hb1 hrun
          have hc := stepInv_concl (by rw [hst1]) (by rw [hst1]) hopt hstep
          exact ⟨hc.1, hc.2.1, hc.2.2.1, hc.2.2.2.1, hc.2.2.2.2.1,
            hc.2.2.2.2.2.1, hc.2.2.2.2.2.2,
            fun q hq => walkTriple hstep hty (by decide) (by decide)⟩
        | Character =>
          simp only [htt] at hrun
          cases hrun
          obtain ⟨hstep, hty⟩ := createCharacter_inv hb1 parent token.value
          have hc := stepInv_concl (by rw [hst1]) (by rw [hst1]) hopt hstep
          exact ⟨hc.1, hc.2.1, hc.2.2.1, hc.2.2.2.1, hc.2.2.2.2.1,
            hc.2.2.2.2.2.1, hc.2.2.2.2.2.2,
            fun q hq => walkTriple hstep hty (by decide) (by decide)⟩
        | CharacterClassHyphen =>
          simp only [htt] at hrun
          split at hrun
          case isTrue hg =>
            cases hlast : (getN st1 parent).elements.getLast? with
            | none => simp only [hlast] at hrun; cases hrun
            | some prevNode =>
              simp only [hlast] at hrun
              cases hw : run f (Job.walk parent) st1 with
              | error e => simp only [hw] at hrun; cases hrun
              | ok ws =>
                simp only [hw] at hrun
                obtain ⟨hSW, hmW, hoW, hTW, hPW, hCW, hAW, hwalkW⟩ :=
                  ih (Job.walk parent) st1 ws hopt1 hb1 trivial hw
                obtain ⟨hnlt, hnty, -⟩ := hwalkW parent rfl
                split at hrun
                case isTrue hcc =>
                  set st2 := setN ws.2 parent
                    {getN ws.2 parent with
                      elements := (getN ws.2 parent).elements.dropLast} with hst2
                  cases hcr : createCharacterClassRange st2 parent prevNode ws.1 with
                  | error e => simp only [hcr] at hrun; cases hrun
                  | ok rs =>
                    simp only [hcr] at hrun
                    cases hrun
                    have hparlt1 : parent < st1.nodes.length := by
                      by_contra hge
                      rw [getN_ge st1 (Nat.le_of_not_lt hge)] at hlast
                      rw [show (default : Node).elements = [] from rfl] at hlast
                      simp at hlast
                    have hparltW : parent < ws.2.nodes.length :=
                      Nat.lt_of_lt_of_le hparlt1 hmW
                    have hl2 : st2.nodes.length = ws.2.nodes.length := by
                      rw [hst2, length_setN]
                    have hS2 : SInv st2 := by
                      rw [hst2]
                      exact SInv_setN_elems hSW rfl rfl rfl
                        (fun j hj => (containersBounded_getN hSW.1 parent).1 j
                          (List.dropLast_subset _ hj))
                        (noInter_dropLast (hSW.2.1 parent))
                    have hp2 : ∀ k, noInterElems ws.2 k → noInterElems st2 k := by
                      rw [hst2]
                      exact noInterPres_setN_elems hparltW rfl
                        (noInter_dropLast (hSW.2.1 parent))
                    have hT2 : ∀ k, (getN st2 k).type = (getN ws.2 k).type := by
                      rw [hst2]
                      exact types_setN_same hparltW rfl
                    have hC2 : ∀ k, k < ws.2.nodes.length →
                        (getN ws.2 k).classes ≠ [] → (getN st2 k).classes ≠ [] := by
                      rw [hst2]
                      exact classesNE_setN hparltW (fun hx => hx)
                    have hA2 : ∀ k, k < ws.2.nodes.length →
                        (getN ws.2 k).alternatives ≠ [] →
                          (getN st2 k).alternatives ≠ [] := by
                      rw [hst2]
                      exact altsNE_setN hparltW (fun hx => hx)
                    obtain ⟨hstepR, htyR, hfstR, hlenR⟩ :=
                      createCharacterClassRange_inv hS2 hcr
                    have hprevlt1 : prevNode < st1.nodes.length :=
                      (hb1.1 parent hparlt1).1 prevNode (listGetLast?_mem hlast)
                    have hprevltR : prevNode < rs.2.nodes.length := by omega
                    have hwsltR : ws.1 < rs.2.nodes.length := by omega
                    set st4 := setN rs.2 prevNode
                      {getN rs.2 prevNode with parent := some rs.1} with hst4
                    set st5 := setN st4 ws.1
                      {getN st4 ws.1 with parent := some rs.1} with hst5
                    have hS4 : SInv st4 := by
                      rw [hst4]
                      exact SInv_setN_frozen hstepR.1 rfl rfl rfl rfl
                    have hl4 : st4.nodes.length = rs.2.nodes.length := by
                      rw [hst4, length_setN]
                    have hT4 : ∀ k, (getN st4 k).type = (getN rs.2 k).type := by
                      rw [hst4]
                      exact types_setN_same hprevltR rfl
                    have hp4 : ∀ k, noInterElems rs.2 k → noInterElems st4 k := by
                      rw [hst4]
                      exact noInterPres_setN_frozen hprevltR rfl rfl
                    have hC4 : ∀ k, k < rs.2.nodes.length →
                        (getN rs.2 k).classes ≠ [] → (getN st4 k).classes ≠ [] := by
                      rw [hst4]
                      exact classesNE_setN hprevltR (fun hx => hx)
                    have hA4 : ∀ k, k < rs.2.nodes.length →
                        (getN rs.2 k).alternatives ≠ [] →
                          (getN st4 k).alternatives ≠ [] := by
                      rw [hst4]
                      exact altsNE_setN hprevltR (fun hx => hx)
                    have hwslt4 : ws.1 < st4.nodes.length := by omega
                    have hS5 : SInv st5 := by
                      rw [hst5]
                      exact SInv_setN_frozen hS4 rfl rfl rfl rfl
                    have hl5 : st5.nodes.length = st4.nodes.length := by
                      rw [hst5, length_setN]
                    have hT5 : ∀ k, (getN st5 k).type = (getN st4 k).type := by
                      rw [hst5]
                      exact types_setN_same hwslt4 rfl
                    have hp5 : ∀ k, noInterElems st4 k → noInterElems st5 k := by
                      rw [hst5]
                      exact noInterPres_setN_frozen hwslt4 rfl rfl
                    have hC5 : ∀ k, k < st4.nodes.length →
                        (getN st4 k).classes ≠ [] → (getN st5 k).classes ≠ [] := by
                      rw [hst5]
                      exact classesNE_setN hwslt4 (fun hx => hx)
                    have hA5 : ∀ k, k < st4.nodes.length →
                        (getN st4 k).alternatives ≠ [] →
                          (getN st5 k).alternatives ≠ [] := by
                      rw [hst5]
                      exact altsNE_setN hwslt4 (fun hx => hx)
                    refine ⟨hS5, ?_, ?_, ?_, ?_, ?_, ?_, fun q hq => ⟨?_, ?_, ?_⟩⟩
                    · show st.nodes.length ≤ st5.nodes.length
                      omega
                    · show st5.optimize = false
                      exact hstepR.2.2.2.1.trans hoW
                    · intro k hk
                      have hk1 : k < st1.nodes.length := by omega
                      have hk2 : k < st2.nodes.length := by omega
                      rw [hT5 k, hT4 k, hstepR.2.2.2.2.1 k hk2, hT2 k,
                        hTW k hk1]
                      rfl
                    · intro k hk hn
                      have hn1 : noInterElems st1 k := hn
                      exact hp5 k (hp4 k (hstepR.2.2.2.2.2.1 k (by omega)
                        (hp2 k (hPW k (by omega) hn1))))
                    · intro k hk hne
                      have hne1 : (getN st1 k).classes ≠ [] := hne
                      refine hC5 k (by omega) (hC4 k (by omega)
                        (hstepR.2.2.2.2.2.2.1 k (by omega)
                          (hC2 k (by omega) (hCW k (by omega) hne1))))
                    · intro k hk hne
                      have hne1 : (getN st1 k).alternatives ≠ [] := hne
                      refine hA5 k (by omega) (hA4 k (by omega)
                        (hstepR.2.2.2.2.2.2.2 k (by omega)
                          (hA2 k (by omega) (hAW k (by omega) hne1))))
                    · show rs.1 < st5.nodes.length
                      omega
                    · have hty5 : (getN st5 rs.1).type
                          = AstType.CharacterClassRange := by
                        rw [hT5 rs.1, hT4 rs.1, htyR]
                      rw [hty5]
                      decide
                    · intro hA
                      rw [hT5 rs.1, hT4 rs.1, htyR] at hA
                      exact absurd hA (by decide)
                case isFalse hcc => cases hrun
          case isFalse hg =>
            cases hrun
            obtain ⟨hstep, hty⟩ := createCharacter_inv hb1 parent 45
            have hc := stepInv_concl (by rw [hst1]) (by rw [hst1]) hopt hstep
            exact ⟨hc.1, hc.2.1, hc.2.2.1, hc.2.2.2.1, hc.2.2.2.2.1,
              hc.2.2.2.2.2.1, hc.2.2.2.2.2.2,
              fun q hq => walkTriple hstep hty (by decide) (by decide)⟩
        | CharacterClassOpen =>
          simp only [htt] at hrun
          set cs := createCharacterClass st1 parent token.negate with hcs
          set ii := (getN cs.2 cs.1).elements.headD 0 with hii
          have hCC : stepInv st1 cs ∧
              (getN cs.2 cs.1).type = AstType.CharacterClass ∧
              (getN cs.2 cs.1).elements.headD 0 = st1.nodes.length + 1 ∧
              (getN cs.2 (st1.nodes.length + 1)).classes ≠ [] := by
            rw [hcs]
            exact createCharacterClass_inv hb1 parent token.negate
          obtain ⟨hstepC, htyC, hheadC, hclsC⟩ := hCC
          have hiiEq : ii = st1.nodes.length + 1 := by rw [hii]; exact hheadC
          cases hcb : run f (Job.classBody ii) cs.2 with
          | error e => simp only [hcb] at hrun; cases hrun
          | ok bs =>
            simp only [hcb] at hrun
            obtain ⟨hSB, hmB, hoB, hTB, hPB, hCB, hAB, -⟩ :=
              ih (Job.classBody ii) cs.2 bs (hstepC.2.2.2.1.trans hopt1)
                hstepC.1
                (show (getN cs.2 ii).classes ≠ [] by rw [hiiEq]; exact hclsC)
                hcb
            have hno : ¬ (bs.2.optimize = true) := by simp [hoB]
            rw [if_neg hno] at hrun
            split at hrun
            next hcl =>
              cases hrun
              have hccne : (getN bs.2 ii).classes ≠ [] := by
                intro h0
                rw [h0] at hcl
                simp at hcl
              have hccmem : (getN bs.2 ii).classes.headD 0
                  ∈ (getN bs.2 ii).classes := headD_mem_nat hccne
              have hcclt : (getN bs.2 ii).classes.headD 0 < bs.2.nodes.length :=
                (containersBounded_getN hSB.1 ii).2.2 _ hccmem
              obtain ⟨hccty, hccni⟩ := hSB.2.2.1 ii _ hccmem
              set st4 := setN bs.2 ((getN bs.2 ii).classes.headD 0)
                {getN bs.2 ((getN bs.2 ii).classes.headD 0) with
                  parent := some parent
                  negate := xor (getN bs.2 cs.1).negate
                    (getN bs.2 ((getN bs.2 ii).classes.headD 0)).negate} with hst4
              have hS4 : SInv st4 := by
                rw [hst4]
                exact SInv_setN_frozen hSB rfl rfl rfl rfl
              have hl4 : st4.nodes.length = bs.2.nodes.length := by
                rw [hst4, length_setN]
              have hT4 : ∀ k, (getN st4 k).type = (getN bs.2 k).type := by
                rw [hst4]
                exact types_setN_same hcclt rfl
              have hp4 : ∀ k, noInterElems bs.2 k → noInterElems st4 k := by
                rw [hst4]
                exact noInterPres_setN_frozen hcclt rfl rfl
              have hC4 : ∀ k, k < bs.2.nodes.length →
                  (getN bs.2 k).classes ≠ [] → (getN st4 k).classes ≠ [] := by
                rw [hst4]
                exact classesNE_setN hcclt (fun hx => hx)
              have hA4 : ∀ k, k < bs.2.nodes.length →
                  (getN bs.2 k).alternatives ≠ [] →
                    (getN st4 k).alternatives ≠ [] := by
                rw [hst4]
                exact altsNE_setN hcclt (fun hx => hx)
              have hlc : st1.nodes.length ≤ cs.2.nodes.length := hstepC.2.2.1
              refine ⟨SInv_withCurrent hS4 _, ?_, ?_, ?_, ?_, ?_, ?_,
                fun q hq => ⟨?_, ?_, ?_⟩⟩
              · simp only [nodes_withCurrent]
                omega
              · exact hoB
              · intro k hk
                rw [getN_withCurrent, hT4 k, hTB k (by omega),
                  hstepC.2.2.2.2.1 k (by omega)]
                rfl
              · intro k hk hn
                have hn1 : noInterElems st1 k := hn
                exact hp4 k (hPB k (by omega)
                  (hstepC.2.2.2.2.2.1 k (by omega) hn1))
              · intro k hk hne
                have hne1 : (getN st1 k).classes ≠ [] := hne
                exact hC4 k (by omega) (hCB k (by omega)
                  (hstepC.2.2.2.2.2.2.1 k (by omega) hne1))
              · intro k hk hne
                have hne1 : (getN st1 k).alternatives ≠ [] := hne
                exact hA4 k (by omega) (hAB k (by omega)
                  (hstepC.2.2.2.2.2.2.2 k (by omega) hne1))
              · simp only [nodes_withCurrent]
                omega
              · rw [getN_withCurrent, hT4 _, hccty]
                decide
              · intro hA
                rw [getN_withCurrent, hT4 _, hccty] at hA
                exact absurd hA (by decide)
            next hcl =>
              cases hrun
              have hclt : cs.1 < bs.2.nodes.length :=
                Nat.lt_of_lt_of_le hstepC.2.1 hmB
              have htyB : (getN bs.2 cs.1).type = AstType.CharacterClass := by
                rw [hTB cs.1 hstepC.2.1]
                exact htyC
              have hlc : st1.nodes.length ≤ cs.2.nodes.length := hstepC.2.2.1
              refine ⟨SInv_withCurrent hSB _, ?_, ?_, ?_, ?_, ?_, ?_,
                fun q hq => ⟨?_, ?_, ?_⟩⟩
              · simp only [nodes_withCurrent]
                omega
              · exact hoB
              · intro k hk
                rw [getN_withCurrent, hTB k (by omega),
                  hstepC.2.2.2.2.1 k (by omega)]
                rfl
              · intro k hk hn
                have hn1 : noInterElems st1 k := hn
                exact hPB k (by omega) (hstepC.2.2.2.2.2.1 k (by omega) hn1)
              · intro k hk hne
                have hne1 : (getN st1 k).classes ≠ [] := hne
                exact hCB k (by omega) (hstepC.2.2.2.2.2.2.1 k (by omega) hne1)
              · intro k hk hne
                have hne1 : (getN st1 k).alternatives ≠ [] := hne
                exact hAB k (by omega) (hstepC.2.2.2.2.2.2.2 k (by omega) hne1)
              · simp only [nodes_withCurrent]
                omega
              · rw [getN_withCurrent, htyB]
                decide
              · intro hA
                rw [getN_withCurrent, htyB] at hA
                exact absurd hA (by decide)
        | CharacterSet =>
          simp only [htt] at hrun
          obtain ⟨hstep, hty⟩ := createCharacterSetFromToken_inv hb1 hrun
          have hc := stepInv_concl (by rw [hst1]) (by rw [hst1]) hopt hstep
          exact ⟨hc.1, hc.2.1, hc.2.2.1, hc.2.2.2.1, hc.2.2.2.2.1,
            hc.2.2.2.2.2.1, hc.2.2.2.2.2.2,
            fun q hq => walkTriple hstep hty (by decide) (by decide)⟩
        | Directive =>
          simp only [htt] at hrun
          obtain ⟨hstep, hty⟩ := createDirectiveFromToken_inv hb1 hrun
          have hc := stepInv_concl (by rw [hst1]) (by rw [hst1]) hopt hstep
          exact ⟨hc.1, hc.2.1, hc.2.2.1, hc.2.2.2.1, hc.2.2.2.2.1,
            hc.2.2.2.2.2.1, hc.2.2.2.2.2.2,
            fun q hq => walkTriple hstep hty (by decide) (by decide)⟩
        | GroupOpen =>
          simp only [htt] at hrun
          cases hcg : createByGroupKind st1 parent token with
          | error e => simp only [hcg] at hrun; cases hrun
          | ok gs =>
            simp only [hcg] at hrun
            obtain ⟨hstepG, hne1, hne2, haltsne⟩ :=
              createByGroupKind_inv hb1 htt hcg
            have hgReg : ∀ i, getN (registerGroup gs.2 gs.1) i = getN gs.2 i :=
              fun i => by unfold getN; rw [nodes_registerGroup]
            have hS2 : SInv (registerGroup gs.2 gs.1) :=
              SInv_nodes_eq (nodes_registerGroup gs.2 gs.1).symm hstepG.1
            have hlReg : (registerGroup gs.2 gs.1).nodes.length
                = gs.2.nodes.length := by rw [nodes_registerGroup]
            cases hgb : run f (Job.groupBody gs.1) (registerGroup gs.2 gs.1) with
            | error e => simp only [hgb] at hrun; cases hrun
            | ok bs =>
              simp only [hgb] at hrun
              obtain ⟨hSB, hmB, hoB, hTB, hPB, hCB, hAB, -⟩ :=
                ih (Job.groupBody gs.1) (registerGroup gs.2 gs.1) bs
                  ((optimize_registerGroup gs.2 gs.1).trans
                    (hstepG.2.2.2.1.trans hopt1))
                  hS2
                  (show (getN (registerGroup gs.2 gs.1) gs.1).alternatives ≠ []
                    by rw [hgReg]; exact haltsne)
                  hgb
              have hno : ¬ (bs.2.optimize = true) := by simp [hoB]
              rw [if_neg hno] at hrun
              cases hrun
              have hglt2 : gs.1 < gs.2.nodes.length := hstepG.2.1
              have hgltB : gs.1 < bs.2.nodes.length := by omega
              have htyB : (getN bs.2 gs.1).type = (getN gs.2 gs.1).type := by
                rw [hTB gs.1 (by omega), hgReg gs.1]
              have hlg : st1.nodes.length ≤ gs.2.nodes.length := hstepG.2.2.1
              refine ⟨SInv_withCurrent hSB _, ?_, ?_, ?_, ?_, ?_, ?_,
                fun q hq => ⟨?_, ?_, ?_⟩⟩
              · simp only [nodes_withCurrent]
                omega
              · exact hoB
              · intro k hk
                rw [getN_withCurrent, hTB k (by omega), hgReg k,
                  hstepG.2.2.2.2.1 k (by omega)]
                rfl
              · intro k hk hn
                have hn1 : noInterElems st1 k := hn
                have hn2 : noInterElems (registerGroup gs.2 gs.1) k := by
                  intro j hj
                  rw [hgReg] at hj
                  rw [hgReg]
                  exact hstepG.2.2.2.2.2.1 k (by omega) hn1 j hj
                exact hPB k (by omega) hn2
              · intro k hk hne
                have hne1 : (getN st1 k).classes ≠ [] := hne
                refine hCB k (by omega) ?_
                rw [hgReg]
                exact hstepG.2.2.2.2.2.2.1 k (by omega) hne1
              · intro k hk hne
                have hne1 : (getN st1 k).alternatives ≠ [] := hne
                refine hAB k (by omega) ?_
                rw [hgReg]
                exact hstepG.2.2.2.2.2.2.2 k (by omega) hne1
              · simp only [nodes_withCurrent]
                exact hgltB
              · rw [getN_withCurrent, htyB]
                exact hne1
              · intro hA
                rw [getN_withCurrent, htyB] at hA
                exact absurd hA hne2
        | Quantifier =>
          simp only [htt] at hrun
          obtain ⟨hstep, hty⟩ := parseQuantifier_inv hb1 hrun
          have hc := stepInv_concl (by rw [hst1]) (by rw [hst1]) hopt hstep
          exact ⟨hc.1, hc.2.1, hc.2.2.1, hc.2.2.2.1, hc.2.2.2.2.1,
            hc.2.2.2.2.2.1, hc.2.2.2.2.2.2,
            fun q hq => walkTriple hstep hty (by decide) (by decide)⟩
        | Subroutine =>
          simp only [htt] at hrun
          cases hrun
          obtain ⟨hstep, hty⟩ := parseSubroutine_inv hb1 parent token
          have hc := stepInv_concl (by rw [hst1]) (by rw [hst1]) hopt hstep
          exact ⟨hc.1, hc.2.1, hc.2.2.1, hc.2.2.2.1, hc.2.2.2.2.1,
            hc.2.2.2.2.2.1, hc.2.2.2.2.2.2,
            fun q hq => walkTriple hstep hty (by decide) (by decide)⟩
        | VariableLengthCharacterSet =>
          simp only [htt] at hrun
          obtain ⟨hstep, hty⟩ := createVariableLengthCharacterSet_inv hb1 hrun
          have hc := stepInv_concl (by rw [hst1]) (by rw [hst1]) hopt hstep
          exact ⟨hc.1, hc.2.1, hc.2.2.1, hc.2.2.2.1, hc.2.2.2.2.1,
            hc.2.2.2.2.2.1, hc.2.2.2.2.2.2,
            fun q hq => walkTriple hstep hty (by decide) (by decide)⟩
        | CharacterClassClose => simp only [htt] at hrun; cases hrun
        | CharacterClassIntersector => simp only [htt] at hrun; cases hrun
        | GroupClose => simp only [htt] at hrun; cases hrun
    | classBody interIdx =>
      have hpre' : (getN st interIdx).classes ≠ [] := hpre
      have hiilt : interIdx < st.nodes.length := lt_of_classesNE hpre'
      simp only [run] at hrun
      cases htok : tokenAt st st.current with
      | none => simp only [htok] at hrun; cases hrun
      | some nt =>
        simp only [htok] at hrun
        by_cases hclose : nt.type = TokTy.CharacterClassClose
        · rw [if_pos hclose] at hrun
          cases hrun
          exact ⟨hb, Nat.le_refl _, hopt, fun k hk => rfl, fun k hk hn => hn,
            fun k hk hne => hne, fun k hk hne => hne,
            fun q hq => Job.noConfusion hq⟩
        · rw [if_neg hclose] at hrun
          by_cases hinter : nt.type = TokTy.CharacterClassIntersector
          · rw [if_pos hinter] at hrun
            have hbb : stepInv st (createCharacterClassBase st (some interIdx) false)
                ∧ getN (createCharacterClassBase st (some interIdx) false).2
                    (createCharacterClassBase st (some interIdx) false).1 =
                  {getNodeBase (some interIdx) .CharacterClass with
                    negate := false, elements := []} :=
              stepInv_alloc hb rfl rfl rfl
            obtain ⟨hstepB, hgB⟩ := hbb
            have hl1 : (createCharacterClassBase st (some interIdx) false).2.nodes.length
                = st.nodes.length + 1 := length_allocN _ _
            have hiilt1 : interIdx <
                (createCharacterClassBase st (some interIdx) false).2.nodes.length := by
              omega
            set st2 := setN (createCharacterClassBase st (some interIdx) false).2
              interIdx
              {getN (createCharacterClassBase st (some interIdx) false).2 interIdx with
                classes := (getN (createCharacterClassBase st
                  (some interIdx) false).2 interIdx).classes ++
                  [(createCharacterClassBase st (some interIdx) false).1]} with hst2
            have hS2 : SInv st2 := by
              rw [hst2]
              refine SInv_setN_classes hstepB.1 rfl rfl rfl rfl hstepB.2.1 ?_ ?_
              · rw [hgB]
                rfl
              · intro j hj
                rw [hgB] at hj
                exact absurd hj (List.not_mem_nil j)
            have hl2 : st2.nodes.length = st.nodes.length + 1 := by
              rw [hst2, length_setN, hl1]
            have hT2 : ∀ k, (getN st2 k).type =
                (getN (createCharacterClassBase st (some interIdx) false).2 k).type := by
              rw [hst2]
              exact types_setN_same hiilt1 rfl
            have hp2 : ∀ k,
                noInterElems (createCharacterClassBase st (some interIdx) false).2 k →
                noInterElems st2 k := by
              rw [hst2]
              exact noInterPres_setN_frozen hiilt1 rfl rfl
            have hC2 : ∀ k,
                k < (createCharacterClassBase st (some interIdx) false).2.nodes.length →
                (getN (createCharacterClassBase st (some interIdx) false).2 k).classes
                  ≠ [] → (getN st2 k).classes ≠ [] := by
              rw [hst2]
              exact classesNE_setN hiilt1 (fun hx => by simp)
            have hA2 : ∀ k,
                k < (createCharacterClassBase st (some interIdx) false).2.nodes.length →
                (getN (createCharacterClassBase st (some interIdx) false).2 k).alternatives
                  ≠ [] → (getN st2 k).alternatives ≠ [] := by
              rw [hst2]
              exact altsNE_setN hiilt1 (fun hx => hx)
            have hPre2 : (getN {st2 with current := st2.current + 1} interIdx).classes
                ≠ [] := by
              rw [getN_withCurrent, hst2, getN_setN_self _ _ hiilt1]
              simp
            have hgl : ∀ j, j < st.nodes.length →
                getN (createCharacterClassBase st (some interIdx) false).2 j
                  = getN st j :=
              fun j hj => getN_allocN_lt st _ hj
            obtain ⟨hSR, hmR, hoR, hTR, hPR, hCR, hAR, -⟩ :=
              ih (Job.classBody interIdx) {st2 with current := st2.current + 1} ns
                hopt (SInv_withCurrent hS2 _) hPre2 hrun
            refine ⟨hSR, ?_, hoR, ?_, ?_, ?_, ?_, fun q hq => Job.noConfusion hq⟩
            · have := hmR
              simp only [nodes_withCurrent] at this
              omega
            · intro k hk
              have hk2 : k < ({st2 with current := st2.current + 1}
                  : PState).nodes.length := by
                simp only [nodes_withCurrent]
                omega
              rw [hTR k hk2, getN_withCurrent, hT2 k, hgl k hk]
            · intro k hk hn
              refine hPR k (by simp only [nodes_withCurrent]; omega) ?_
              have hn1 : noInterElems
                  (createCharacterClassBase st (some interIdx) false).2 k := by
                intro j hj
                rw [hgl k hk] at hj
                have hjlt := (hb.1 k hk).1 j hj
                rw [hgl j hjlt]
                exact hn j hj
              exact hp2 k hn1
            · intro k hk hne
              refine hCR k (by simp only [nodes_withCurrent]; omega) ?_
              rw [getN_withCurrent]
              refine hC2 k (by omega) ?_
              rw [hgl k hk]
              exact hne
            · intro k hk hne
              refine hAR k (by simp only [nodes_withCurrent]; omega) ?_
              rw [getN_withCurrent]
              refine hA2 k (by omega) ?_
              rw [hgl k hk]
              exact hne
          · rw [if_neg hinter] at hrun
            cases hw : run f (Job.walk ((getN st interIdx).classes.getLastD 0)) st with
            | error e => simp only [hw] at hrun; cases hrun
            | ok es =>
              simp only [hw] at hrun
              obtain ⟨hSW, hmW, hoW, hTW, hPW, hCW, hAW, hwalkW⟩ :=
                ih (Job.walk ((getN st interIdx).classes.getLastD 0)) st es
                  hopt hb trivial hw
              obtain ⟨helt, hety, -⟩ := hwalkW _ rfl
              have hccmem : (getN st interIdx).classes.getLastD 0
                  ∈ (getN st interIdx).classes := getLastD_mem_nat hpre'
              obtain ⟨hccty, hccni⟩ := hb.2.2.1 interIdx _ hccmem
              have hcclt : (getN st interIdx).classes.getLastD 0 < st.nodes.length :=
                (hb.1 interIdx hiilt).2.2 _ hccmem
              have hccltE : (getN st interIdx).classes.getLastD 0
                  < es.2.nodes.length := by omega
              have hccniE := hPW _ hcclt hccni
              set st2 := setN es.2 ((getN st interIdx).classes.getLastD 0)
                {getN es.2 ((getN st interIdx).classes.getLastD 0) with
                  elements := (getN es.2
                    ((getN st interIdx).classes.getLastD 0)).elements ++ [es.1]}
                with hst2
              have hS2 : SInv st2 := by
                rw [hst2]
                refine SInv_setN_elems hSW rfl rfl rfl ?_ ?_
                · intro j hj
                  rcases List.mem_append.mp hj with hj | hj
                  · exact (containersBounded_getN hSW.1 _).1 j hj
                  · rw [List.mem_singleton] at hj
                    subst hj
                    exact helt
                · intro j hj
                  rcases List.mem_append.mp hj with hj | hj
                  · exact hccniE j hj
                  · rw [List.mem_singleton] at hj
                    subst hj
                    exact hety
              have hl2 : st2.nodes.length = es.2.nodes.length := by
                rw [hst2, length_setN]
              have hT2 : ∀ k, (getN st2 k).type = (getN es.2 k).type := by
                rw [hst2]
                exact types_setN_same hccltE rfl
              have hp2 : ∀ k, noInterElems es.2 k → noInterElems st2 k := by
                rw [hst2]
                refine noInterPres_setN_elems hccltE rfl ?_
                intro j hj
                rcases List.mem_append.mp hj with hj | hj
                · exact hccniE j hj
                · rw [List.mem_singleton] at hj
                  subst hj
                  exact hety
              have hC2 : ∀ k, k < es.2.nodes.length →
                  (getN es.2 k).classes ≠ [] → (getN st2 k).classes ≠ [] := by
                rw [hst2]
                exact classesNE_setN hccltE (fun hx => hx)
              have hA2 : ∀ k, k < es.2.nodes.length →
                  (getN es.2 k).alternatives ≠ [] →
                    (getN st2 k).alternatives ≠ [] := by
                rw [hst2]
                exact altsNE_setN hccltE (fun hx => hx)
              have hPre2 : (getN st2 interIdx).classes ≠ [] :=
                hC2 interIdx (by omega) (hCW interIdx hiilt hpre')
              obtain ⟨hSR, hmR, hoR, hTR, hPR, hCR, hAR, -⟩ :=
                ih (Job.classBody interIdx) st2 ns
                  (by rw [hst2]; exact hoW) hS2 hPre2 hrun
              refine ⟨hSR, by omega, hoR, ?_, ?_, ?_, ?_,
                fun q hq => Job.noConfusion hq⟩
              · intro k hk
                rw [hTR k (by omega), hT2 k, hTW k (by omega)]
              · intro k hk hn
                exact hPR k (by omega) (hp2 k (hPW k (by omega) hn))
              · intro k hk hne
                exact hCR k (by omega) (hC2 k (by omega) (hCW k (by omega) hne))
              · intro k hk hne
                exact hAR k (by omega) (hA2 k (by omega) (hAW k (by omega) hne))
    | groupBody nodeIdx =>
      have hpre' : (getN st nodeIdx).alternatives ≠ [] := hpre
      have hglt : nodeIdx < st.nodes.length := lt_of_altsNE hpre'
      simp only [run] at hrun
      cases htok : tokenAt st st.current with
      | none => simp only [htok] at hrun; cases hrun
      | some nt =>
        simp only [htok] at hrun
        by_cases hclose : nt.type = TokTy.GroupClose
        · rw [if_pos hclose] at hrun
          cases hrun
          exact ⟨hb, Nat.le_refl _, hopt, fun k hk => rfl, fun k hk hn => hn,
            fun k hk hne => hne, fun k hk hne => hne,
            fun q hq => Job.noConfusion hq⟩
        · rw [if_neg hclose] at hrun
          by_cases halt : nt.type = TokTy.Alternator
          · rw [if_pos halt] at hrun
            obtain ⟨hstepA, htyA, helA⟩ := createAlternative_inv hb (some nodeIdx)
            have hglt1 : nodeIdx <
                (createAlternative st (some nodeIdx)).2.nodes.length := by
              have := hstepA.2.2.1
              omega
            set st2 := setN (createAlternative st (some nodeIdx)).2 nodeIdx
              {getN (createAlternative st (some nodeIdx)).2 nodeIdx with
                alternatives := (getN (createAlternative st
                  (some nodeIdx)).2 nodeIdx).alternatives ++
                  [(createAlternative st (some nodeIdx)).1]} with hst2
            have hS2 : SInv st2 := by
              rw [hst2]
              refine SInv_setN_alts hstepA.1 rfl rfl rfl rfl hstepA.2.1 htyA ?_
              intro j hj
              rw [helA] at hj
              exact absurd hj (List.not_mem_nil j)
            have hl2 : st2.nodes.length =
                (createAlternative st (some nodeIdx)).2.nodes.length := by
              rw [hst2, length_setN]
            have hT2 : ∀ k, (getN st2 k).type =
                (getN (createAlternative st (some nodeIdx)).2 k).type := by
              rw [hst2]
              exact types_setN_same hglt1 rfl
            have hp2 : ∀ k,
                noInterElems (createAlternative st (some nodeIdx)).2 k →
                noInterElems st2 k := by
              rw [hst2]
              exact noInterPres_setN_frozen hglt1 rfl rfl
            have hC2 : ∀ k,
                k < (createAlternative st (some nodeIdx)).2.nodes.length →
                (getN (createAlternative st (some nodeIdx)).2 k).classes ≠ [] →
                (getN st2 k).classes ≠ [] := by
              rw [hst2]
              exact classesNE_setN hglt1 (fun hx => hx)
            have hA2 : ∀ k,
                k < (createAlternative st (some nodeIdx)).2.nodes.length →
                (getN (createAlternative st (some nodeIdx)).2 k).alternatives ≠ [] →
                (getN st2 k).alternatives ≠ [] := by
              rw [hst2]
              exact altsNE_setN hglt1 (fun hx => by simp)
            have hPre2 : (getN {st2 with current := st2.current + 1}
                nodeIdx).alternatives ≠ [] := by
              rw [getN_withCurrent, hst2, getN_setN_self _ _ hglt1]
              simp
            obtain ⟨hSR, hmR, hoR, hTR, hPR, hCR, hAR, -⟩ :=
              ih (Job.groupBody nodeIdx) {st2 with current := st2.current + 1} ns
                hopt (SInv_withCurrent hS2 _) hPre2 hrun
            have hlA : st.nodes.length ≤
                (createAlternative st (some nodeIdx)).2.nodes.length :=
              hstepA.2.2.1
            refine ⟨hSR, ?_, hoR, ?_, ?_, ?_, ?_, fun q hq => Job.noConfusion hq⟩
            · have := hmR
              simp only [nodes_withCurrent] at this
              omega
            · intro k hk
              rw [hTR k (by simp only [nodes_withCurrent]; omega),
                getN_withCurrent, hT2 k, hstepA.2.2.2.2.1 k hk]
            · intro k hk hn
              refine hPR k (by simp only [nodes_withCurrent]; omega) ?_
              exact hp2 k (hstepA.2.2.2.2.2.1 k hk hn)
            · intro k hk hne
              refine hCR k (by simp only [nodes_withCurrent]; omega) ?_
              rw [getN_withCurrent]
              exact hC2 k (by omega) (hstepA.2.2.2.2.2.2.1 k hk hne)
            · intro k hk hne
              refine hAR k (by simp only [nodes_withCurrent]; omega) ?_
              rw [getN_withCurrent]
              exact hA2 k (by omega) (hstepA.2.2.2.2.2.2.2 k hk hne)
          · rw [if_neg halt] at hrun
            cases hw : run f
                (Job.walk ((getN st nodeIdx).alternatives.getLastD 0)) st with
            | error e => simp only [hw] at hrun; cases hrun
            | ok es =>
              simp only [hw] at hrun
              obtain ⟨hSW, hmW, hoW, hTW, hPW, hCW, hAW, hwalkW⟩ :=
                ih (Job.walk ((getN st nodeIdx).alternatives.getLastD 0)) st es
                  hopt hb trivial hw
              obtain ⟨helt, hety, -⟩ := hwalkW _ rfl
              have haltmem : (getN st nodeIdx).alternatives.getLastD 0
                  ∈ (getN st nodeIdx).alternatives := getLastD_mem_nat hpre'
              obtain ⟨halty, haltni⟩ := hb.2.2.2 nodeIdx _ haltmem
              have haltlt : (getN st nodeIdx).alternatives.getLastD 0
                  < st.nodes.length :=
                (hb.1 nodeIdx hglt).2.1 _ haltmem
              have haltltE : (getN st nodeIdx).alternatives.getLastD 0
                  < es.2.nodes.length := by omega
              have haltniE := hPW _ haltlt haltni
              set st2 := setN es.2 ((getN st nodeIdx).alternatives.getLastD 0)
                {getN es.2 ((getN st nodeIdx).alternatives.getLastD 0) with
                  elements := (getN es.2
                    ((getN st nodeIdx).alternatives.getLastD 0)).elements ++ [es.1]}
                with hst2
              have hS2 : SInv st2 := by
                rw [hst2]
                refine SInv_setN_elems hSW rfl rfl rfl ?_ ?_
                · intro j hj
                  rcases List.mem_append.mp hj with hj | hj
                  · exact (containersBounded_getN hSW.1 _).1 j hj
                  · rw [List.mem_singleton] at hj
                    subst hj
                    exact helt
                · intro j hj
                  rcases List.mem_append.mp hj with hj | hj
                  · exact haltniE j hj
                  · rw [List.mem_singleton] at hj
                    subst hj
                    exact hety
              have hl2 : st2.nodes.length = es.2.nodes.length := by
                rw [hst2, length_setN]
              have hT2 : ∀ k, (getN st2 k).type = (getN es.2 k).type := by
                rw [hst2]
                exact types_setN_same haltltE rfl
              have hp2 : ∀ k, noInterElems es.2 k → noInterElems st2 k := by
                rw [hst2]
                refine noInterPres_setN_elems haltltE rfl ?_
                intro j hj
                rcases List.mem_append.mp hj with hj | hj
                · exact haltniE j hj
                · rw [List.mem_singleton] at hj
                  subst hj
                  exact hety
              have hC2 : ∀ k, k < es.2.nodes.length →
                  (getN es.2 k).classes ≠ [] → (getN st2 k).classes ≠ [] := by
                rw [hst2]
                exact classesNE_setN haltltE (fun hx => hx)
              have hA2 : ∀ k, k < es.2.nodes.length →
                  (getN es.2 k).alternatives ≠ [] →
                    (getN st2 k).alternatives ≠ [] := by
                rw [hst2]
                exact altsNE_setN haltltE (fun hx => hx)
              have hPre2 : (getN st2 nodeIdx).alternatives ≠ [] :=
                hA2 nodeIdx (by omega) (hAW nodeIdx hglt hpre')
              obtain ⟨hSR, hmR, hoR, hTR, hPR, hCR, hAR, -⟩ :=
                ih (Job.groupBody nodeIdx) st2 ns
                  (by rw [hst2]; exact hoW) hS2 hPre2 hrun
              refine ⟨hSR, by omega, hoR, ?_, ?_, ?_, ?_,
                fun q hq => Job.noConfusion hq⟩
              · intro k hk
                rw [hTR k (by omega), hT2 k, hTW k (by omega)]
              · intro k hk hn
                exact hPR k (by omega) (hp2 k (hPW k (by omega) hn))
              · intro k hk hne
                exact hCR k (by omega) (hC2 k (by omega) (hCW k (by omega) hne))
              · intro k hk hne
                exact hAR k (by omega) (hA2 k (by omega) (hAW k (by omega) hne))
    | mainLoop ast top =>
      obtain ⟨htopty, htopni⟩ : (getN st top).type = AstType.Alternative ∧
          noInterElems st top := hpre
      have htoplt : top < st.nodes.length := lt_of_typeAlt htopty
      simp only [run] at hrun
      by_cases hlt : st.current < st.tokens.length
      · rw [if_pos hlt] at hrun
        cases hw : run f (Job.walk top) st with
        | error e => simp only [hw] at hrun; cases hrun
        | ok ws =>
          simp only [hw] at hrun
          obtain ⟨hSW, hmW, hoW, hTW, hPW, hCW, hAW, hwalkW⟩ :=
            ih (Job.walk top) st ws hopt hb trivial hw
          obtain ⟨hnlt, hnty, hnalt⟩ := hwalkW top rfl
          split at hrun
          next hal =>
            by_cases hpatlt : (getN ws.2 ast).pattern < ws.2.nodes.length
            · set st2 := setN ws.2 ((getN ws.2 ast).pattern)
                {getN ws.2 ((getN ws.2 ast).pattern) with
                  alternatives := (getN ws.2
                    ((getN ws.2 ast).pattern)).alternatives ++ [ws.1]} with hst2
              have hS2 : SInv st2 := by
                rw [hst2]
                exact SInv_setN_alts hSW rfl rfl rfl rfl hnlt hal (hnalt hal)
              have hl2 : st2.nodes.length = ws.2.nodes.length := by
                rw [hst2, length_setN]
              have hT2 : ∀ k, (getN st2 k).type = (getN ws.2 k).type := by
                rw [hst2]
                exact types_setN_same hpatlt rfl
              have hp2 : ∀ k, noInterElems ws.2 k → noInterElems st2 k := by
                rw [hst2]
                exact noInterPres_setN_frozen hpatlt rfl rfl
              have hC2 : ∀ k, k < ws.2.nodes.length →
                  (getN ws.2 k).classes ≠ [] → (getN st2 k).classes ≠ [] := by
                rw [hst2]
                exact classesNE_setN hpatlt (fun hx => hx)
              have hA2 : ∀ k, k < ws.2.nodes.length →
                  (getN ws.2 k).alternatives ≠ [] →
                    (getN st2 k).alternatives ≠ [] := by
                rw [hst2]
                exact altsNE_setN hpatlt (fun hx => by simp)
              have hPre2 : (getN st2 ws.1).type = AstType.Alternative ∧
                  noInterElems st2 ws.1 := by
                constructor
                · rw [hT2 ws.1]
                  exact hal
                · exact hp2 ws.1 (hnalt hal)
              obtain ⟨hSR, hmR, hoR, hTR, hPR, hCR, hAR, -⟩ :=
                ih (Job.mainLoop ast ws.1) st2 ns
                  (by rw [hst2]; exact hoW) hS2 hPre2 hrun
              refine ⟨hSR, by omega, hoR, ?_, ?_, ?_, ?_,
                fun q hq => Job.noConfusion hq⟩
              · intro k hk
                rw [hTR k (by omega), hT2 k, hTW k (by omega)]
              · intro k hk hn
                exact hPR k (by omega) (hp2 k (hPW k (by omega) hn))
              · intro k hk hne
                exact hCR k (by omega) (hC2 k (by omega) (hCW k (by omega) hne))
              · intro k hk hne
                exact hAR k (by omega) (hA2 k (by omega) (hAW k (by omega) hne))
            · rw [setN_oob (Nat.le_of_not_lt hpatlt) _] at hrun
              have hPre2 : (getN ws.2 ws.1).type = AstType.Alternative ∧
                  noInterElems ws.2 ws.1 := ⟨hal, hnalt hal⟩
              obtain ⟨hSR, hmR, hoR, hTR, hPR, hCR, hAR, -⟩ :=
                ih (Job.mainLoop ast ws.1) ws.2 ns hoW hSW hPre2 hrun
              refine ⟨hSR, by omega, hoR, ?_, ?_, ?_, ?_,
                fun q hq => Job.noConfusion hq⟩
              · intro k hk
                rw [hTR k (by omega), hTW k (by omega)]
              · intro k hk hn
                exact hPR k (by omega) (hPW k (by omega) hn)
              · intro k hk hne
                exact hCR k (by omega) (hCW k (by omega) hne)
              · intro k hk hne
                exact hAR k (by omega) (hAW k (by omega) hne)
          next hal =>
            have htopltW : top < ws.2.nodes.length := by omega
            set st2 := setN ws.2 top
              {getN ws.2 top with
                elements := (getN ws.2 top).elements ++ [ws.1]} with hst2
            have htopniW := hPW top htoplt htopni
            have hS2 : SInv st2 := by
              rw [hst2]
              refine SInv_setN_elems hSW rfl rfl rfl ?_ ?_
              · intro j hj
                rcases List.mem_append.mp hj with hj | hj
                · exact (containersBounded_getN hSW.1 _).1 j hj
                · rw [List.mem_singleton] at hj
                  subst hj
                  exact hnlt
              · intro j hj
                rcases List.mem_append.mp hj with hj | hj
                · exact htopniW j hj
                · rw [List.mem_singleton] at hj
                  subst hj
                  exact hnty
            have hl2 : st2.nodes.length = ws.2.nodes.length := by
              rw [hst2, length_setN]
            have hT2 : ∀ k, (getN st2 k).type = (getN ws.2 k).type := by
              rw [hst2]
              exact types_setN_same htopltW rfl
            have hp2 : ∀ k, noInterElems ws.2 k → noInterElems st2 k := by
              rw [hst2]
              refine noInterPres_setN_elems htopltW rfl ?_
              intro j hj
              rcases List.mem_append.mp hj with hj | hj
              · exact htopniW j hj
              · rw [List.mem_singleton] at hj
                subst hj
                exact hnty
            have hC2 : ∀ k, k < ws.2.nodes.length →
                (getN ws.2 k).classes ≠ [] → (getN st2 k).classes ≠ [] := by
              rw [hst2]
              exact classesNE_setN htopltW (fun hx => hx)
            have hA2 : ∀ k, k < ws.2.nodes.length →
                (getN ws.2 k).alternatives ≠ [] →
                  (getN st2 k).alternatives ≠ [] := by
              rw [hst2]
              exact altsNE_setN htopltW (fun hx => hx)
            have hPre2 : (getN st2 top).type = AstType.Alternative ∧
                noInterElems st2 top := by
              constructor
              · rw [hT2 top, hTW top htoplt]
                exact htopty
              · exact hp2 top htopniW
            obtain ⟨hSR, hmR, hoR, hTR, hPR, hCR, hAR, -⟩ :=
              ih (Job.mainLoop ast top) st2 ns
                (by rw [hst2]; exact hoW) hS2 hPre2 hrun
            refine ⟨hSR, by omega, hoR, ?_, ?_, ?_, ?_,
              fun q hq => Job.noConfusion hq⟩
            · intro k hk
              rw [hTR k (by omega), hT2 k, hTW k (by omega)]
            · intro k hk hn
              exact hPR k (by omega) (hp2 k (hPW k (by omega) hn))
            · intro k hk hne
              exact hCR k (by omega) (hC2 k (by omega) (hCW k (by omega) hne))
            · intro k hk hne
              exact hAR k (by omega) (hA2 k (by omega) (hAW k (by omega) hne))
      · rw [if_neg hlt] at hrun
        cases hrun
        exact ⟨hb, Nat.le_refl _, hopt, fun k hk => rfl, fun k hk hn => hn,
          fun k hk hne => hne, fun k hk hne => hne,
          fun q hq => Job.noConfusion hq⟩

/-- The `parseSetup` state satisfies the C1 invariant, and the initial
`mainLoop` job's preconditions hold for it: the arena is the four-node
root skeleton (`RegExp`, `Pattern` with one alternative, `Alternative`,
`Flags`) and the top node is the empty initial `Alternative`. -/
theorem parseSetup_facts (tokens : List Token) (flags : FlagsIn) (optimize : Bool) :
    SInv (parseSetup tokens flags optimize).2.2 ∧
    Pre (Job.mainLoop (parseSetup tokens flags optimize).1
      (parseSetup tokens flags optimize).2.1)
      (parseSetup tokens flags optimize).2.2 := by
  have h4 : (parseSetup tokens flags optimize).2.2.nodes.length = 4 := rfl
  have e0e : (getN (parseSetup tokens flags optimize).2.2 0).elements = [] := rfl
  have e0a : (getN (parseSetup tokens flags optimize).2.2 0).alternatives = [] := rfl
  have e0c : (getN (parseSetup tokens flags optimize).2.2 0).classes = [] := rfl
  have e1e : (getN (parseSetup tokens flags optimize).2.2 1).elements = [] := rfl
  have e1a : (getN (parseSetup tokens flags optimize).2.2 1).alternatives = [2] := rfl
  have e1c : (getN (parseSetup tokens flags optimize).2.2 1).classes = [] := rfl
  have e2e : (getN (parseSetup tokens flags optimize).2.2 2).elements = [] := rfl
  have e2a : (getN (parseSetup tokens flags optimize).2.2 2).alternatives = [] := rfl
  have e2c : (getN (parseSetup tokens flags optimize).2.2 2).classes = [] := rfl
  have e3e : (getN (parseSetup tokens flags optimize).2.2 3).elements = [] := rfl
  have e3a : (getN (parseSetup tokens flags optimize).2.2 3).alternatives = [] := rfl
  have e3c : (getN (parseSetup tokens flags optimize).2.2 3).classes = [] := rfl
  have e2t : (getN (parseSetup tokens flags optimize).2.2 2).type
      = AstType.Alternative := rfl
  have htop : (parseSetup tokens flags optimize).2.1 = 2 := rfl
  have hdefel : (default : Node).elements = [] := rfl
  have hdefal : (default : Node).alternatives = [] := rfl
  have hdefcl : (default : Node).classes = [] := rfl
  have hge : ∀ i, 4 ≤ i → getN (parseSetup tokens flags optimize).2.2 i = default := by
    intro i hi
    exact getN_ge _ (by omega)
  refine ⟨⟨?_, ?_, ?_, ?_⟩, ?_⟩
  · intro i hi
    rw [h4] at hi
    interval_cases i
    · exact ⟨(by rw [e0e]; intro j hj; cases hj),
        (by rw [e0a]; intro j hj; cases hj),
        (by rw [e0c]; intro j hj; cases hj)⟩
    · refine ⟨(by rw [e1e]; intro j hj; cases hj), ?_,
        (by rw [e1c]; intro j hj; cases hj)⟩
      rw [e1a]
      intro j hj
      rw [List.mem_singleton] at hj
      subst hj
      omega
    · exact ⟨(by rw [e2e]; intro j hj; cases hj),
        (by rw [e2a]; intro j hj; cases hj),
        (by rw [e2c]; intro j hj; cases hj)⟩
    · exact ⟨(by rw [e3e]; intro j hj; cases hj),
        (by rw [e3a]; intro j hj; cases hj),
        (by rw [e3c]; intro j hj; cases hj)⟩
  · intro i
    refine Or.inr ?_
    intro j hj
    by_cases hi : i < 4
    · interval_cases i
      · rw [e0e] at hj; cases hj
      · rw [e1e] at hj; cases hj
      · rw [e2e] at hj; cases hj
      · rw [e3e] at hj; cases hj
    · rw [hge i (by omega), hdefel] at hj
      cases hj
  · intro i j hj
    by_cases hi : i < 4
    · interval_cases i
      · rw [e0c] at hj; cases hj
      · rw [e1c] at hj; cases hj
      · rw [e2c] at hj; cases hj
      · rw [e3c] at hj; cases hj
    · rw [hge i (by omega), hdefcl] at hj
      cases hj
  · intro i j hj
    by_cases hi : i < 4
    · interval_cases i
      · rw [e0a] at hj; cases hj
      · rw [e1a] at hj
        rw [List.mem_singleton] at hj
        subst hj
        exact ⟨e2t, by intro q hq; rw [e2e] at hq; cases hq⟩
      · rw [e2a] at hj; cases hj
      · rw [e3a] at hj; cases hj
    · rw [hge i (by omega), hdefal] at hj
      cases hj
  · refine ⟨?_, ?_⟩
    · rw [htop]
      exact e2t
    · intro j hj
      rw [htop, e2e] at hj
      cases hj

/-- The token sequence of `[a]`: a character class holding the single
literal `a`. -/
def tokensC1 : List Token :=
  [{type := .CharacterClassOpen},
   {type := .Character, value := 97},
   {type := .CharacterClassClose}]

/-- C1 counterexample: parsing `[a]` with `optimize: false` produces a
`CharacterClass` node (index 6) that contains NO
`CharacterClassIntersection` child at all: its sole element (index 7) is
the `Character` for `a`.  `parseCharacterClassOpen` hoists the single
inner class out of the intersection wrapper unconditionally — the hoist
is not guarded by the `optimize` flag — so with `optimize: false` a
plain class does not keep an intersection wrapper, refuting "every
`CharacterClass` contains exactly one `CharacterClassIntersection`". -/
theorem C1_counterexample :
    (parseTokens tokensC1 {} false).map
      (fun p =>
        ((getN p.2 2).elements,
         (getN p.2 6).type,
         (getN p.2 6).elements.map fun e => (getN p.2 e).type))
    = .ok ([6], .CharacterClass, [.Character]) := by rfl

/-- C1 amended: with `optimize: false`, every `CharacterClass` node of a
successfully parsed AST either contains exactly one
`CharacterClassIntersection` child (the wrapper shape, kept exactly when
the class body used `&&`, i.e. more than one inner intersection class)
or contains no `CharacterClassIntersection` child at all (the
single-class wrapper is hoisted away unconditionally, so a plain class
holds its items directly). -/
theorem C1_amended_thm (fuel : Nat) (tokens : List Token) (flags : FlagsIn)
    (ns : Nat × PState) (hres : parse fuel tokens flags false = .ok ns) :
    ∀ i, (getN ns.2 i).type = AstType.CharacterClass → okClass ns.2 i := by
  simp only [parse] at hres
  cases hrun : run fuel
      (Job.mainLoop (parseSetup tokens flags false).1
        (parseSetup tokens flags false).2.1)
      (parseSetup tokens flags false).2.2 with
  | error e => simp only [hrun] at hres; cases hres
  | ok ms =>
    simp only [hrun] at hres
    cases hval : validateContext ms.2 with
    | error e => simp only [hval] at hres; cases hres
    | ok u =>
      simp only [hval] at hres
      cases hres
      obtain ⟨hSR, -⟩ :=
        run_inv fuel _ _ ms rfl (parseSetup_facts tokens flags false).1
          (parseSetup_facts tokens flags false).2 hrun
      exact fun i hi => hSR.2.1 i

/-- The concrete result of parsing `[a]` with `optimize: false`. -/
def c1Res : Nat × PState :=
  (parse 28 tokensC1 {} false).toOption.getD (0, {tokens := [], optimize := false})

/-- Witness for `C1_amended_thm` at the `[a]` parse: node 6 is a
`CharacterClass` of the result and has the amended shape. -/
theorem C1_witness :
    parse 28 tokensC1 {} false = .ok c1Res ∧
    (getN c1Res.2 6).type = AstType.CharacterClass ∧ okClass c1Res.2 6 :=
  ⟨by rfl, by rfl, C1_amended_thm 28 tokensC1 {} c1Res (by rfl) 6 (by rfl)⟩

/-- The token sequence of `[|]`: a character class whose body holds an
alternator token. -/
def tokensC5 : List Token :=
  [{type := .CharacterClassOpen},
   {type := .Alternator},
   {type := .CharacterClassClose}]

/-- C5 counterexample: parsing `[|]` returns an AST in which node 7 (an
`Alternative`) is held by node 6's `elements` container, yet its
`parent` field is `some 5` — and node 5's own containers hold only
`[6]`, not 7.  The walk's alternator branch sets the new node's parent
to the walk parent's parent instead of its actual owner, so the parent
back-link does not equal the owner. -/
theorem C5_counterexample :
    (parseTokens tokensC5 {} false).map
      (fun p =>
        ((getN p.2 6).elements, (getN p.2 7).parent, (getN p.2 7).type,
         (getN p.2 5).elements, (getN p.2 5).alternatives,
         (getN p.2 5).classes))
    = .ok ([7], some 5, .Alternative, [], [], [6]) := by rfl

/-- C5 amended: parent back-links do NOT always equal the owner.  When
the class-body loop meets an `Alternator` token, the walk allocates an
`Alternative` whose `parent` field is the innermost class's OWN parent,
while the class body appends the new node to that class's `elements`:
the node is owned by the class but points past it. -/
theorem C5_amended_thm (f : Nat) (st : PState) (ii : Nat) (nt : Token)
    (htok : tokenAt st st.current = some nt)
    (halt : nt.type = TokTy.Alternator)
    (hlt : (getN st ii).classes.getLastD 0 < st.nodes.length) :
    ∃ st2 : PState,
      run (f + 1 + 1) (Job.classBody ii) st
        = run (f + 1) (Job.classBody ii) st2 ∧
      st.nodes.length ∈ (getN st2 ((getN st ii).classes.getLastD 0)).elements ∧
      (getN st2 st.nodes.length).parent
        = (getN st ((getN st ii).classes.getLastD 0)).parent ∧
      (getN st2 st.nodes.length).type = AstType.Alternative := by
  have h1 : ¬ nt.type = TokTy.CharacterClassClose := by rw [halt]; decide
  have h2 : ¬ nt.type = TokTy.CharacterClassIntersector := by rw [halt]; decide
  set ccIdx := (getN st ii).classes.getLastD 0 with hcc
  have hw : run (f + 1) (Job.walk ccIdx) st
      = .ok (createAlternative {st with current := st.current + 1}
          (getN st ccIdx).parent) := by
    simp only [run, htok, halt]
    rfl
  have hlt2 : ccIdx < (createAlternative {st with current := st.current + 1}
      (getN st ccIdx).parent).2.nodes.length := by
    have e : (createAlternative {st with current := st.current + 1}
        (getN st ccIdx).parent).2.nodes.length = st.nodes.length + 1 :=
      length_allocN _ _
    omega
  have eself : getN (createAlternative {st with current := st.current + 1}
        (getN st ccIdx).parent).2 st.nodes.length
      = {getNodeBase (getN st ccIdx).parent AstType.Alternative with
          elements := []} :=
    getN_allocN_self _ _
  refine ⟨setN (createAlternative {st with current := st.current + 1}
      (getN st ccIdx).parent).2 ccIdx
    {getN (createAlternative {st with current := st.current + 1}
        (getN st ccIdx).parent).2 ccIdx with
      elements := (getN (createAlternative {st with current := st.current + 1}
          (getN st ccIdx).parent).2 ccIdx).elements ++ [st.nodes.length]},
    ?_, ?_, ?_, ?_⟩
  · conv_lhs => rw [run]
    simp only [htok]
    rw [if_neg h1, if_neg h2, hw]
    rfl
  · rw [getN_setN_self _ _ hlt2]
    exact List.mem_append.mpr (Or.inr (List.mem_singleton.mpr rfl))
  · rw [getN_setN_ne _ _ _ (by omega), eself]
    rfl
  · rw [getN_setN_ne _ _ _ (by omega), eself]
    rfl

/-- The single-token stream and one-node arena used to witness the
amended C5 step: a lone class node whose parent is `some 3`. -/
def c5wTok : Token := {type := TokTy.Alternator}

/-- The witness state: one `CharacterClass` node, current token the
alternator. -/
def c5wSt : PState :=
  {tokens := [c5wTok], optimize := false,
   nodes := [{type := AstType.CharacterClass, parent := some 3}],
   current := 0}

/-- Witness for `C5_amended_thm` at the one-node arena: the appended
`Alternative` (index 1) lands in node 0's `elements` while its parent
field is node 0's own parent, `some 3`. -/
theorem C5_witness :
    tokenAt c5wSt c5wSt.current = some c5wTok ∧
    (∃ st2 : PState,
      run (0 + 1 + 1) (Job.classBody 0) c5wSt
        = run (0 + 1) (Job.classBody 0) st2 ∧
      c5wSt.nodes.length ∈ (getN st2 ((getN c5wSt 0).classes.getLastD 0)).elements ∧
      (getN st2 c5wSt.nodes.length).parent
        = (getN c5wSt ((getN c5wSt 0).classes.getLastD 0)).parent ∧
      (getN st2 c5wSt.nodes.length).type = AstType.Alternative) :=
  ⟨rfl, C5_amended_thm 0 c5wSt 0 c5wTok rfl rfl (by decide)⟩

/-! ## Claim C8: the quantifier parser -/

/-- Bounded well-formedness of parent links: every stored parent index
is inside the arena (true of every state the parser builds; needed to
relate the fuel-indexed ancestor walks). -/
def parentsClosed (st : PState) : Bool :=
  (List.range st.nodes.length).all fun i =>
    match (getN st i).parent with
    | none => true
    | some p => decide (p < st.nodes.length)

theorem parentsClosed_spec {st : PState} (h : parentsClosed st = true) :
    ∀ i, i < st.nodes.length → ∀ p, (getN st i).parent = some p →
      p < st.nodes.length := by
  intro i hi p hp
  have hall := List.all_eq_true.mp h i (List.mem_range.mpr hi)
  rw [hp] at hall
  exact of_decide_eq_true hall

/-- The claim-side ancestor predicate: does node `i` or an ancestor
along the `parent` chain (within the fuel) have type `Assertion` and
kind `lookbehind`? -/
def selfOrAncestorLookbehind (st : PState) : Nat → Nat → Bool
  | 0, _ => false
  | fuel + 1, i =>
    if (getN st i).type = .Assertion ∧ (getN st i).kind = "lookbehind" then true
    else
      match (getN st i).parent with
      | none => false
      | some p => selfOrAncestorLookbehind st fuel p

theorem isWithin_allocN (st : PState) (nd : Node) (ty : AstType)
    (kind : Option String) (hc : parentsClosed st = true) :
    ∀ fuel i, i < st.nodes.length →
      isWithin (allocN st nd).2 fuel i ty kind = isWithin st fuel i ty kind := by
  intro fuel
  induction fuel with
  | zero => intro i _; rfl
  | succ f ih =>
    intro i hi
    cases hpar : (getN st i).parent with
    | none => simp only [isWithin, getN_allocN_lt st nd hi, hpar]
    | some p =>
      have hplt := parentsClosed_spec hc i hi p hpar
      simp only [isWithin, getN_allocN_lt st nd hi, hpar, getN_allocN_lt st nd hplt]
      by_cases hcnd : (getN st p).type = ty ∧ (kind = none ∨ kind = some (getN st p).kind)
      · rw [if_pos hcnd, if_pos hcnd]
      · rw [if_neg hcnd, if_neg hcnd, ih p hplt]

theorem isWithin_eq_selfOrAnc (st : PState) :
    ∀ fuel i, isWithin st fuel i .Assertion (some "lookbehind") =
      (match (getN st i).parent with
       | none => false
       | some p => selfOrAncestorLookbehind st fuel p) := by
  intro fuel
  induction fuel with
  | zero =>
    intro i
    cases hpar : (getN st i).parent <;> simp [isWithin, hpar, selfOrAncestorLookbehind]
  | succ f ih =>
    intro i
    cases hpar : (getN st i).parent with
    | none => simp only [isWithin, hpar]
    | some p =>
      simp only [isWithin, hpar, selfOrAncestorLookbehind]
      by_cases hcnd : (getN st p).type = .Assertion ∧ (getN st p).kind = "lookbehind"
      · rw [if_pos ⟨hcnd.1, Or.inr (by rw [hcnd.2])⟩, if_pos hcnd]
      · rw [if_neg (fun hcc => hcnd ⟨hcc.1, by
            rcases hcc.2 with hcc2 | hcc2
            · exact absurd hcc2 (by simp)
            · exact (Option.some.inj hcc2).symm⟩),
          if_neg hcnd, ih p]

/-- The variable-length lookbehind guard computed inside
`createQuantifier` on the freshly allocated node equals the claim-side
ancestor predicate on the pre-allocation state, starting at the
quantifier's parent. -/
theorem isWithin_fresh (st : PState) (nd : Node) (parent : Nat)
    (hnd : nd.parent = some parent) (hp : parent < st.nodes.length)
    (hc : parentsClosed st = true) :
    isWithin (allocN st nd).2 (st.nodes.length + 1) (allocN st nd).1
        .Assertion (some "lookbehind")
      = selfOrAncestorLookbehind st (st.nodes.length + 1) parent := by
  simp only [isWithin, fst_allocN, getN_allocN_self, hnd]
  rw [getN_allocN_lt st nd hp]
  simp only [selfOrAncestorLookbehind]
  by_cases hcnd : (getN st parent).type = .Assertion ∧ (getN st parent).kind = "lookbehind"
  · rw [if_pos ⟨hcnd.1, Or.inr (by rw [hcnd.2])⟩, if_pos hcnd]
  · rw [if_neg (fun hcc => hcnd ⟨hcc.1, by
        rcases hcc.2 with hcc2 | hcc2
        · exact absurd hcc2 (by simp)
        · exact (Option.some.inj hcc2).symm⟩),
      if_neg hcnd, isWithin_allocN st nd _ _ hc _ parent hp,
      isWithin_eq_selfOrAnc]

/-- `isWithin_fresh` specialized to the record `createQuantifier`
allocates, with the fuel it actually passes. -/
theorem isWithin_fresh_quant (st : PState) (parent : Nat) (mn : Nat)
    (mx : Option Nat) (gr ps : Bool) (el : Option Nat)
    (hp : parent < st.nodes.length) (hc : parentsClosed st = true) :
    isWithin
        (allocN st {getNodeBase (some parent) .Quantifier with
          qmin := mn
          qmax := mx
          greedy := gr
          possessive := ps
          element := el}).2
        (allocN st {getNodeBase (some parent) .Quantifier with
          qmin := mn
          qmax := mx
          greedy := gr
          possessive := ps
          element := el}).2.nodes.length
        (allocN st {getNodeBase (some parent) .Quantifier with
          qmin := mn
          qmax := mx
          greedy := gr
          possessive := ps
          element := el}).1
        .Assertion (some "lookbehind")
      = selfOrAncestorLookbehind st (st.nodes.length + 1) parent := by
  rw [length_allocN]
  exact isWithin_fresh st _ parent rfl hp hc

/-- Closed-form behavior of `createQuantifier` over a well-formed
arena: range check, then the lookbehind guard expressed through the
claim-side ancestor predicate, then the allocation. -/
theorem createQuantifier_spec (st : PState) (parent lastEl : Nat) (mn : Nat)
    (mx : Option Nat) (gr ps : Bool)
    (hp : parent < st.nodes.length) (hc : parentsClosed st = true) :
    createQuantifier st parent lastEl mn mx gr ps =
      (if qmaxLt mx mn then .error .RangeOutOfOrder
       else if some mn ≠ mx ∧
           selfOrAncestorLookbehind st (st.nodes.length + 1) parent = true then
         .error .VariableLookbehind
       else .ok (allocN st {getNodeBase (some parent) .Quantifier with
          qmin := mn
          qmax := mx
          greedy := gr
          possessive := ps
          element := some lastEl})) := by
  unfold createQuantifier
  by_cases hro : qmaxLt mx mn = true
  · simp [hro]
  · have hro' : qmaxLt mx mn = false := Bool.eq_false_iff.mpr hro
    simp only [hro', Bool.false_eq_true, if_false,
      isWithin_fresh_quant st parent mn mx gr ps (some lastEl) hp hc]

theorem ok_ne_error {e : PErr} {v : Nat × PState} :
    (Except.ok v : Except PErr (Nat × PState)) ≠ .error e := fun h => by cases h


/-- C8: the quantifier parser fails with `NothingToRepeat` iff the
current alternative has no elements; otherwise it fails with
`RangeOutOfOrder` iff the token's max is less than its min; otherwise
it fails with `VariableLookbehind` iff `min ≠ max` and some ancestor of
the new quantifier node (its parent, or an ancestor thereof) is an
`Assertion` of kind `lookbehind`; otherwise it pops the alternative's
last element, makes it the `Quantifier`'s element, and sets that
element's parent to the new `Quantifier` node. -/
theorem C8_quantifier (st : PState) (parent : Nat) (tok : Token)
    (hc : parentsClosed st = true) (hp : parent < st.nodes.length)
    (helts : ∀ j ∈ (getN st parent).elements, j < st.nodes.length) :
    ((parseQuantifier st parent tok = .error .NothingToRepeat) ↔
      (getN st parent).elements = []) ∧
    ((getN st parent).elements ≠ [] →
      ((parseQuantifier st parent tok = .error .RangeOutOfOrder) ↔
        qmaxLt tok.qmax tok.qmin = true)) ∧
    ((getN st parent).elements ≠ [] → qmaxLt tok.qmax tok.qmin = false →
      ((parseQuantifier st parent tok = .error .VariableLookbehind) ↔
        (some tok.qmin ≠ tok.qmax ∧
         selfOrAncestorLookbehind st (st.nodes.length + 1) parent = true))) ∧
    (∀ lastEl, (getN st parent).elements.getLast? = some lastEl →
      qmaxLt tok.qmax tok.qmin = false →
      ¬(some tok.qmin ≠ tok.qmax ∧
        selfOrAncestorLookbehind st (st.nodes.length + 1) parent = true) →
      ∃ p, parseQuantifier st parent tok = .ok p ∧
        (getN p.2 p.1).type = .Quantifier ∧
        (getN p.2 p.1).element = some lastEl ∧
        (getN p.2 lastEl).parent = some p.1 ∧
        (getN p.2 parent).elements = (getN st parent).elements.dropLast) := by
  cases hlast : (getN st parent).elements.getLast? with
  | none =>
    have hnil : (getN st parent).elements = [] := List.getLast?_eq_none_iff.mp hlast
    have hres : parseQuantifier st parent tok = .error .NothingToRepeat := by
      simp only [parseQuantifier, hlast]
    refine ⟨⟨fun _ => hnil, fun _ => hres⟩, ?_, ?_, ?_⟩
    · intro hne; exact absurd hnil hne
    · intro hne; exact absurd hnil hne
    · intro lastEl hlast'; cases hlast'
  | some lastEl =>
    have hne : (getN st parent).elements ≠ [] := by
      intro hnil; rw [hnil] at hlast; cases hlast
    have hlt : lastEl < st.nodes.length :=
      helts lastEl (listGetLast?_mem hlast)
    have hcq := createQuantifier_spec st parent lastEl tok.qmin tok.qmax
      tok.greedy tok.possessive hp hc
    by_cases hro : qmaxLt tok.qmax tok.qmin = true
    · have hres : parseQuantifier st parent tok = .error .RangeOutOfOrder := by
        simp only [parseQuantifier, hlast, hcq, hro, if_true]
      refine ⟨⟨fun h => absurd (hres ▸ h) (by simp), fun h => absurd h hne⟩,
        fun _ => ⟨fun _ => hro, fun _ => hres⟩, ?_, ?_⟩
      · intro _ hfalse; rw [hfalse] at hro; cases hro
      · intro _ _ hfalse; rw [hfalse] at hro; cases hro
    · have hro' : qmaxLt tok.qmax tok.qmin = false := Bool.eq_false_iff.mpr hro
      by_cases hvl : (some tok.qmin ≠ tok.qmax ∧
          selfOrAncestorLookbehind st (st.nodes.length + 1) parent = true)
      · have hres : parseQuantifier st parent tok = .error .VariableLookbehind := by
          simp only [parseQuantifier, hlast, hcq, hro', Bool.false_eq_true, if_false,
            if_pos hvl]
        refine ⟨⟨fun h => absurd (hres ▸ h) (by simp), fun h => absurd h hne⟩,
          fun _ => ⟨fun h => absurd (hres ▸ h) (by simp), fun h => absurd h hro⟩,
          fun _ _ => ⟨fun _ => hvl, fun _ => hres⟩, ?_⟩
        intro lastEl' hlast' _ hnvl
        exact absurd hvl hnvl
      · have hres : parseQuantifier st parent tok =
            .ok (st.nodes.length,
              let st1 := (allocN st {getNodeBase (some parent) .Quantifier with
                qmin := tok.qmin
                qmax := tok.qmax
                greedy := tok.greedy
                possessive := tok.possessive
                element := some lastEl}).2
              let st2 := setN st1 lastEl
                {getN st1 lastEl with parent := some st.nodes.length}
              setN st2 parent
                {getN st2 parent with
                  elements := (getN st2 parent).elements.dropLast}) := by
          simp only [parseQuantifier, hlast, hcq, hro', Bool.false_eq_true, if_false,
            if_neg hvl, fst_allocN]
        rw [hres]
        refine ⟨⟨fun h => absurd h ok_ne_error, fun h => absurd h hne⟩,
          fun _ => ⟨fun h => absurd h ok_ne_error, fun h => absurd h hro⟩,
          fun _ _ => ⟨fun h => absurd h ok_ne_error, fun h => absurd h hvl⟩, ?_⟩
        intro lastEl' hlast' _ _
        have helq : lastEl = lastEl' := Option.some.inj hlast'
        subst helq
        set R : Node := {getNodeBase (some parent) .Quantifier with
          qmin := tok.qmin
          qmax := tok.qmax
          greedy := tok.greedy
          possessive := tok.possessive
          element := some lastEl} with hR
        have hlt1 : lastEl < (allocN st R).2.nodes.length := by
          rw [length_allocN]; omega
        have hflen : st.nodes.length <
            (setN (allocN st R).2 lastEl
              {getN (allocN st R).2 lastEl with
                parent := some st.nodes.length}).nodes.length := by
          rw [length_setN, length_allocN]; omega
        have hp2 : parent <
            (setN (allocN st R).2 lastEl
              {getN (allocN st R).2 lastEl with
                parent := some st.nodes.length}).nodes.length := by
          rw [length_setN, length_allocN]; omega
        have hq_ne_parent : st.nodes.length ≠ parent := fun h => by omega
        have hq_ne_lastEl : st.nodes.length ≠ lastEl := fun h => by omega
        refine ⟨_, rfl, ?_, ?_, ?_, ?_⟩
        · show (getN (setN _ parent _) st.nodes.length).type = _
          rw [getN_setN_ne _ _ _ hq_ne_parent, getN_setN_ne _ _ _ hq_ne_lastEl,
            getN_allocN_self, hR]
          rfl
        · show (getN (setN _ parent _) st.nodes.length).element = _
          rw [getN_setN_ne _ _ _ hq_ne_parent, getN_setN_ne _ _ _ hq_ne_lastEl,
            getN_allocN_self, hR]
        · by_cases hple : lastEl = parent
          · subst hple
            rw [getN_setN_self _ _ hp2, getN_setN_self _ _ hlt1]
          · rw [getN_setN_ne _ _ _ hple, getN_setN_self _ _ hlt1]
        · rw [getN_setN_self _ _ hp2]
          by_cases hple : parent = lastEl
          · subst hple
            rw [getN_setN_self _ _ hlt1, getN_allocN_lt st R hp]
          · rw [getN_setN_ne _ _ _ hple, getN_allocN_lt st R hp]



/-- Concrete state for the C8 witness: an alternative (index 0) whose
single element is a `Character` (index 1). -/
def c8wSt : PState :=
  {tokens := [], optimize := false,
   nodes := [{type := .Alternative, parent := none, elements := [1]},
             {type := .Character, parent := some 0, value := 97}]}

/-- The C8 witness token: `{1,2}`. -/
def c8wTok : Token := {type := .Quantifier, qmin := 1, qmax := some 2}

/-- Witness for `C8_quantifier` at a concrete state. -/
theorem C8_witness :
    (parentsClosed c8wSt = true ∧ 0 < c8wSt.nodes.length ∧
      (∀ j ∈ (getN c8wSt 0).elements, j < c8wSt.nodes.length) ∧
      (getN c8wSt 0).elements.getLast? = some 1 ∧
      qmaxLt c8wTok.qmax c8wTok.qmin = false ∧
      ¬(some c8wTok.qmin ≠ c8wTok.qmax ∧
        selfOrAncestorLookbehind c8wSt (c8wSt.nodes.length + 1) 0 = true)) ∧
    (∃ p, parseQuantifier c8wSt 0 c8wTok = .ok p ∧
      (getN p.2 p.1).type = .Quantifier ∧
      (getN p.2 p.1).element = some 1 ∧
      (getN p.2 1).parent = some p.1 ∧
      (getN p.2 0).elements = (getN c8wSt 0).elements.dropLast) :=
  ⟨⟨by decide, by decide, by decide, by decide, by decide, by decide⟩,
   (C8_quantifier c8wSt 0 c8wTok (by decide) (by decide) (by decide)).2.2.2 1
     (by decide) (by decide) (by decide)⟩

/-- Witness for `C2_amended_thm` at the concrete state `c2st`. -/
theorem C2_amended_witness :
    ((getN c2st 0).alternatives = [1] ∧ (getN c2st 1).elements = [2] ∧
     (getN c2st 0).type = .Group ∧ (getN c2st 2).type = .Group ∧
     2 < c2st.nodes.length) ∧
    ((¬((getN c2st 0).atomic ∧ (getN c2st 2).flags.isSome) ∧
      ¬((getN c2st 0).flags.isSome ∧
         ((getN c2st 2).atomic ∨ (getN c2st 2).flags.isSome)) →
       (getOptimizedGroup c2st 0).1 = 2 ∧
       (getN (getOptimizedGroup c2st 0).2 2).parent = (getN c2st 0).parent ∧
       (getN (getOptimizedGroup c2st 0).2 2).atomic =
         ((getN c2st 0).atomic || (getN c2st 2).atomic) ∧
       (getN (getOptimizedGroup c2st 0).2 2).flags =
         (if (getN c2st 0).atomic then (getN c2st 2).flags
          else if (getN c2st 0).flags.isSome then (getN c2st 0).flags
          else (getN c2st 2).flags)) ∧
     ((((getN c2st 0).atomic ∧ (getN c2st 2).flags.isSome) ∨
       ((getN c2st 0).flags.isSome ∧
         ((getN c2st 2).atomic ∨ (getN c2st 2).flags.isSome))) →
       getOptimizedGroup c2st 0 = (0, c2st))) :=
  ⟨⟨by decide, by decide, by decide, by decide, by decide⟩,
   C2_amended_thm c2st 0 1 2 (by decide) (by decide) (by decide) (by decide)
     (by decide)⟩

/-! ## Claim C9: the character-class hyphen -/

/-- Modelled from the spec: the claim-side condition for a range to be
formed on a `CharacterClassHyphen` token — the enclosing class base's
last element exists and is not a `CharacterClass`, and the lookahead
token exists and is not a class open, close or intersector.  Compared
against the source's `hyphenRangeGuard`. -/
def rangeFormedCond (st : PState) (parent : Nat) (nextToken : Option Token) : Prop :=
  (∃ prev, (getN st parent).elements.getLast? = some prev ∧
    (getN st prev).type ≠ AstType.CharacterClass) ∧
  (∃ nt, nextToken = some nt ∧ nt.type ≠ TokTy.CharacterClassOpen ∧
    nt.type ≠ TokTy.CharacterClassClose ∧ nt.type ≠ TokTy.CharacterClassIntersector)

theorem hyphenRangeGuard_iff (st : PState) (parent : Nat) (nt? : Option Token) :
    hyphenRangeGuard st parent nt? = true ↔ rangeFormedCond st parent nt? := by
  unfold hyphenRangeGuard rangeFormedCond
  cases hlast : (getN st parent).elements.getLast? with
  | none => simp
  | some prev =>
    cases nt? with
    | none => simp
    | some nt =>
      simp only [Bool.and_eq_true, Bool.not_eq_true', beq_eq_false_iff_ne,
        Option.some.injEq]
      constructor
      · rintro ⟨⟨⟨h1, h2⟩, h3⟩, h4⟩
        exact ⟨⟨prev, rfl, h1⟩, ⟨nt, rfl, h2, h3, h4⟩⟩
      · rintro ⟨⟨p, hp, h1⟩, ⟨n, hn, h2, h3, h4⟩⟩
        cases hp; cases hn
        exact ⟨⟨⟨h1, h2⟩, h3⟩, h4⟩

/-- Executable form of `boundedSt`, for concrete witnesses. -/
def boundedStB (st : PState) : Bool :=
  (List.range st.nodes.length).all fun i =>
    (getN st i).elements.all (fun j => decide (j < st.nodes.length)) &&
    (getN st i).alternatives.all (fun j => decide (j < st.nodes.length)) &&
    (getN st i).classes.all (fun j => decide (j < st.nodes.length))

theorem boundedSt_of_boundedStB {st : PState} (h : boundedStB st = true) :
    boundedSt st := by
  intro i hi
  unfold boundedStB at h
  rw [List.all_eq_true] at h
  have hh := h i (List.mem_range.mpr hi)
  simp only [Bool.and_eq_true, List.all_eq_true, decide_eq_true_eq] at hh
  exact ⟨hh.1.1, hh.1.2, hh.2⟩

theorem getN_setN2_alloc (st : PState) (n P1 P2 : Node) {a b : Nat}
    (ha : a < st.nodes.length) (hb' : b < st.nodes.length) :
    getN (setN (setN (allocN st n).2 a P1) b P2) (allocN st n).1 = n := by
  have h1 : (allocN st n).1 ≠ b := by rw [fst_allocN]; omega
  have h2 : (allocN st n).1 ≠ a := by rw [fst_allocN]; omega
  rw [getN_setN_ne _ _ _ h1, getN_setN_ne _ _ _ h2, fst_allocN, getN_allocN_self]

theorem getN_double_reparent (st : PState) (r : Nat) {a b : Nat}
    (ha : a < st.nodes.length) (hb' : b < st.nodes.length) :
    (getN (setN (setN st a {getN st a with parent := some r}) b
        {getN (setN st a {getN st a with parent := some r}) b with
          parent := some r}) a).parent = some r ∧
    (getN (setN (setN st a {getN st a with parent := some r}) b
        {getN (setN st a {getN st a with parent := some r}) b with
          parent := some r}) b).parent = some r := by
  constructor
  · by_cases hab : a = b
    · subst hab
      rw [getN_setN_self _ _ (by rw [length_setN]; exact ha)]
    · rw [getN_setN_ne _ _ _ hab, getN_setN_self _ _ ha]
  · rw [getN_setN_self _ _ (by rw [length_setN]; exact hb')]

/-- C9: on a `CharacterClassHyphen` token, a range is formed exactly when
the class base's last element exists and is not a `CharacterClass` and
the lookahead token exists and is none of class open, close or
intersector (`hyphenRangeGuard` ↔ `rangeFormedCond`); when no range is
formed, a literal `Character` of value 45 is emitted; when a range is
formed, if the two sides are not both `Character` nodes the parse fails
with `InvalidRange`, and otherwise the emitted `CharacterClassRange`
node holds the two sides as `rmin`/`rmax` and becomes the `parent` of
both. -/
theorem C9_hyphen_range (f : Nat) (st st1 : PState) (parent : Nat) (token : Token)
    (hb : boundedSt st) (hp : parent < st.nodes.length)
    (htok : tokenAt st st.current = some token)
    (htt : token.type = TokTy.CharacterClassHyphen)
    (hst1 : st1 = {st with current := st.current + 1}) :
    (hyphenRangeGuard st1 parent (tokenAt st1 (st.current + 1)) = true ↔
      rangeFormedCond st1 parent (tokenAt st1 (st.current + 1))) ∧
    (hyphenRangeGuard st1 parent (tokenAt st1 (st.current + 1)) = false →
      run (f + 1) (Job.walk parent) st = .ok (createCharacter st1 parent 45) ∧
      (getN (createCharacter st1 parent 45).2
        (createCharacter st1 parent 45).1).type = AstType.Character ∧
      (getN (createCharacter st1 parent 45).2
        (createCharacter st1 parent 45).1).value = 45) ∧
    (hyphenRangeGuard st1 parent (tokenAt st1 (st.current + 1)) = true →
      ∀ prev, (getN st1 parent).elements.getLast? = some prev →
      ∀ ws, run f (Job.walk parent) st1 = .ok ws →
      (¬((getN ws.2 prev).type = AstType.Character ∧
          (getN ws.2 ws.1).type = AstType.Character) →
        run (f + 1) (Job.walk parent) st = .error .InvalidRange) ∧
      (∀ rs, (getN ws.2 prev).type = AstType.Character →
        (getN ws.2 ws.1).type = AstType.Character →
        createCharacterClassRange
          (setN ws.2 parent
            {getN ws.2 parent with
              elements := (getN ws.2 parent).elements.dropLast}) parent prev ws.1
          = .ok rs →
        ∃ fin, run (f + 1) (Job.walk parent) st = .ok (rs.1, fin) ∧
          (getN fin rs.1).type = AstType.CharacterClassRange ∧
          (getN fin rs.1).rmin = prev ∧ (getN fin rs.1).rmax = ws.1 ∧
          (getN fin prev).parent = some rs.1 ∧
          (getN fin ws.1).parent = some rs.1)) := by
  subst hst1
  refine ⟨hyphenRangeGuard_iff _ _ _, ?_, ?_⟩
  · intro hg
    refine ⟨?_, ?_, ?_⟩
    · simp only [run, htok, htt]
      rw [if_neg (by simp [hg])]
    · have e : getN (createCharacter {st with current := st.current + 1} parent 45).2
          (createCharacter {st with current := st.current + 1} parent 45).1 =
          {getNodeBase (some parent) AstType.Character with value := 45} := by
        simp only [createCharacter, fst_allocN]
        exact getN_allocN_self _ _
      rw [e]
      rfl
    · have e : getN (createCharacter {st with current := st.current + 1} parent 45).2
          (createCharacter {st with current := st.current + 1} parent 45).1 =
          {getNodeBase (some parent) AstType.Character with value := 45} := by
        simp only [createCharacter, fst_allocN]
        exact getN_allocN_self _ _
      rw [e]
  · intro hg prev hlast ws hws
    obtain ⟨hbW, hmW, hresW⟩ :=
      run_wf f (Job.walk parent) {st with current := st.current + 1} ws hb hws
    have hwlt : ws.1 < ws.2.nodes.length := hresW parent rfl
    have hprevlt : prev < st.nodes.length :=
      (hb parent hp).1 prev (listGetLast?_mem hlast)
    have hprevlt2 : prev < ws.2.nodes.length := Nat.lt_of_lt_of_le hprevlt hmW
    constructor
    · intro hnc
      simp only [run, htok, htt]
      rw [if_pos hg]
      simp only [hlast, hws]
      rw [if_neg hnc]
    · intro rs hc1 hc2 hcr
      have hrs' : rs = allocN (setN ws.2 parent
          {getN ws.2 parent with
            elements := (getN ws.2 parent).elements.dropLast})
          {getNodeBase (some parent) AstType.CharacterClassRange with
            rmin := prev, rmax := ws.1} := by
        simp only [createCharacterClassRange] at hcr
        split at hcr
        · cases hcr
        · cases hcr; rfl
      have hst2a : prev < (setN ws.2 parent
          {getN ws.2 parent with
            elements := (getN ws.2 parent).elements.dropLast}).nodes.length := by
        rw [length_setN]; exact hprevlt2
      have hst2b : ws.1 < (setN ws.2 parent
          {getN ws.2 parent with
            elements := (getN ws.2 parent).elements.dropLast}).nodes.length := by
        rw [length_setN]; exact hwlt
      have haB : prev < (allocN (setN ws.2 parent
          {getN ws.2 parent with
            elements := (getN ws.2 parent).elements.dropLast})
          {getNodeBase (some parent) AstType.CharacterClassRange with
            rmin := prev, rmax := ws.1}).2.nodes.length := by
        rw [length_allocN, length_setN]; omega
      have hbB2 : ws.1 < (allocN (setN ws.2 parent
          {getN ws.2 parent with
            elements := (getN ws.2 parent).elements.dropLast})
          {getNodeBase (some parent) AstType.CharacterClassRange with
            rmin := prev, rmax := ws.1}).2.nodes.length := by
        rw [length_allocN, length_setN]; omega
      refine ⟨setN (setN rs.2 prev {getN rs.2 prev with parent := some rs.1}) ws.1
        {getN (setN rs.2 prev {getN rs.2 prev with parent := some rs.1}) ws.1 with
          parent := some rs.1}, ?_, ?_, ?_, ?_, ?_, ?_⟩
      · simp only [run, htok, htt]
        rw [if_pos hg]
        simp only [hlast, hws]
        rw [if_pos ⟨hc1, hc2⟩]
        simp only [hcr]
      · have hgr : getN (setN (setN rs.2 prev
            {getN rs.2 prev with parent := some rs.1}) ws.1
            {getN (setN rs.2 prev {getN rs.2 prev with parent := some rs.1}) ws.1 with
              parent := some rs.1}) rs.1 =
            {getNodeBase (some parent) AstType.CharacterClassRange with
              rmin := prev, rmax := ws.1} := by
          rw [hrs']
          exact getN_setN2_alloc _ _ _ _ hst2a hst2b
        rw [hgr]
        rfl
      · have hgr : getN (setN (setN rs.2 prev
            {getN rs.2 prev with parent := some rs.1}) ws.1
            {getN (setN rs.2 prev {getN rs.2 prev with parent := some rs.1}) ws.1 with
              parent := some rs.1}) rs.1 =
            {getNodeBase (some parent) AstType.CharacterClassRange with
              rmin := prev, rmax := ws.1} := by
          rw [hrs']
          exact getN_setN2_alloc _ _ _ _ hst2a hst2b
        rw [hgr]
      · have hgr : getN (setN (setN rs.2 prev
            {getN rs.2 prev with parent := some rs.1}) ws.1
            {getN (setN rs.2 prev {getN rs.2 prev with parent := some rs.1}) ws.1 with
              parent := some rs.1}) rs.1 =
            {getNodeBase (some parent) AstType.CharacterClassRange with
              rmin := prev, rmax := ws.1} := by
          rw [hrs']
          exact getN_setN2_alloc _ _ _ _ hst2a hst2b
        rw [hgr]
      · rw [hrs']
        exact (getN_double_reparent _ _ haB hbB2).1
      · rw [hrs']
        exact (getN_double_reparent _ _ haB hbB2).2

/-- Witness token for C9: a class hyphen. -/
def c9wTok : Token := {type := .CharacterClassHyphen, raw := "-", value := 45}

/-- Witness state for C9: an empty class base at index 0, a hyphen token
about to be read. -/
def c9wSt : PState :=
  {tokens := [c9wTok], optimize := false,
   nodes := [{type := .CharacterClass, elements := []}], current := 0}

/-- The witness state with the hyphen token consumed. -/
def c9wSt1 : PState := {c9wSt with current := c9wSt.current + 1}

/-- Witness for `C9_hyphen_range`: on the empty class base no range is
formed and a literal hyphen `Character` is emitted. -/
theorem C9_witness :
    (hyphenRangeGuard c9wSt1 0 (tokenAt c9wSt1 (c9wSt.current + 1)) = true ↔
      rangeFormedCond c9wSt1 0 (tokenAt c9wSt1 (c9wSt.current + 1))) ∧
    run 6 (Job.walk 0) c9wSt = .ok (createCharacter c9wSt1 0 45) ∧
    (getN (createCharacter c9wSt1 0 45).2
      (createCharacter c9wSt1 0 45).1).type = AstType.Character ∧
    (getN (createCharacter c9wSt1 0 45).2
      (createCharacter c9wSt1 0 45).1).value = 45 := by
  have h := C9_hyphen_range 5 c9wSt c9wSt1 0 c9wTok
    (boundedSt_of_boundedStB (by decide)) (by decide) (by decide) (by decide) rfl
  exact ⟨h.1, h.2.1 (by decide)⟩

end OnigParse
